import Mathlib

/-!
# FlexiCalendar: date utilities, calendar state engine and focus controller

A shallow embedding of `src/utils/dateUtils.js`, `src/hooks/useCalendar.js` and the
focus logic of `src/components/FlexiCalendar/FlexiCalendar.jsx`.

The JavaScript `Date` object is modelled after ECMAScript (ECMA-262, "Date Objects"):
a `Date` holds a *time value*, an integral number of milliseconds since the epoch, or
NaN ("Invalid Date").  Time values are clipped to `±8.64e15` (`TimeClip`).

Modelling conventions.
* Numbers are integers; `none : Option Int` stands for NaN (and the infinities, which
  every operation used here turns into NaN).
* The first part of the embedding is for a host whose local time is UTC, so that
  `LocalTime` and `UTC` are the identity and every day has 24 hours.
* The section on `Zone` embeds the functions that shift a date by multiples of 24 hours
  (`shiftDate` and its callers) for a host with any time zone, with `LocalTime` and `UTC`
  as in ECMAScript; for the zone `Zone.utc` they are the functions of the first part.
  The behaviour of these functions across a change of the offset is settled there.
* JavaScript `null`/`undefined` results are `none : Option JSDate`; an `Invalid Date`
  object is `some ⟨none⟩` (it is an object, hence truthy).
-/

namespace FlexiCalendar

/-! ## ECMAScript day and time arithmetic -/

/-- `DAY_IN_MS` of `dateUtils.js`, ECMAScript `msPerDay`. -/
def DAY_IN_MS : Int := 86400000

/-- Largest magnitude of a time value (ECMAScript `TimeClip`). -/
def maxTime : Int := 8640000000000000

/-- ECMAScript `TimeClip`: NaN outside `±8.64e15`. -/
def timeClip (t : Int) : Option Int :=
  if -maxTime ≤ t ∧ t ≤ maxTime then some t else none

/-- ECMAScript `Day(t) = floor(t / msPerDay)`. -/
def day (t : Int) : Int := t / DAY_IN_MS

/-- ECMAScript `TimeWithinDay(t) = t modulo msPerDay`. -/
def timeWithinDay (t : Int) : Int := t % DAY_IN_MS

/-- ECMAScript `DaysInYear(y)`. -/
def daysInYear (y : Int) : Int :=
  if y % 4 ≠ 0 then 365
  else if y % 100 ≠ 0 then 366
  else if y % 400 ≠ 0 then 365
  else 366

/-- ECMAScript `DayFromYear(y)`: the day number of the first day of year `y`. -/
def dayFromYear (y : Int) : Int :=
  365 * (y - 1970) + (y - 1969) / 4 - (y - 1901) / 100 + (y - 1601) / 400

/-- ECMAScript `YearFromTime`, on day numbers: the largest `y` with
`dayFromYear y ≤ d`.  Computed from the estimate `1970 + floor(400 d / 146097)`,
which is off by at most one. -/
def yearFromDay (d : Int) : Int :=
  let y := 1970 + (400 * d) / 146097
  if d < dayFromYear y then y - 1
  else if dayFromYear (y + 1) ≤ d then y + 1
  else y

/-- ECMAScript `InLeapYear`, on day numbers (1 in a leap year, 0 otherwise). -/
def inLeapYear (d : Int) : Int :=
  if daysInYear (yearFromDay d) = 366 then 1 else 0

/-- ECMAScript `DayWithinYear`, on day numbers. -/
def dayWithinYear (d : Int) : Int := d - dayFromYear (yearFromDay d)

/-- Number of days of the year before month `m` (0-based); `leap` is 0 or 1.
These are the breakpoints of the ECMAScript `MonthFromTime` table. -/
def monthStart (leap : Int) (m : Int) : Int :=
  if m ≤ 0 then 0
  else if m = 1 then 31
  else if m = 2 then 59 + leap
  else if m = 3 then 90 + leap
  else if m = 4 then 120 + leap
  else if m = 5 then 151 + leap
  else if m = 6 then 181 + leap
  else if m = 7 then 212 + leap
  else if m = 8 then 243 + leap
  else if m = 9 then 273 + leap
  else if m = 10 then 304 + leap
  else if m = 11 then 334 + leap
  else 365 + leap

/-- The ECMAScript `MonthFromTime` table: the month of day-within-year `w` in a year
with leap indicator `l`. -/
def monthOfYearDay (w l : Int) : Int :=
  if w < 31 then 0
  else if w < 59 + l then 1
  else if w < 90 + l then 2
  else if w < 120 + l then 3
  else if w < 151 + l then 4
  else if w < 181 + l then 5
  else if w < 212 + l then 6
  else if w < 243 + l then 7
  else if w < 273 + l then 8
  else if w < 304 + l then 9
  else if w < 334 + l then 10
  else 11

/-- ECMAScript `MonthFromTime`, on day numbers. -/
def monthFromDay (d : Int) : Int :=
  monthOfYearDay (dayWithinYear d) (inLeapYear d)

/-- Row `m` of the month table holds day-within-year `w`. -/
def MonthRow (w l m : Int) : Prop :=
  monthStart l m ≤ w ∧ w < monthStart l (m + 1) ∧ 0 ≤ m ∧ m ≤ 11

/-- ECMAScript `DateFromTime`, on day numbers: the day of the month, from 1. -/
def dateFromDay (d : Int) : Int :=
  dayWithinYear d - monthStart (inLeapYear d) (monthFromDay d) + 1

/-- ECMAScript `WeekDay`, on day numbers: 0 is Sunday; day 0 was a Thursday. -/
def weekDay (d : Int) : Int := (d + 4) % 7

/-- ECMAScript `MakeDay(year, month, date)`: month overflow is carried into the year,
and `date` counts on from the first of that month without any range restriction. -/
def makeDay (year month date : Int) : Int :=
  let ym := year + month / 12
  let mn := month % 12
  dayFromYear ym + monthStart (if daysInYear ym = 366 then 1 else 0) mn + date - 1

/-- ECMAScript `MakeDate(day, time)`. -/
def makeDate (d time : Int) : Int := d * DAY_IN_MS + time

/-- ECMAScript `MakeFullYear`: the year the constructor `new Date(year, month, date)`
works with; a year from 0 to 99 denotes 1900 + year. -/
def fullYear (y : Int) : Int := if 0 ≤ y ∧ y ≤ 99 then 1900 + y else y

/-! ## JavaScript `Date` objects -/

/-- A JavaScript `Date` object, given by its time value; `none` is NaN, the time value
of an "Invalid Date". -/
structure JSDate where
  tv : Option Int
  deriving DecidableEq, Repr

namespace JSDate

/-- The constructor `new Date(number)`: the time value is clipped. -/
def ofTime (n : Option Int) : JSDate := ⟨n.bind timeClip⟩

/-- The method `getTime()`. -/
def getTime (d : JSDate) : Option Int := d.tv

/-- The constructor `new Date(date)`, used to copy a date. -/
def copy (d : JSDate) : JSDate := ofTime d.getTime

/-- The method `getFullYear()`; NaN for an invalid date. -/
def getFullYear (d : JSDate) : Option Int := d.tv.map fun t => yearFromDay (day t)

/-- The method `getMonth()`, from 0. -/
def getMonth (d : JSDate) : Option Int := d.tv.map fun t => monthFromDay (day t)

/-- The method `getDate()`: the day of the month, from 1. -/
def getDate (d : JSDate) : Option Int := d.tv.map fun t => dateFromDay (day t)

/-- The method `getDay()`: the weekday, 0 for Sunday. -/
def getDay (d : JSDate) : Option Int := d.tv.map fun t => weekDay (day t)

/-- The call `setHours(0, 0, 0, 0)` on a host whose local time is UTC:
`MakeDate(Day(t), MakeTime(0,0,0,0))`, clipped.  For any zone see `Zoned.setHours0`. -/
def setHours0 (d : JSDate) : JSDate :=
  ⟨d.tv.bind fun t => timeClip (makeDate (day t) 0)⟩

/-- The method `setDate(dt)`:
`MakeDate(MakeDay(YearFromTime(t), MonthFromTime(t), dt), TimeWithinDay(t))`, clipped. -/
def setDate (d : JSDate) (dt : Option Int) : JSDate :=
  ⟨d.tv.bind fun t => dt.bind fun n =>
    timeClip (makeDate (makeDay (yearFromDay (day t)) (monthFromDay (day t)) n)
      (timeWithinDay t))⟩

/-- The method `setMonth(m)`:
`MakeDate(MakeDay(YearFromTime(t), m, DateFromTime(t)), TimeWithinDay(t))`, clipped. -/
def setMonth (d : JSDate) (m : Option Int) : JSDate :=
  ⟨d.tv.bind fun t => m.bind fun n =>
    timeClip (makeDate (makeDay (yearFromDay (day t)) n (dateFromDay (day t)))
      (timeWithinDay t))⟩

/-- The constructor `new Date(year, month, date)`:
`MakeDate(MakeDay(MakeFullYear(year), month, date), MakeTime(0,0,0,0))`, clipped. -/
def ofYMD (year month date : Option Int) : JSDate :=
  ⟨year.bind fun y => month.bind fun m => date.bind fun dt =>
    timeClip (makeDate (makeDay (fullYear y) m dt) 0)⟩

/-- A date is valid when its time value is a number. -/
def Valid (d : JSDate) : Prop := d.tv.isSome = true

instance (d : JSDate) : Decidable d.Valid := inferInstanceAs (Decidable (_ = true))

end JSDate

/-- The valid date at local midnight of day number `n`. -/
def dateOfDay (n : Int) : JSDate := ⟨some (n * DAY_IN_MS)⟩

/-! ## JavaScript numbers -/

/-- JavaScript `a + b` on numbers. -/
def numAdd (a b : Option Int) : Option Int := a.bind fun x => b.map fun y => x + y

/-- JavaScript `a - b` on numbers. -/
def numSub (a b : Option Int) : Option Int := a.bind fun x => b.map fun y => x - y

/-- JavaScript `a % b` on integers: the remainder has the sign of the dividend, and
is NaN when the divisor is zero. -/
def numMod (a b : Option Int) : Option Int :=
  a.bind fun x => b.bind fun y => if y = 0 then none else some (Int.tmod x y)

/-- JavaScript `a === b` on numbers: NaN equals nothing. -/
def numEq (a b : Option Int) : Bool := match a, b with
  | some x, some y => decide (x = y)
  | _, _ => false

/-- JavaScript `a < b` on numbers: false when either side is NaN. -/
def numLt (a b : Option Int) : Bool := match a, b with
  | some x, some y => decide (x < y)
  | _, _ => false

/-! ## Values accepted where the program expects a date -/

/-- The values the date utilities distinguish.  A string is represented by the time
value `Date.parse` gives it (`none` when it cannot be parsed); `other` covers `null`,
`undefined` and every object that is not a `Date`. -/
inductive Value where
  | date (d : JSDate)
  | number (n : Option Int)
  | string (parsed : Option Int)
  | other
  deriving DecidableEq, Repr

/-- A possibly-null date passed on as an argument. -/
def Value.ofOption : Option JSDate → Value
  | some d => Value.date d
  | none => Value.other

/-! ## Number-to-string conversion -/

/-- The decimal digit `n < 10` as a character. -/
def digitChar (n : Nat) : Char := Char.ofNat (48 + n)

/-- The decimal digits of `n`, most significant first; `fuel` bounds the recursion and
`n + 1` is always enough. -/
def natDigits : Nat → Nat → List Char
  | 0, _ => []
  | fuel + 1, n =>
    if n < 10 then [digitChar n] else natDigits fuel (n / 10) ++ [digitChar (n % 10)]

/-- JavaScript `String(n)` for a natural number. -/
def natToString (n : Nat) : String := String.mk (natDigits (n + 1) n)

/-- JavaScript number-to-string conversion, as in a template literal: decimal for an
integer, with a leading minus sign when negative, and `NaN`. -/
def numberToString : Option Int → String
  | none => "NaN"
  | some (Int.ofNat n) => natToString n
  | some (Int.negSucc n) => "-" ++ natToString (n + 1)

/-- The call `padStart(2, '0')`. -/
def padStart2 (s : String) : String :=
  if 2 ≤ s.length then s else String.mk (List.replicate (2 - s.length) '0') ++ s

/-! ## `src/utils/dateUtils.js` -/

/-- `toDate(value)`. -/
def toDate : Value → Option JSDate
  | Value.date d => some (JSDate.ofTime d.getTime)
  | Value.number n => some (JSDate.ofTime n)
  | Value.string parsed =>
    let p := JSDate.ofTime parsed
    if p.getTime = none then none else some p
  | Value.other => none

/-- `normalizeDate(value)`. -/
def normalizeDate (value : Value) : Option JSDate :=
  match toDate value with
  | none => none
  | some date => some date.setHours0

/-- `startOfMonth(value)`. -/
def startOfMonth (value : Value) : Option JSDate :=
  match normalizeDate value with
  | none => none
  | some date => some (date.setDate (some 1))

/-- `dateKey(value)`. -/
def dateKey (value : Value) : String :=
  match normalizeDate value with
  | none => ""
  | some date =>
    let year := date.getFullYear
    let month := padStart2 (numberToString (numAdd date.getMonth (some 1)))
    let d := padStart2 (numberToString date.getDate)
    numberToString year ++ "-" ++ month ++ "-" ++ d

/-- `isSameDay(a, b)`. -/
def isSameDay (a b : Option JSDate) : Bool :=
  match a, b with
  | some a, some b =>
    numEq a.getFullYear b.getFullYear && numEq a.getMonth b.getMonth &&
      numEq a.getDate b.getDate
  | _, _ => false

/-- `isBefore(a, b)`. -/
def isBefore (a b : Option JSDate) : Bool :=
  match a, b with
  | some a, some b => numLt a.getTime b.getTime
  | _, _ => false

/-- `isAfter(a, b)`. -/
def isAfter (a b : Option JSDate) : Bool :=
  match a, b with
  | some a, some b => numLt b.getTime a.getTime
  | _, _ => false

/-- `addMonths(date, count)`. -/
def addMonths (date : Value) (count : Int) : Option JSDate :=
  match startOfMonth date with
  | none => none
  | some base => some (base.setMonth (numAdd base.getMonth (some count)))

/-- `generateMonthMatrix(year, month, { weekStartsOn })`: six weeks of seven cells. -/
def generateMonthMatrix (year month : Option Int) (weekStartsOn : Int) :
    List (List JSDate) :=
  let firstOfMonth := JSDate.ofYMD year month (some 1)
  let startDay := numMod (numAdd (numSub firstOfMonth.getDay (some weekStartsOn)) (some 7))
    (some 7)
  let gridStart := (JSDate.copy firstOfMonth).setDate (numSub firstOfMonth.getDate startDay)
  (List.range 6).map fun (weekIndex : Nat) =>
    (List.range 7).map fun (dayIndex : Nat) =>
      (JSDate.copy gridStart).setDate
        (numAdd (numAdd gridStart.getDate (some ((weekIndex : Int) * 7)))
          (some (dayIndex : Int)))

/-- The day number of the first grid cell: the first of the month, moved back to the
start of its week. -/
def gridStartDay (year month weekStartsOn : Int) : Int :=
  makeDay (fullYear year) month 1 -
    (weekDay (makeDay (fullYear year) month 1) - weekStartsOn + 7) % 7

/-- Date `b` is the midnight exactly one calendar day after the midnight `a`. -/
def IsNextDay (a b : JSDate) : Prop := ∃ n : Int, a = dateOfDay n ∧ b = dateOfDay (n + 1)

/-- `isWithinRange(date, minDate, maxDate)`. -/
def isWithinRange (date : Value) (minDate maxDate : Option JSDate) : Bool :=
  match normalizeDate date with
  | none => false
  | some normalized =>
    if minDate.isSome && isBefore (some normalized) minDate then false
    else if maxDate.isSome && isAfter (some normalized) maxDate then false
    else true

/-- `buildDateSet(values)`: the set of keys, kept as a list. -/
def buildDateSet (values : List Value) : List String :=
  values.filterMap fun value =>
    match normalizeDate value with
    | none => none
    | some normalized => some (dateKey (Value.date normalized))

/-- `clampDateToRange(date, minDate, maxDate)`. -/
def clampDateToRange (date : Value) (minDate maxDate : Option JSDate) : Option JSDate :=
  match normalizeDate date with
  | none => none
  | some normalized =>
    if minDate.isSome && isBefore (some normalized) minDate then minDate.map JSDate.copy
    else if maxDate.isSome && isAfter (some normalized) maxDate then maxDate.map JSDate.copy
    else some normalized

/-- `shiftDate(date, offset)` on a host whose local time is UTC; there the 24-hour
steps it takes are whole days.  For any zone see `Zoned.shiftDate`. -/
def shiftDate (date : Value) (offset : Int) : Option JSDate :=
  match normalizeDate date with
  | none => none
  | some normalized =>
    some (JSDate.ofTime (numAdd normalized.getTime (some (offset * DAY_IN_MS)))).setHours0

/-! ## `src/hooks/useCalendar.js`: the active month anchor

The state `activeMonthDate` is kept as `Option JSDate`, `none` being `null`. -/

/-- The memo `startDate` of `useCalendar`, with `now` the value of `new Date()`.  An
`initialDate` that is `undefined` takes the default `new Date()`, which is also what the
fallback `|| normalizeDate(new Date())` gives for `Value.other`. -/
def startDate (now : JSDate) (initialDate minDate maxDate : Value) : Option JSDate :=
  let normalizedMinDate := normalizeDate minDate
  let normalizedMaxDate := normalizeDate maxDate
  let normalizedInitial := normalizeDate initialDate <|> normalizeDate (Value.date now)
  clampDateToRange (Value.ofOption (startOfMonth (Value.ofOption normalizedInitial)))
      normalizedMinDate normalizedMaxDate
    <|> startOfMonth (Value.date now)

/-- `goToNextMonth`, as the update of the anchor. -/
def goToNextMonth (current : Option JSDate) : Option JSDate :=
  addMonths (Value.ofOption current) 1

/-- `goToPreviousMonth`. -/
def goToPreviousMonth (current : Option JSDate) : Option JSDate :=
  addMonths (Value.ofOption current) (-1)

/-- `goToNextYear`. -/
def goToNextYear (current : Option JSDate) : Option JSDate :=
  addMonths (Value.ofOption current) 12

/-- `goToPreviousYear`. -/
def goToPreviousYear (current : Option JSDate) : Option JSDate :=
  addMonths (Value.ofOption current) (-12)

/-- `goToMonth(year, month)`: the new anchor. -/
def goToMonth (year month : Option Int) : Option JSDate :=
  startOfMonth (Value.date (JSDate.ofYMD year month (some 1)))

/-- `goToDate(value)`: the anchor changes only when the result is not null. -/
def goToDate (value : Value) (current : Option JSDate) : Option JSDate :=
  match startOfMonth (Value.ofOption (normalizeDate value)) with
  | some normalized => some normalized
  | none => current

/-- `goToToday`, with `now` the value of `new Date()`. -/
def goToToday (now : JSDate) : Option JSDate :=
  startOfMonth (Value.date now)

/-- The memo `weeks` of `useCalendar`. -/
def weeks (activeMonthDate : JSDate) (weekStartsOn : Int) : List (List JSDate) :=
  generateMonthMatrix activeMonthDate.getFullYear activeMonthDate.getMonth weekStartsOn

/-! ## `src/components/FlexiCalendar/FlexiCalendar.jsx`: focus -/

/-- What `isDateDisabled` reads from `useCalendar`: the normalized bounds and the set
of disabled keys. -/
structure Config where
  normalizedMinDate : Option JSDate
  normalizedMaxDate : Option JSDate
  disabledSet : List String

/-- `isDateDisabled(value)`. -/
def isDateDisabled (cfg : Config) (value : Value) : Bool :=
  match normalizeDate value with
  | none => true
  | some normalized =>
    if !isWithinRange (Value.date normalized) cfg.normalizedMinDate cfg.normalizedMaxDate
    then true
    else decide (dateKey (Value.date normalized) ∈ cfg.disabledSet)

/-- The `while (attempts < 120)` loop of `findFocusableDate`; the first argument is the
number of attempts left, `120 - attempts`. -/
def scanFocusable (cfg : Config) (step : Int) : Nat → JSDate → Option JSDate
  | 0, _ => none
  | left + 1, cursor =>
    match shiftDate (Value.date cursor) step with
    | none => none
    | some next =>
      if !isDateDisabled cfg (Value.date next) then some next
      else scanFocusable cfg step left next

/-- `findFocusableDate(candidate, direction)`. -/
def findFocusableDate (cfg : Config) (candidate : Value) (direction : Int) :
    Option JSDate :=
  match normalizeDate candidate with
  | none => none
  | some normalizedCandidate =>
    if !isDateDisabled cfg (Value.date normalizedCandidate) then some normalizedCandidate
    else
      let step : Int := if direction ≥ 0 then 1 else -1
      scanFocusable cfg step 120 normalizedCandidate

/-! ## `FlexiCalendar.jsx`: the focus state and its updates -/

/-- JavaScript `a !== b` on numbers: NaN differs from everything. -/
def numNe (a b : Option Int) : Bool := !numEq a b

/-- The options of the component that the focus logic reads. -/
structure Options where
  showAdjacentDays : Bool
  allowOutsideDaysNavigation : Bool
  weekStartsOn : Int

/-- The state the focus logic reads and writes: `focusDate` of the component and
`activeMonthDate` of `useCalendar`. -/
structure FocusState where
  focusDate : Option JSDate
  activeMonthDate : Option JSDate

/-- The initial value of the state `focusDate`, with `now` the value of `new Date()`. -/
def initialFocus (cfg : Config) (effectiveSelectedDate activeMonthDate : Option JSDate)
    (now : JSDate) : Option JSDate :=
  findFocusableDate cfg (Value.ofOption (effectiveSelectedDate <|> activeMonthDate)) 1
    <|> effectiveSelectedDate <|> activeMonthDate <|> normalizeDate (Value.date now)

/-- The memo `effectiveSelectedStable`. -/
def effectiveSelectedStable (effectiveSelectedDate : Option JSDate) : Option JSDate :=
  match effectiveSelectedDate with
  | none => none
  | some d => normalizeDate (Value.date d)

/-- The memo `activeMonthStable`. -/
def activeMonthStable (activeMonthDate : Option JSDate) : Option JSDate :=
  match activeMonthDate with
  | none => none
  | some d => some (JSDate.ofTime d.getTime)

/-- The test `a.getFullYear() === b.getFullYear() && a.getMonth() === b.getMonth()`. -/
def sameMonth (a b : JSDate) : Bool :=
  numEq a.getFullYear b.getFullYear && numEq a.getMonth b.getMonth

/-- The update of `focusDate` by the effect that follows the selection. -/
def reconcileSelection (cfg : Config) (effectiveSelectedDate : Option JSDate)
    (current : Option JSDate) : Option JSDate :=
  match effectiveSelectedStable effectiveSelectedDate with
  | none => current
  | some selected =>
    if current.isSome && isSameDay current (some selected) then current
    else
      match findFocusableDate cfg (Value.date selected) 1 with
      | some next =>
        if current.isSome && isSameDay current (some next) then current else some next
      | none => current <|> some selected

/-- The update of `focusDate` by the effect that follows the active month. -/
def reconcileMonth (cfg : Config) (effectiveSelectedDate activeMonthDate : Option JSDate)
    (current : Option JSDate) : Option JSDate :=
  match activeMonthStable activeMonthDate with
  | none => current
  | some active =>
    if (match current with
        | some c => sameMonth c active
        | none => false) then current
    else
      let baseline :=
        match effectiveSelectedStable effectiveSelectedDate with
        | some selected => if sameMonth selected active then selected else active
        | none => active
      match findFocusableDate cfg (Value.date baseline) 1 with
      | some next =>
        if current.isSome && isSameDay current (some next) then current else some next
      | none => current <|> some baseline

/-- `moveFocusToDate(candidate, direction)`. -/
def moveFocusToDate (cfg : Config) (opts : Options) (s : FocusState) (candidate : Value)
    (direction : Int) : FocusState :=
  match findFocusableDate cfg candidate direction with
  | none => s
  | some next =>
    let focus :=
      if s.focusDate.isSome && isSameDay s.focusDate (some next) then s.focusDate
      else some next
    let activeYear := s.activeMonthDate.bind JSDate.getFullYear
    let activeMonth := s.activeMonthDate.bind JSDate.getMonth
    let anchor :=
      if numNe next.getFullYear activeYear || numNe next.getMonth activeMonth then
        if !opts.showAdjacentDays then goToDate (Value.date next) s.activeMonthDate
        else if opts.allowOutsideDaysNavigation then
          goToDate (Value.date next) s.activeMonthDate
        else s.activeMonthDate
      else s.activeMonthDate
    ⟨focus, anchor⟩

/-- The reference date of the keyboard moves:
`normalizeDate(baseDateOverride || focusDate || effectiveSelectedDate || activeMonthDate)`. -/
def referenceDate (effectiveSelectedDate : Option JSDate) (s : FocusState)
    (baseDateOverride : Option JSDate) : Option JSDate :=
  normalizeDate (Value.ofOption
    (baseDateOverride <|> s.focusDate <|> effectiveSelectedDate <|> s.activeMonthDate))

/-- `moveFocusByDays(offset, baseDateOverride)`; a NaN offset is falsy like 0. -/
def moveFocusByDays (cfg : Config) (opts : Options) (effectiveSelectedDate : Option JSDate)
    (s : FocusState) (offset : Option Int) (baseDateOverride : Option JSDate) : FocusState :=
  match offset with
  | none => s
  | some offset =>
    if offset = 0 then s
    else
      match referenceDate effectiveSelectedDate s baseDateOverride with
      | none => s
      | some reference =>
        moveFocusToDate cfg opts s (Value.ofOption (shiftDate (Value.date reference) offset))
          (if offset ≥ 0 then 1 else -1)

/-- `moveFocusByMonths(delta, baseDateOverride)`. -/
def moveFocusByMonths (cfg : Config) (opts : Options) (effectiveSelectedDate : Option JSDate)
    (s : FocusState) (delta : Int) (baseDateOverride : Option JSDate) : FocusState :=
  match referenceDate effectiveSelectedDate s baseDateOverride with
  | none => s
  | some reference =>
    let candidate := JSDate.ofTime reference.getTime
    let candidate := candidate.setMonth (numAdd candidate.getMonth (some delta))
    moveFocusToDate cfg opts s (Value.date candidate) (if delta ≥ 0 then 1 else -1)

/-- `focusWeekEdge(edge, baseDateOverride)`; `isStart` is `edge === 'start'`. -/
def focusWeekEdge (cfg : Config) (opts : Options) (effectiveSelectedDate : Option JSDate)
    (s : FocusState) (isStart : Bool) (baseDateOverride : Option JSDate) : FocusState :=
  match referenceDate effectiveSelectedDate s baseDateOverride with
  | none => s
  | some reference =>
    let dayIndex :=
      numMod (numAdd (numSub reference.getDay (some opts.weekStartsOn)) (some 7)) (some 7)
    let offset := if isStart then numSub (some 0) dayIndex else numSub (some 6) dayIndex
    if numNe offset (some 0) then
      moveFocusByDays cfg opts effectiveSelectedDate s offset (some reference)
    else s

/-- `focusToday()`, with `now` the value of `new Date()`. -/
def focusToday (cfg : Config) (opts : Options) (s : FocusState) (now : JSDate) :
    FocusState :=
  match normalizeDate (Value.date now) with
  | none => s
  | some today => moveFocusToDate cfg opts s (Value.date today) 1

/-- The flag `isDisabled` that `renderDayCell` computes for the cell of `date`. -/
def cellIsDisabled (cfg : Config) (date : JSDate) : Bool :=
  !isWithinRange (Value.date date) cfg.normalizedMinDate cfg.normalizedMaxDate ||
    decide (dateKey (Value.date date) ∈ cfg.disabledSet)

/-- The `onFocus` handler of the cell of `date`, as the update of `focusDate`. -/
def onFocusCell (cfg : Config) (date : JSDate) (current : Option JSDate) :
    Option JSDate :=
  if !cellIsDisabled cfg date then
    if current.isSome && isSameDay current (normalizeDate (Value.date date)) then current
    else normalizeDate (Value.date date)
  else current

/-- One update of the focus state while the props `minDate`, `maxDate` and
`disabledDates` stay the same: an effect, a keyboard move, a focus event, or a
navigation of the active month (which leaves the focus alone).  The selection, the
options and the current date may differ from one step to the next.  A change of the
configuration `cfg` (bounds and disabled set) is not a step of this relation: what the
effects do after such a change is evaluated with the new configuration directly. -/
inductive FocusStep (cfg : Config) : FocusState → FocusState → Prop
  | reconcileSelection (sel : Option JSDate) (s : FocusState) :
      FocusStep cfg s ⟨reconcileSelection cfg sel s.focusDate, s.activeMonthDate⟩
  | reconcileMonth (sel : Option JSDate) (s : FocusState) :
      FocusStep cfg s ⟨reconcileMonth cfg sel s.activeMonthDate s.focusDate,
        s.activeMonthDate⟩
  | moveFocusToDate (opts : Options) (s : FocusState) (candidate : Value) (direction : Int) :
      FocusStep cfg s (moveFocusToDate cfg opts s candidate direction)
  | moveFocusByDays (opts : Options) (sel : Option JSDate) (s : FocusState)
      (offset : Option Int) (base : Option JSDate) :
      FocusStep cfg s (moveFocusByDays cfg opts sel s offset base)
  | moveFocusByMonths (opts : Options) (sel : Option JSDate) (s : FocusState)
      (delta : Int) (base : Option JSDate) :
      FocusStep cfg s (moveFocusByMonths cfg opts sel s delta base)
  | focusWeekEdge (opts : Options) (sel : Option JSDate) (s : FocusState)
      (isStart : Bool) (base : Option JSDate) :
      FocusStep cfg s (focusWeekEdge cfg opts sel s isStart base)
  | focusToday (opts : Options) (s : FocusState) (now : JSDate) :
      FocusStep cfg s (focusToday cfg opts s now)
  | onFocus (date : JSDate) (s : FocusState) :
      FocusStep cfg s ⟨onFocusCell cfg date s.focusDate, s.activeMonthDate⟩
  | navigate (anchor : Option JSDate) (s : FocusState) :
      FocusStep cfg s ⟨s.focusDate, anchor⟩

/-- The states reached from `s0` by any number of updates. -/
inductive FocusReachable (cfg : Config) (s0 : FocusState) : FocusState → Prop
  | start : FocusReachable cfg s0 s0
  | step {s t : FocusState} : FocusReachable cfg s0 s → FocusStep cfg s t →
      FocusReachable cfg s0 t

/-- The focus is on a date that is not disabled. -/
def FocusEnabled (cfg : Config) (focusDate : Option JSDate) : Prop :=
  ∃ d, focusDate = some d ∧ isDateDisabled cfg (Value.date d) = false

/-! ## `FlexiCalendar.jsx`: `dateFromKey` -/

/-- `key.split('-')`, on the characters of the key. -/
def splitOnDash : List Char → List (List Char)
  | [] => [[]]
  | c :: cs =>
    if c = '-' then [] :: splitOnDash cs
    else
      match splitOnDash cs with
      | [] => [[c]]
      | segment :: rest => (c :: segment) :: rest

/-- The value of a decimal digit. -/
def digitValue (c : Char) : Option Nat :=
  if 48 ≤ c.toNat ∧ c.toNat ≤ 57 then some (c.toNat - 48) else none

/-- The number a string of decimal digits denotes; the empty string denotes 0. -/
def parseDigits (s : List Char) : Option Nat :=
  s.foldl (fun acc c => acc.bind fun a => (digitValue c).map fun d => a * 10 + d) (some 0)

/-- `Number(segment)` on the segments of a key: the empty string is 0, a string of
decimal digits is its value, and every other segment a key of `dateKey` can have
(`NaN`) is NaN.  The other numeric literals of JavaScript (sign, fraction, exponent,
hexadecimal, surrounding blanks, `Infinity`) occur in no key and are not modelled. -/
def jsNumber (s : List Char) : Option Int := (parseDigits s).map Int.ofNat

/-- `dateFromKey(key)`. -/
def dateFromKey (key : String) : Option JSDate :=
  if key = "" then none
  else
    match (splitOnDash key.data).map jsNumber with
    | [year, month, day] =>
      if year.isNone || month.isNone || day.isNone then none
      else some (JSDate.ofYMD year (numSub month (some 1)) day).setHours0
    | _ => none

/-! ## `FlexiCalendar.jsx`: selection, click and key handlers -/

/-- The selection side of the component: the state `internalSelected` and the arguments
of the calls made so far to the prop `onDateSelect`, oldest first. -/
structure SelectState where
  /-- The uncontrolled selection. -/
  internalSelected : Option JSDate
  /-- The dates `onDateSelect` was called with. -/
  onDateSelectCalls : List JSDate
  deriving DecidableEq, Repr

/-- `handleSelect(date)`; `controlledSelected` is `normalizeDate(selectedDate)` and
`hasOnDateSelect` tells whether the prop `onDateSelect` is given. -/
def handleSelect (controlledSelected : Option JSDate) (hasOnDateSelect : Bool)
    (s : SelectState) (date : Option JSDate) : SelectState :=
  match date with
  | none => s
  | some d =>
    { internalSelected := if controlledSelected.isNone then some d else s.internalSelected
      onDateSelectCalls :=
        if hasOnDateSelect then s.onDateSelectCalls ++ [d] else s.onDateSelectCalls }

/-- The state the handlers of a day cell act on: focus and active month, and selection. -/
structure CalendarState where
  /-- The focused date and the active month anchor. -/
  focus : FocusState
  /-- The selection and the calls of `onDateSelect`. -/
  select : SelectState

/-- `handleClick` of the cell of `date` in `renderDayCell`. -/
def handleClick (cfg : Config) (opts : Options) (controlledSelected : Option JSDate)
    (hasOnDateSelect : Bool) (st : CalendarState) (date : JSDate) : CalendarState :=
  if cellIsDisabled cfg date then st
  else
    let isCurrentMonth := numEq date.getMonth (st.focus.activeMonthDate.bind JSDate.getMonth)
    let anchor :=
      if !isCurrentMonth && opts.allowOutsideDaysNavigation then
        goToDate (Value.date date) st.focus.activeMonthDate
      else st.focus.activeMonthDate
    { focus := ⟨st.focus.focusDate, anchor⟩
      select := handleSelect controlledSelected hasOnDateSelect st.select
        (normalizeDate (Value.date date)) }

/-- The values of `event.key` that `handleKeyDown` distinguishes. -/
inductive Key where
  | arrowUp | arrowDown | arrowLeft | arrowRight | pageUp | pageDown | home | endKey
  | enter | space | spacebar | lowerT | upperT | otherKey
  deriving DecidableEq, Repr

/-- `handleKeyDown(event)` of the cell of `date` in `renderDayCell`; `shiftOrCtrl` is
`event.shiftKey || event.ctrlKey` and `now` the value of `new Date()`; `sel` is
`effectiveSelectedDate`, that is `controlledSelected || internalSelected`. -/
def handleKeyDown (cfg : Config) (opts : Options) (controlledSelected : Option JSDate)
    (hasOnDateSelect : Bool) (now : JSDate) (st : CalendarState) (date : JSDate)
    (key : Key) (shiftOrCtrl : Bool) : CalendarState :=
  let normalizedDate := normalizeDate (Value.date date)
  let sel := controlledSelected <|> st.select.internalSelected
  match key with
  | Key.arrowUp => ⟨moveFocusByDays cfg opts sel st.focus (some (-7)) normalizedDate, st.select⟩
  | Key.arrowDown => ⟨moveFocusByDays cfg opts sel st.focus (some 7) normalizedDate, st.select⟩
  | Key.arrowLeft => ⟨moveFocusByDays cfg opts sel st.focus (some (-1)) normalizedDate, st.select⟩
  | Key.arrowRight => ⟨moveFocusByDays cfg opts sel st.focus (some 1) normalizedDate, st.select⟩
  | Key.pageUp =>
    ⟨moveFocusByMonths cfg opts sel st.focus (if shiftOrCtrl then -12 else -1) normalizedDate,
      st.select⟩
  | Key.pageDown =>
    ⟨moveFocusByMonths cfg opts sel st.focus (if shiftOrCtrl then 12 else 1) normalizedDate,
      st.select⟩
  | Key.home => ⟨focusWeekEdge cfg opts sel st.focus true normalizedDate, st.select⟩
  | Key.endKey => ⟨focusWeekEdge cfg opts sel st.focus false normalizedDate, st.select⟩
  | Key.enter | Key.space | Key.spacebar =>
    if cellIsDisabled cfg date then st
    else ⟨st.focus, handleSelect controlledSelected hasOnDateSelect st.select normalizedDate⟩
  | Key.lowerT | Key.upperT => ⟨focusToday cfg opts st.focus now, st.select⟩
  | Key.otherKey => st

/-! ## Hosts with a time-zone offset

The definitions above are those of a host whose local time is UTC.  The definitions of
this section are the same functions on a host with any time zone, after ECMAScript:
a method of `Date` that reads or writes calendar fields first takes `LocalTime(t)`, and
a method that writes converts its result back with `UTC(t)`.  For the zone `Zone.utc`
they are the definitions above. -/

/-- A host time zone as ECMAScript sees it: the offset of local time from UTC, in
milliseconds, at a UTC time value (`LocalTZA(t, true)`) and at a local time value
(`LocalTZA(t, false)`). -/
structure Zone where
  /-- The offset in force at a UTC time value. -/
  offsetAtUTC : Int → Int
  /-- The offset by which a local time value is read. -/
  offsetAtLocal : Int → Int

namespace Zone

/-- The zone of a host whose local time is UTC. -/
def utc : Zone := ⟨fun _ => 0, fun _ => 0⟩

/-- ECMAScript `LocalTime(t)`. -/
def localTime (z : Zone) (t : Int) : Int := t + z.offsetAtUTC t

/-- ECMAScript `UTC(t)`, of a local time value. -/
def toUTC (z : Zone) (t : Int) : Int := t - z.offsetAtLocal t

/-- The zone America/New_York with its rules of the year 2024: Eastern Standard Time,
5 hours behind UTC, and daylight time, 4 hours behind, from 10 March 2024 02:00
(07:00 UTC) to 3 November 2024 02:00 (06:00 UTC).  A local time skipped or repeated by a
transition is read with the offset in force before the transition, as ECMAScript
prescribes.  Day 19792 is 10 March 2024 and day 20030 is 3 November 2024; the other
years are not modelled and are at standard time. -/
def newYork2024 : Zone :=
  ⟨fun t =>
      if 19792 * DAY_IN_MS + 7 * 3600000 ≤ t ∧ t < 20030 * DAY_IN_MS + 6 * 3600000 then
        -4 * 3600000
      else -5 * 3600000,
    fun t =>
      if 19792 * DAY_IN_MS + 3 * 3600000 ≤ t ∧ t < 20030 * DAY_IN_MS + 2 * 3600000 then
        -4 * 3600000
      else -5 * 3600000⟩

end Zone

namespace Zoned

/-- The method `getFullYear()` on a host with zone `z`. -/
def getFullYear (z : Zone) (d : JSDate) : Option Int :=
  d.tv.map fun t => yearFromDay (day (z.localTime t))

/-- The method `getMonth()` on a host with zone `z`. -/
def getMonth (z : Zone) (d : JSDate) : Option Int :=
  d.tv.map fun t => monthFromDay (day (z.localTime t))

/-- The method `getDate()` on a host with zone `z`. -/
def getDate (z : Zone) (d : JSDate) : Option Int :=
  d.tv.map fun t => dateFromDay (day (z.localTime t))

/-- The method `getDay()` on a host with zone `z`. -/
def getDay (z : Zone) (d : JSDate) : Option Int :=
  d.tv.map fun t => weekDay (day (z.localTime t))

/-- The call `setHours(0, 0, 0, 0)` on a host with zone `z`:
`UTC(MakeDate(Day(LocalTime(t)), MakeTime(0,0,0,0)))`, clipped. -/
def setHours0 (z : Zone) (d : JSDate) : JSDate :=
  ⟨d.tv.bind fun t => timeClip (z.toUTC (makeDate (day (z.localTime t)) 0))⟩

/-- The method `setDate(dt)` on a host with zone `z`. -/
def setDate (z : Zone) (d : JSDate) (dt : Option Int) : JSDate :=
  ⟨d.tv.bind fun t => dt.bind fun n =>
    timeClip (z.toUTC (makeDate
      (makeDay (yearFromDay (day (z.localTime t))) (monthFromDay (day (z.localTime t))) n)
      (timeWithinDay (z.localTime t))))⟩

/-- The constructor `new Date(year, month, date)` on a host with zone `z`. -/
def ofYMD (z : Zone) (year month date : Option Int) : JSDate :=
  ⟨year.bind fun y => month.bind fun m => date.bind fun dt =>
    timeClip (z.toUTC (makeDate (makeDay (fullYear y) m dt) 0))⟩

/-- `normalizeDate(value)` on a host with zone `z`. -/
def normalizeDate (z : Zone) (value : Value) : Option JSDate :=
  match toDate value with
  | none => none
  | some date => some (setHours0 z date)

/-- `startOfMonth(value)` on a host with zone `z`. -/
def startOfMonth (z : Zone) (value : Value) : Option JSDate :=
  match normalizeDate z value with
  | none => none
  | some date => some (setDate z date (some 1))

/-- `dateKey(value)` on a host with zone `z`. -/
def dateKey (z : Zone) (value : Value) : String :=
  match normalizeDate z value with
  | none => ""
  | some date =>
    let year := getFullYear z date
    let month := padStart2 (numberToString (numAdd (getMonth z date) (some 1)))
    let d := padStart2 (numberToString (getDate z date))
    numberToString year ++ "-" ++ month ++ "-" ++ d

/-- `isSameDay(a, b)` on a host with zone `z`. -/
def isSameDay (z : Zone) (a b : Option JSDate) : Bool :=
  match a, b with
  | some a, some b =>
    numEq (getFullYear z a) (getFullYear z b) && numEq (getMonth z a) (getMonth z b) &&
      numEq (getDate z a) (getDate z b)
  | _, _ => false

/-- `isWithinRange(date, minDate, maxDate)` on a host with zone `z`. -/
def isWithinRange (z : Zone) (date : Value) (minDate maxDate : Option JSDate) : Bool :=
  match normalizeDate z date with
  | none => false
  | some normalized =>
    if minDate.isSome && isBefore (some normalized) minDate then false
    else if maxDate.isSome && isAfter (some normalized) maxDate then false
    else true

/-- `shiftDate(date, offset)` on a host with zone `z`. -/
def shiftDate (z : Zone) (date : Value) (offset : Int) : Option JSDate :=
  match normalizeDate z date with
  | none => none
  | some normalized =>
    some (setHours0 z
      (JSDate.ofTime (numAdd normalized.getTime (some (offset * DAY_IN_MS)))))

/-- `isDateDisabled(value)` on a host with zone `z`. -/
def isDateDisabled (z : Zone) (cfg : Config) (value : Value) : Bool :=
  match normalizeDate z value with
  | none => true
  | some normalized =>
    if !isWithinRange z (Value.date normalized) cfg.normalizedMinDate cfg.normalizedMaxDate
    then true
    else decide (dateKey z (Value.date normalized) ∈ cfg.disabledSet)

/-- The `while (attempts < 120)` loop of `findFocusableDate` on a host with zone `z`;
the first argument is the number of attempts left. -/
def scanFocusable (z : Zone) (cfg : Config) (step : Int) : Nat → JSDate → Option JSDate
  | 0, _ => none
  | left + 1, cursor =>
    match shiftDate z (Value.date cursor) step with
    | none => none
    | some next =>
      if !isDateDisabled z cfg (Value.date next) then some next
      else scanFocusable z cfg step left next

/-- `findFocusableDate(candidate, direction)` on a host with zone `z`. -/
def findFocusableDate (z : Zone) (cfg : Config) (candidate : Value) (direction : Int) :
    Option JSDate :=
  match normalizeDate z candidate with
  | none => none
  | some normalizedCandidate =>
    if !isDateDisabled z cfg (Value.date normalizedCandidate) then some normalizedCandidate
    else
      let step : Int := if direction ≥ 0 then 1 else -1
      scanFocusable z cfg step 120 normalizedCandidate

/-- `goToDate(value)` on a host with zone `z`. -/
def goToDate (z : Zone) (value : Value) (current : Option JSDate) : Option JSDate :=
  match startOfMonth z (Value.ofOption (normalizeDate z value)) with
  | some normalized => some normalized
  | none => current

/-- `moveFocusToDate(candidate, direction)` on a host with zone `z`. -/
def moveFocusToDate (z : Zone) (cfg : Config) (opts : Options) (s : FocusState)
    (candidate : Value) (direction : Int) : FocusState :=
  match findFocusableDate z cfg candidate direction with
  | none => s
  | some next =>
    let focus :=
      if s.focusDate.isSome && isSameDay z s.focusDate (some next) then s.focusDate
      else some next
    let activeYear := s.activeMonthDate.bind (getFullYear z)
    let activeMonth := s.activeMonthDate.bind (getMonth z)
    let anchor :=
      if numNe (getFullYear z next) activeYear || numNe (getMonth z next) activeMonth then
        if !opts.showAdjacentDays then goToDate z (Value.date next) s.activeMonthDate
        else if opts.allowOutsideDaysNavigation then
          goToDate z (Value.date next) s.activeMonthDate
        else s.activeMonthDate
      else s.activeMonthDate
    ⟨focus, anchor⟩

/-- The reference date of the keyboard moves on a host with zone `z`. -/
def referenceDate (z : Zone) (effectiveSelectedDate : Option JSDate) (s : FocusState)
    (baseDateOverride : Option JSDate) : Option JSDate :=
  normalizeDate z (Value.ofOption
    (baseDateOverride <|> s.focusDate <|> effectiveSelectedDate <|> s.activeMonthDate))

/-- `moveFocusByDays(offset, baseDateOverride)` on a host with zone `z`. -/
def moveFocusByDays (z : Zone) (cfg : Config) (opts : Options)
    (effectiveSelectedDate : Option JSDate) (s : FocusState) (offset : Option Int)
    (baseDateOverride : Option JSDate) : FocusState :=
  match offset with
  | none => s
  | some offset =>
    if offset = 0 then s
    else
      match referenceDate z effectiveSelectedDate s baseDateOverride with
      | none => s
      | some reference =>
        moveFocusToDate z cfg opts s
          (Value.ofOption (shiftDate z (Value.date reference) offset))
          (if offset ≥ 0 then 1 else -1)

/-- `focusWeekEdge(edge, baseDateOverride)` on a host with zone `z`. -/
def focusWeekEdge (z : Zone) (cfg : Config) (opts : Options)
    (effectiveSelectedDate : Option JSDate) (s : FocusState) (isStart : Bool)
    (baseDateOverride : Option JSDate) : FocusState :=
  match referenceDate z effectiveSelectedDate s baseDateOverride with
  | none => s
  | some reference =>
    let dayIndex :=
      numMod (numAdd (numSub (getDay z reference) (some opts.weekStartsOn)) (some 7))
        (some 7)
    let offset := if isStart then numSub (some 0) dayIndex else numSub (some 6) dayIndex
    if numNe offset (some 0) then
      moveFocusByDays z cfg opts effectiveSelectedDate s offset (some reference)
    else s

end Zoned

/-! ## Auxiliary notions used to state the results -/

/-- What `normalizeDate` returns for a `Date` argument. -/
def normD (d : JSDate) : JSDate := (JSDate.ofTime d.getTime).setHours0

/-- What `shiftDate` returns for a `Date` argument. -/
def shiftD (d : JSDate) (offset : Int) : JSDate :=
  (JSDate.ofTime (numAdd (normD d).getTime (some (offset * DAY_IN_MS)))).setHours0

/-- The midnight of day number `n` when a `Date` can represent it, else Invalid Date. -/
def clipDay (n : Int) : JSDate :=
  if -100000000 ≤ n ∧ n ≤ 100000000 then dateOfDay n else ⟨none⟩

/-- The step of the scan of `findFocusableDate`: `direction >= 0 ? 1 : -1`. -/
def scanStep (direction : Int) : Int := if direction ≥ 0 then 1 else -1

end FlexiCalendar

namespace FlexiCalendar

theorem dayFromYear_succ (y : Int) : dayFromYear (y + 1) = dayFromYear y + daysInYear y := by
  unfold dayFromYear daysInYear
  split_ifs <;> omega

theorem daysInYear_pos (y : Int) : 365 ≤ daysInYear y ∧ daysInYear y ≤ 366 := by
  unfold daysInYear
  split_ifs <;> omega

/-- The computed year is the one whose first day is the latest not after `d`. -/
theorem yearFromDay_spec (d : Int) :
    dayFromYear (yearFromDay d) ≤ d ∧ d < dayFromYear (yearFromDay d + 1) := by
  unfold yearFromDay
  simp only
  split_ifs with h1 h2
  · constructor
    · unfold dayFromYear at *; omega
    · simpa using h1
  · constructor
    · exact h2
    · unfold dayFromYear at *; omega
  · exact ⟨not_lt.mp h1, not_le.mp h2⟩

theorem dayFromYear_mono {a b : Int} (h : a ≤ b) : dayFromYear a ≤ dayFromYear b := by
  unfold dayFromYear; omega

/-- The year of a day is determined by the two neighbouring year starts. -/
theorem yearFromDay_unique {d y : Int} (h1 : dayFromYear y ≤ d) (h2 : d < dayFromYear (y + 1)) :
    yearFromDay d = y := by
  have hs := yearFromDay_spec d
  by_contra hne
  rcases lt_or_gt_of_ne hne with h | h
  · have := dayFromYear_mono (show yearFromDay d + 1 ≤ y by omega)
    omega
  · have := dayFromYear_mono (show y + 1 ≤ yearFromDay d by omega)
    omega

theorem dayWithinYear_range (d : Int) :
    0 ≤ dayWithinYear d ∧ dayWithinYear d < 365 + inLeapYear d := by
  have hs := yearFromDay_spec d
  have hy := dayFromYear_succ (yearFromDay d)
  have hp := daysInYear_pos (yearFromDay d)
  unfold dayWithinYear inLeapYear
  split_ifs <;> omega

theorem inLeapYear_range (d : Int) : inLeapYear d = 0 ∨ inLeapYear d = 1 := by
  unfold inLeapYear; split_ifs <;> simp

/-- The month starts in closed form (the classical `275 M / 9` day-of-year rule). -/
theorem monthStart_formula (l m : Int) (h0 : 0 ≤ m) (h1 : m ≤ 12) :
    monthStart l m = 275 * (m + 1) / 9 - 30 - (if 2 ≤ m then 2 - l else 0) := by
  interval_cases m <;> simp only [monthStart] <;> norm_num <;> omega

theorem MonthRow.intro {w l m a b : Int} (ha : monthStart l m = a)
    (hb : monthStart l (m + 1) = b) (h1 : a ≤ w) (h2 : w < b) (h3 : 0 ≤ m) (h4 : m ≤ 11) :
    MonthRow w l m :=
  ⟨ha ▸ h1, hb ▸ h2, h3, h4⟩

/-- The `MonthFromTime` table picks the row that holds the day. -/
theorem monthOfYearDay_spec (w l : Int) (hw : 0 ≤ w) (hw2 : w < 365 + l) :
    MonthRow w l (monthOfYearDay w l) := by
  unfold monthOfYearDay
  by_cases h0 : w < 31
  · rw [if_pos h0]
    exact MonthRow.intro (a := 0) (b := 31) rfl rfl (by omega) (by omega) (by omega) (by omega)
  rw [if_neg h0]
  by_cases h1 : w < 59 + l
  · rw [if_pos h1]
    exact MonthRow.intro (a := 31) (b := 59 + l) rfl rfl (by omega) (by omega) (by omega) (by omega)
  rw [if_neg h1]
  by_cases h2 : w < 90 + l
  · rw [if_pos h2]
    exact MonthRow.intro (a := 59 + l) (b := 90 + l) rfl rfl (by omega) (by omega) (by omega) (by omega)
  rw [if_neg h2]
  by_cases h3 : w < 120 + l
  · rw [if_pos h3]
    exact MonthRow.intro (a := 90 + l) (b := 120 + l) rfl rfl (by omega) (by omega) (by omega) (by omega)
  rw [if_neg h3]
  by_cases h4 : w < 151 + l
  · rw [if_pos h4]
    exact MonthRow.intro (a := 120 + l) (b := 151 + l) rfl rfl (by omega) (by omega) (by omega) (by omega)
  rw [if_neg h4]
  by_cases h5 : w < 181 + l
  · rw [if_pos h5]
    exact MonthRow.intro (a := 151 + l) (b := 181 + l) rfl rfl (by omega) (by omega) (by omega) (by omega)
  rw [if_neg h5]
  by_cases h6 : w < 212 + l
  · rw [if_pos h6]
    exact MonthRow.intro (a := 181 + l) (b := 212 + l) rfl rfl (by omega) (by omega) (by omega) (by omega)
  rw [if_neg h6]
  by_cases h7 : w < 243 + l
  · rw [if_pos h7]
    exact MonthRow.intro (a := 212 + l) (b := 243 + l) rfl rfl (by omega) (by omega) (by omega) (by omega)
  rw [if_neg h7]
  by_cases h8 : w < 273 + l
  · rw [if_pos h8]
    exact MonthRow.intro (a := 243 + l) (b := 273 + l) rfl rfl (by omega) (by omega) (by omega) (by omega)
  rw [if_neg h8]
  by_cases h9 : w < 304 + l
  · rw [if_pos h9]
    exact MonthRow.intro (a := 273 + l) (b := 304 + l) rfl rfl (by omega) (by omega) (by omega) (by omega)
  rw [if_neg h9]
  by_cases h10 : w < 334 + l
  · rw [if_pos h10]
    exact MonthRow.intro (a := 304 + l) (b := 334 + l) rfl rfl (by omega) (by omega) (by omega) (by omega)
  rw [if_neg h10]
  exact MonthRow.intro (a := 334 + l) (b := 365 + l) rfl rfl (by omega) (by omega) (by omega) (by omega)

/-- At most one row of the month table holds a given day. -/
theorem MonthRow.unique {w l m n : Int} (hl : 0 ≤ l) (hm : MonthRow w l m)
    (hn : MonthRow w l n) : m = n := by
  obtain ⟨a1, a2, a3, a4⟩ := hm
  obtain ⟨b1, b2, b3, b4⟩ := hn
  rw [monthStart_formula l m a3 (by omega)] at a1
  rw [monthStart_formula l (m + 1) (by omega) (by omega)] at a2
  rw [monthStart_formula l n b3 (by omega)] at b1
  rw [monthStart_formula l (n + 1) (by omega) (by omega)] at b2
  split_ifs at a1 a2 b1 b2 <;> omega

theorem monthFromDay_spec (d : Int) :
    MonthRow (dayWithinYear d) (inLeapYear d) (monthFromDay d) := by
  have hw := dayWithinYear_range d
  exact monthOfYearDay_spec _ _ hw.1 hw.2

theorem monthFromDay_range (d : Int) : 0 ≤ monthFromDay d ∧ monthFromDay d ≤ 11 :=
  ⟨(monthFromDay_spec d).2.2.1, (monthFromDay_spec d).2.2.2⟩

theorem dateFromDay_range (d : Int) : 1 ≤ dateFromDay d ∧ dateFromDay d ≤ 31 := by
  obtain ⟨a1, a2, a3, a4⟩ := monthFromDay_spec d
  have hl := inLeapYear_range d
  unfold dateFromDay
  generalize monthFromDay d = m at *
  generalize dayWithinYear d = w at *
  generalize inLeapYear d = l at *
  rw [monthStart_formula l m a3 (by omega)] at a1 ⊢
  rw [monthStart_formula l (m + 1) (by omega) (by omega)] at a2
  split_ifs at a1 a2 ⊢ <;> omega

theorem weekDay_range (d : Int) : 0 ≤ weekDay d ∧ weekDay d ≤ 6 := by
  unfold weekDay; omega

/-- Rebuilding a day from its own year, month and an arbitrary date `n` moves it by
`n - dateFromDay d` days: the arithmetic behind `setDate`. -/
theorem makeDay_of_day (d n : Int) :
    makeDay (yearFromDay d) (monthFromDay d) n = d - dateFromDay d + n := by
  have hm := monthFromDay_range d
  have h12 : monthFromDay d / 12 = 0 := by omega
  have h12m : monthFromDay d % 12 = monthFromDay d := by omega
  unfold makeDay
  simp only [h12, h12m, add_zero]
  unfold dateFromDay dayWithinYear inLeapYear
  omega

/-- Year, month and date of the day that `makeDay` builds from them. -/
theorem civil_makeDay (y m dt : Int) (hm0 : 0 ≤ m) (hm : m ≤ 11) (hd1 : 1 ≤ dt)
    (hd : dt ≤ monthStart (if daysInYear y = 366 then 1 else 0) (m + 1) -
      monthStart (if daysInYear y = 366 then 1 else 0) m) :
    yearFromDay (makeDay y m dt) = y ∧ monthFromDay (makeDay y m dt) = m ∧
      dateFromDay (makeDay y m dt) = dt := by
  have h12 : m / 12 = 0 := by omega
  have h12m : m % 12 = m := by omega
  have hmk : makeDay y m dt =
      dayFromYear y + monthStart (if daysInYear y = 366 then 1 else 0) m + dt - 1 := by
    unfold makeDay; simp only [h12, h12m, add_zero]
  rw [hmk]
  generalize hl : (if daysInYear y = 366 then (1 : Int) else 0) = l at *
  have hl01 : l = 0 ∨ l = 1 := by
    rw [← hl]; split_ifs <;> simp
  have hdy : daysInYear y = 365 + l := by
    have := daysInYear_pos y
    rw [← hl]; split_ifs <;> omega
  have f1 := monthStart_formula l m hm0 (by omega)
  have f2 := monthStart_formula l (m + 1) (by omega) (by omega)
  generalize monthStart l m = a at *
  generalize monthStart l (m + 1) = b at *
  have ha : 0 ≤ a ∧ b ≤ 365 + l := by split_ifs at f1 f2 <;> omega
  have hy : yearFromDay (dayFromYear y + a + dt - 1) = y := by
    apply yearFromDay_unique
    · omega
    · rw [dayFromYear_succ]; omega
  have hw : dayWithinYear (dayFromYear y + a + dt - 1) = a + dt - 1 := by
    unfold dayWithinYear; rw [hy]; omega
  have hil : inLeapYear (dayFromYear y + a + dt - 1) = l := by
    unfold inLeapYear; rw [hy]; exact hl
  have hrow := monthFromDay_spec (dayFromYear y + a + dt - 1)
  rw [hw, hil] at hrow
  have hmm : monthFromDay (dayFromYear y + a + dt - 1) = m := by
    refine MonthRow.unique (by omega) hrow ⟨?_, ?_, hm0, hm⟩
    · rw [monthStart_formula l m hm0 (by omega), ← f1]; omega
    · rw [monthStart_formula l (m + 1) (by omega) (by omega), ← f2]; omega
  refine ⟨hy, hmm, ?_⟩
  unfold dateFromDay
  rw [hw, hil, hmm, monthStart_formula l m hm0 (by omega), ← f1]
  omega

/-! ### Time values of whole days -/

theorem day_mul (n : Int) : day (n * DAY_IN_MS) = n := by
  unfold day DAY_IN_MS; omega

theorem timeWithinDay_mul (n : Int) : timeWithinDay (n * DAY_IN_MS) = 0 := by
  unfold timeWithinDay DAY_IN_MS; omega

theorem timeClip_of_range {t : Int} (h1 : -maxTime ≤ t) (h2 : t ≤ maxTime) :
    timeClip t = some t := by
  unfold timeClip; rw [if_pos ⟨h1, h2⟩]

theorem timeClip_day {n : Int} (h1 : -100000000 ≤ n) (h2 : n ≤ 100000000) :
    timeClip (n * DAY_IN_MS) = some (n * DAY_IN_MS) := by
  apply timeClip_of_range <;> unfold maxTime DAY_IN_MS <;> omega

theorem timeClip_eq_some {t u : Int} (h : timeClip t = some u) :
    u = t ∧ -maxTime ≤ t ∧ t ≤ maxTime := by
  unfold timeClip at h
  split_ifs at h with hc
  exact ⟨(Option.some.inj h).symm, hc.1, hc.2⟩

theorem day_range_of_time {t : Int} (h1 : -maxTime ≤ t) (h2 : t ≤ maxTime) :
    -100000000 ≤ day t ∧ day t ≤ 100000000 := by
  unfold day maxTime DAY_IN_MS at *; omega

/-! ### Dates at midnight -/

theorem getTime_dateOfDay (n : Int) : (dateOfDay n).getTime = some (n * DAY_IN_MS) := rfl

theorem getDay_dateOfDay (n : Int) : (dateOfDay n).getDay = some (weekDay n) := by
  simp [dateOfDay, JSDate.getDay, day_mul]

theorem getDate_dateOfDay (n : Int) : (dateOfDay n).getDate = some (dateFromDay n) := by
  simp [dateOfDay, JSDate.getDate, day_mul]

theorem getMonth_dateOfDay (n : Int) : (dateOfDay n).getMonth = some (monthFromDay n) := by
  simp [dateOfDay, JSDate.getMonth, day_mul]

theorem getFullYear_dateOfDay (n : Int) :
    (dateOfDay n).getFullYear = some (yearFromDay n) := by
  simp [dateOfDay, JSDate.getFullYear, day_mul]

theorem copy_dateOfDay {n : Int} (h1 : -100000000 ≤ n) (h2 : n ≤ 100000000) :
    JSDate.copy (dateOfDay n) = dateOfDay n := by
  simp [JSDate.copy, JSDate.ofTime, JSDate.getTime, dateOfDay, timeClip_day h1 h2]

theorem setHours0_dateOfDay {n : Int} (h1 : -100000000 ≤ n) (h2 : n ≤ 100000000) :
    (dateOfDay n).setHours0 = dateOfDay n := by
  simp [JSDate.setHours0, dateOfDay, day_mul, makeDate, timeClip_day h1 h2]

/-- On a midnight date, `setDate(k)` moves to the day `k - getDate()` days away. -/
theorem setDate_dateOfDay {n k : Int} (h1 : -100000000 ≤ n - dateFromDay n + k)
    (h2 : n - dateFromDay n + k ≤ 100000000) :
    (dateOfDay n).setDate (some k) = dateOfDay (n - dateFromDay n + k) := by
  simp [JSDate.setDate, dateOfDay, day_mul, timeWithinDay_mul, makeDay_of_day, makeDate,
    timeClip_day h1 h2]

theorem ofYMD_eq {y m dt : Int} (h1 : -100000000 ≤ makeDay (fullYear y) m dt)
    (h2 : makeDay (fullYear y) m dt ≤ 100000000) :
    JSDate.ofYMD (some y) (some m) (some dt) = dateOfDay (makeDay (fullYear y) m dt) := by
  simp only [JSDate.ofYMD, Option.some_bind, dateOfDay, makeDate, add_zero]
  rw [timeClip_day h1 h2]

/-- The grid, cell by cell, when the first of the month is far enough from the ends of
the range of time values. -/
theorem generateMonthMatrix_eq (year month wso : Int) (hw0 : 0 ≤ wso) (hw : wso ≤ 6)
    (h1 : -99999990 ≤ makeDay (fullYear year) month 1)
    (h2 : makeDay (fullYear year) month 1 ≤ 99999950) :
    generateMonthMatrix (some year) (some month) wso =
      (List.range 6).map fun (w : Nat) => (List.range 7).map fun (i : Nat) =>
        dateOfDay (gridStartDay year month wso + ((w * 7 + i : Nat) : Int)) := by
  unfold generateMonthMatrix gridStartDay
  generalize hF : makeDay (fullYear year) month 1 = F at *
  have hwd := weekDay_range F
  have hdt := dateFromDay_range F
  rw [ofYMD_eq (by omega) (by omega), hF]
  simp only [getDay_dateOfDay, getDate_dateOfDay, numSub, numAdd, numMod, Option.some_bind,
    Option.map_some', show (7 : Int) ≠ 0 by decide, if_false]
  have hmod : Int.tmod (weekDay F - wso + 7) 7 = (weekDay F - wso + 7) % 7 :=
    Int.tmod_eq_emod (by omega) (by omega)
  rw [hmod]
  generalize hk : (weekDay F - wso + 7) % 7 = k
  have hk6 : 0 ≤ k ∧ k ≤ 6 := by omega
  rw [copy_dateOfDay (by omega) (by omega), setDate_dateOfDay (by omega) (by omega)]
  have hG : F - dateFromDay F + (dateFromDay F - k) = F - k := by omega
  rw [hG]
  simp only [getDate_dateOfDay, Option.some_bind, Option.map_some']
  rw [copy_dateOfDay (by omega) (by omega)]
  refine List.map_congr_left (l := List.range 6) fun w hwm => ?_
  refine List.map_congr_left (l := List.range 7) fun i him => ?_
  rw [List.mem_range] at hwm him
  rw [setDate_dateOfDay (by omega) (by omega)]
  congr 1
  omega

theorem join_grid {α : Type} (f : Nat → α) :
    ((List.range 6).map fun (w : Nat) => (List.range 7).map fun (i : Nat) =>
      f (w * 7 + i)).flatten = (List.range 42).map f := rfl

/-- Years whose months, with the days the grid adds around them, are representable. -/
theorem makeDay_first_range (year month : Int) (hy : -271820 ≤ year) (hy2 : year ≤ 275759)
    (hm0 : 0 ≤ month) (hm : month ≤ 11) :
    -99999990 ≤ makeDay (fullYear year) month 1 ∧
      makeDay (fullYear year) month 1 ≤ 99999950 := by
  have h12 : month / 12 = 0 := by omega
  have h12m : month % 12 = month := by omega
  unfold makeDay
  simp only [h12, h12m, add_zero]
  have hl : (0 : Int) ≤ (if daysInYear (fullYear year) = 366 then (1 : Int) else 0) ∧
      (if daysInYear (fullYear year) = 366 then (1 : Int) else 0) ≤ 1 := by
    split_ifs <;> omega
  generalize (if daysInYear (fullYear year) = 366 then (1 : Int) else 0) = l at hl ⊢
  have hf : -271820 ≤ fullYear year ∧ fullYear year ≤ 275759 := by
    unfold fullYear; split_ifs <;> omega
  generalize fullYear year = y at hf ⊢
  rw [monthStart_formula l month hm0 (by omega)]
  unfold dayFromYear
  split_ifs <;> omega

/-- C1 (amended): for every year from -271820 to 275759 (the years all of whose grid
dates are representable), every month 0..11 and every `weekStartsOn` in 0..6,
`generateMonthMatrix` returns 6 rows of 7 dates, 42 in row-major order; each date is
the midnight exactly one calendar day after the previous one; the first date has
weekday `weekStartsOn`, and so has the first date of every row. -/
theorem generateMonthMatrix_is_six_weeks (year month weekStartsOn : Int)
    (hy : -271820 ≤ year) (hy2 : year ≤ 275759) (hm0 : 0 ≤ month) (hm : month ≤ 11)
    (hw0 : 0 ≤ weekStartsOn) (hw : weekStartsOn ≤ 6) :
    (generateMonthMatrix (some year) (some month) weekStartsOn).length = 6 ∧
    (∀ row ∈ generateMonthMatrix (some year) (some month) weekStartsOn, row.length = 7) ∧
    (generateMonthMatrix (some year) (some month) weekStartsOn).flatten.length = 42 ∧
    (∀ k : Nat, k + 1 < 42 → ∃ a b,
      (generateMonthMatrix (some year) (some month) weekStartsOn).flatten[k]? = some a ∧
      (generateMonthMatrix (some year) (some month) weekStartsOn).flatten[k + 1]? = some b ∧
      IsNextDay a b) ∧
    ((generateMonthMatrix (some year) (some month) weekStartsOn).flatten.head?.bind
      JSDate.getDay = some weekStartsOn) ∧
    (∀ row ∈ generateMonthMatrix (some year) (some month) weekStartsOn,
      row.head?.bind JSDate.getDay = some weekStartsOn) := by
  obtain ⟨h1, h2⟩ := makeDay_first_range year month hy hy2 hm0 hm
  have hwd : weekDay (gridStartDay year month weekStartsOn) = weekStartsOn := by
    unfold gridStartDay weekDay; omega
  rw [generateMonthMatrix_eq year month weekStartsOn hw0 hw h1 h2]
  generalize gridStartDay year month weekStartsOn = n at hwd
  rw [join_grid (fun k => dateOfDay (n + (k : Int)))]
  refine ⟨by simp, ?_, by simp, ?_, ?_, ?_⟩
  · intro row hrow
    simp only [List.mem_map, List.mem_range] at hrow
    obtain ⟨w, _, rfl⟩ := hrow
    simp
  · intro k hk
    refine ⟨dateOfDay (n + (k : Int)), dateOfDay (n + ((k + 1 : Nat) : Int)), ?_, ?_, ?_⟩
    · rw [List.getElem?_map, List.getElem?_range (by omega)]; rfl
    · rw [List.getElem?_map, List.getElem?_range (by omega)]; rfl
    · exact ⟨n + (k : Int), rfl, by push_cast; rw [add_assoc]⟩
  · show (some (dateOfDay (n + ((0 : Nat) : Int)))).bind JSDate.getDay = some weekStartsOn
    simp only [Option.some_bind, getDay_dateOfDay, Nat.cast_zero, add_zero, hwd]
  · intro row hrow
    simp only [List.mem_map, List.mem_range] at hrow
    obtain ⟨w, hw6, rfl⟩ := hrow
    show (some (dateOfDay (n + ((w * 7 + 0 : Nat) : Int)))).bind JSDate.getDay =
      some weekStartsOn
    simp only [Option.some_bind, getDay_dateOfDay]
    congr 1
    unfold weekDay at hwd ⊢
    omega


/-- Witness of C1: the grid of March 2024 with weeks starting on Monday. -/
theorem generateMonthMatrix_is_six_weeks_witness :
    (generateMonthMatrix (some 2024) (some 2) 1).length = 6 ∧
    (∀ row ∈ generateMonthMatrix (some 2024) (some 2) 1, row.length = 7) ∧
    (generateMonthMatrix (some 2024) (some 2) 1).flatten.length = 42 ∧
    (∀ k : Nat, k + 1 < 42 → ∃ a b,
      (generateMonthMatrix (some 2024) (some 2) 1).flatten[k]? = some a ∧
      (generateMonthMatrix (some 2024) (some 2) 1).flatten[k + 1]? = some b ∧
      IsNextDay a b) ∧
    ((generateMonthMatrix (some 2024) (some 2) 1).flatten.head?.bind
      JSDate.getDay = some 1) ∧
    (∀ row ∈ generateMonthMatrix (some 2024) (some 2) 1,
      row.head?.bind JSDate.getDay = some 1) :=
  generateMonthMatrix_is_six_weeks 2024 2 1 (by decide) (by decide) (by decide) (by decide)
    (by decide) (by decide)

/-- Counterexample to C1 as stated ("for every year"): for the year 300000, which no
`Date` can represent, `new Date(300000, 0, 1)` is an Invalid Date and so is every cell
of the grid: the first date has no weekday and the second date is not the day after
the first. -/
theorem generateMonthMatrix_unrepresentable_year :
    (generateMonthMatrix (some 300000) (some 0) 0).flatten.head?.bind JSDate.getDay = none ∧
    ¬ ∃ a b, (generateMonthMatrix (some 300000) (some 0) 0).flatten[0]? = some a ∧
      (generateMonthMatrix (some 300000) (some 0) 0).flatten[1]? = some b ∧ IsNextDay a b := by
  have hg : generateMonthMatrix (some 300000) (some 0) 0 =
      List.replicate 6 (List.replicate 7 ⟨none⟩) := by decide
  rw [hg]
  refine ⟨by decide, ?_⟩
  rintro ⟨a, b, ha, _, n, hn, _⟩
  have ha2 : a = ⟨none⟩ := by
    have : (List.replicate 6 (List.replicate 7 (⟨none⟩ : JSDate))).flatten[0]? =
        some ⟨none⟩ := by decide
    rw [this] at ha
    exact (Option.some.inj ha).symm
  rw [ha2] at hn
  exact absurd (congrArg JSDate.tv hn) (by simp [dateOfDay])

theorem monthLength_range (l m : Int) (hl0 : 0 ≤ l) (hl1 : l ≤ 1) (hm0 : 0 ≤ m)
    (hm : m ≤ 11) :
    28 ≤ monthStart l (m + 1) - monthStart l m ∧
      monthStart l (m + 1) - monthStart l m ≤ 31 := by
  rw [monthStart_formula l m hm0 (by omega),
    monthStart_formula l (m + 1) (by omega) (by omega)]
  split_ifs <;> omega

/-- The day `makeDay y m 1` is the first of month `m` of year `y`. -/
theorem civil_first_of_month (y m : Int) (hm0 : 0 ≤ m) (hm : m ≤ 11) :
    yearFromDay (makeDay y m 1) = y ∧ monthFromDay (makeDay y m 1) = m ∧
      dateFromDay (makeDay y m 1) = 1 := by
  have hl : (0 : Int) ≤ (if daysInYear y = 366 then (1 : Int) else 0) ∧
      (if daysInYear y = 366 then (1 : Int) else 0) ≤ 1 := by
    split_ifs <;> omega
  have := monthLength_range _ m hl.1 hl.2 hm0 hm
  exact civil_makeDay y m 1 hm0 hm (by omega) (by omega)

theorem flatten_grid_eq (year month wso : Int) (hw0 : 0 ≤ wso) (hw : wso ≤ 6)
    (h1 : -99999990 ≤ makeDay (fullYear year) month 1)
    (h2 : makeDay (fullYear year) month 1 ≤ 99999950) :
    (generateMonthMatrix (some year) (some month) wso).flatten =
      (List.range 42).map fun (k : Nat) =>
        dateOfDay (gridStartDay year month wso + (k : Int)) := by
  rw [generateMonthMatrix_eq year month wso hw0 hw h1 h2,
    join_grid (fun k => dateOfDay (gridStartDay year month wso + (k : Int)))]

/-- C2 (amended): for every year from -271820 to -1 or from 100 to 275759, every month
0..11 and every `weekStartsOn` in 0..6, the first cell of `generateMonthMatrix` is the
1st of the month moved back by `(weekday(1st) - weekStartsOn + 7) mod 7` days, which is
between 0 and 6 days; the 1st lies in the first row and every day of that month is one
of the 42 cells.  For an `initialDate` of 2024-03-15 and `weekStartsOn = 1` the grid
shown is that of March 2024; its first cell is 2024-02-26, a Monday, and its last cell
is 2024-04-07. -/
theorem generateMonthMatrix_covers_month (year month weekStartsOn : Int)
    (hy : (-271820 ≤ year ∧ year ≤ -1) ∨ (100 ≤ year ∧ year ≤ 275759))
    (hm0 : 0 ≤ month) (hm : month ≤ 11) (hw0 : 0 ≤ weekStartsOn) (hw : weekStartsOn ≤ 6) :
    ((dateOfDay (makeDay year month 1)).getFullYear = some year ∧
      (dateOfDay (makeDay year month 1)).getMonth = some month ∧
      (dateOfDay (makeDay year month 1)).getDate = some 1) ∧
    (0 ≤ (weekDay (makeDay year month 1) - weekStartsOn + 7) % 7 ∧
      (weekDay (makeDay year month 1) - weekStartsOn + 7) % 7 ≤ 6) ∧
    (generateMonthMatrix (some year) (some month) weekStartsOn).flatten.head? =
      some (dateOfDay (makeDay year month 1 -
        (weekDay (makeDay year month 1) - weekStartsOn + 7) % 7)) ∧
    (∃ row, (generateMonthMatrix (some year) (some month) weekStartsOn).head? = some row ∧
      dateOfDay (makeDay year month 1) ∈ row) ∧
    (∀ n : Int, yearFromDay n = year → monthFromDay n = month →
      dateOfDay n ∈ (generateMonthMatrix (some year) (some month) weekStartsOn).flatten) ∧
    ((∀ now : JSDate,
        (startDate now (Value.date (JSDate.ofYMD (some 2024) (some 2) (some 15)))
          Value.other Value.other).map (fun anchor => weeks anchor 1) =
        some (generateMonthMatrix (some 2024) (some 2) 1)) ∧
      (generateMonthMatrix (some 2024) (some 2) 1).flatten.head? =
        some (JSDate.ofYMD (some 2024) (some 1) (some 26)) ∧
      (JSDate.ofYMD (some 2024) (some 1) (some 26)).getDay = some 1 ∧
      (generateMonthMatrix (some 2024) (some 2) 1).flatten.getLast? =
        some (JSDate.ofYMD (some 2024) (some 3) (some 7))) := by
  have hfy : fullYear year = year := by
    unfold fullYear; rw [if_neg (by omega)]
  obtain ⟨h1, h2⟩ := makeDay_first_range year month (by omega) (by omega) hm0 hm
  obtain ⟨c1, c2, c3⟩ := civil_first_of_month year month hm0 hm
  have hflat := flatten_grid_eq year month weekStartsOn hw0 hw h1 h2
  have hgrid := generateMonthMatrix_eq year month weekStartsOn hw0 hw h1 h2
  have hG : gridStartDay year month weekStartsOn = makeDay year month 1 -
      (weekDay (makeDay year month 1) - weekStartsOn + 7) % 7 := by
    unfold gridStartDay; rw [hfy]
  rw [hG] at hflat hgrid
  rw [hfy] at h1 h2
  generalize hF : makeDay year month 1 = F at *
  generalize hk : (weekDay F - weekStartsOn + 7) % 7 = k at *
  have hk6 : 0 ≤ k ∧ k ≤ 6 := by omega
  refine ⟨⟨?_, ?_, ?_⟩, hk6, ?_, ?_, ?_, ?_⟩
  · rw [getFullYear_dateOfDay, c1]
  · rw [getMonth_dateOfDay, c2]
  · rw [getDate_dateOfDay, c3]
  · rw [hflat]
    show some (dateOfDay (F - k + ((0 : Nat) : Int))) = _
    simp
  · rw [hgrid]
    refine ⟨_, rfl, ?_⟩
    show dateOfDay F ∈ (List.range 7).map fun (i : Nat) =>
      dateOfDay (F - k + ((0 * 7 + i : Nat) : Int))
    rw [List.mem_map]
    refine ⟨k.toNat, List.mem_range.mpr (by omega), ?_⟩
    congr 1
    omega
  · intro n hny hnm
    rw [hflat, List.mem_map]
    have hmk := makeDay_of_day n 1
    rw [hny, hnm, hF] at hmk
    have hd := dateFromDay_range n
    refine ⟨(n - (F - k)).toNat, List.mem_range.mpr (by omega), ?_⟩
    congr 1
    omega
  · refine ⟨fun now => ?_, by decide, by decide, by decide⟩
    rfl


/-- Witness of C2: February 2023 with weeks starting on Sunday. -/
theorem generateMonthMatrix_covers_month_witness :
    (generateMonthMatrix (some 2023) (some 1) 0).flatten.head? =
      some (dateOfDay (makeDay 2023 1 1 - (weekDay (makeDay 2023 1 1) - 0 + 7) % 7)) ∧
    (∀ n : Int, yearFromDay n = 2023 → monthFromDay n = 1 →
      dateOfDay n ∈ (generateMonthMatrix (some 2023) (some 1) 0).flatten) :=
  have h := generateMonthMatrix_covers_month 2023 1 0 (Or.inr (by decide)) (by decide)
    (by decide) (by decide) (by decide)
  ⟨h.2.2.1, h.2.2.2.2.1⟩

/-- Counterexample to C2 as stated ("for every year"): for the year 300000 the first
cell is an Invalid Date, not a day moved back from the 1st, and no day at all is among
the 42 cells. -/
theorem generateMonthMatrix_first_cell_unrepresentable_year :
    (generateMonthMatrix (some 300000) (some 0) 0).flatten.head? = some ⟨none⟩ ∧
    ∀ n : Int, dateOfDay n ∉ (generateMonthMatrix (some 300000) (some 0) 0).flatten := by
  have hg : generateMonthMatrix (some 300000) (some 0) 0 =
      List.replicate 6 (List.replicate 7 ⟨none⟩) := by decide
  rw [hg]
  refine ⟨by decide, fun n hn => ?_⟩
  have hall : ∀ c ∈ (List.replicate 6 (List.replicate 7 (⟨none⟩ : JSDate))).flatten,
      c = ⟨none⟩ := by decide
  exact absurd (congrArg JSDate.tv (hall _ hn)) (by simp [dateOfDay])

/-- A year from 0 to 99 is read as 1900 + year by `new Date(year, month, 1)`: the grid
computed for March of the year 50 is that of March 1950, and none of its cells lies in
the year 50. -/
theorem generateMonthMatrix_two_digit_year :
    (generateMonthMatrix (some 50) (some 2) 0).flatten.head? =
      some (JSDate.ofYMD (some 1950) (some 1) (some 26)) ∧
    ∀ c ∈ (generateMonthMatrix (some 50) (some 2) 0).flatten,
      c.getFullYear = some 1950 := by
  decide

/-! ### `normalizeDate` and `shiftDate` on dates -/

theorem normalizeDate_date (d : JSDate) : normalizeDate (Value.date d) = some (normD d) := rfl

theorem shiftDate_date (d : JSDate) (s : Int) :
    shiftDate (Value.date d) s = some (shiftD d s) := rfl

theorem setHours0_none : (⟨none⟩ : JSDate).setHours0 = ⟨none⟩ := rfl

/-- A normalized date is an Invalid Date or the midnight of a representable day. -/
theorem normD_cases (d : JSDate) :
    normD d = ⟨none⟩ ∨
      ∃ n : Int, -100000000 ≤ n ∧ n ≤ 100000000 ∧ normD d = dateOfDay n := by
  obtain ⟨tv⟩ := d
  cases tv with
  | none => left; rfl
  | some t =>
    by_cases h : -maxTime ≤ t ∧ t ≤ maxTime
    · right
      have hr := day_range_of_time h.1 h.2
      refine ⟨day t, hr.1, hr.2, ?_⟩
      have hc := timeClip_day hr.1 hr.2
      simp [normD, JSDate.ofTime, JSDate.getTime, JSDate.setHours0, timeClip_of_range h.1 h.2,
        makeDate, dateOfDay, hc]
    · left
      simp [normD, JSDate.ofTime, JSDate.getTime, JSDate.setHours0, timeClip, h]

theorem normD_none : normD ⟨none⟩ = ⟨none⟩ := rfl

theorem normD_dateOfDay {n : Int} (h1 : -100000000 ≤ n) (h2 : n ≤ 100000000) :
    normD (dateOfDay n) = dateOfDay n := by
  unfold normD
  rw [show JSDate.ofTime (dateOfDay n).getTime = JSDate.copy (dateOfDay n) from rfl,
    copy_dateOfDay h1 h2, setHours0_dateOfDay h1 h2]

theorem normD_idem (d : JSDate) : normD (normD d) = normD d := by
  rcases normD_cases d with h | ⟨n, h1, h2, h⟩
  · rw [h]; rfl
  · rw [h, normD_dateOfDay h1 h2]

theorem shiftD_normD (d : JSDate) (s : Int) : shiftD (normD d) s = shiftD d s := by
  unfold shiftD; rw [normD_idem]

theorem shiftD_none (s : Int) : shiftD ⟨none⟩ s = ⟨none⟩ := rfl

theorem clipDay_of_range {n : Int} (h1 : -100000000 ≤ n) (h2 : n ≤ 100000000) :
    clipDay n = dateOfDay n := by
  unfold clipDay; rw [if_pos ⟨h1, h2⟩]

/-- Shifting the midnight of day `n` by `s` days gives the midnight of day `n + s`, or
an Invalid Date when that day is not representable. -/
theorem shiftD_dateOfDay {n : Int} (h1 : -100000000 ≤ n) (h2 : n ≤ 100000000) (s : Int) :
    shiftD (dateOfDay n) s = clipDay (n + s) := by
  unfold shiftD clipDay
  rw [normD_dateOfDay h1 h2, getTime_dateOfDay]
  simp only [numAdd, Option.some_bind, Option.map_some', JSDate.ofTime]
  rw [show n * DAY_IN_MS + s * DAY_IN_MS = (n + s) * DAY_IN_MS by ring]
  by_cases h : -100000000 ≤ n + s ∧ n + s ≤ 100000000
  · rw [if_pos h, timeClip_day h.1 h.2]
    exact setHours0_dateOfDay h.1 h.2
  · rw [if_neg h]
    have : timeClip ((n + s) * DAY_IN_MS) = none := by
      unfold timeClip
      rw [if_neg]
      unfold maxTime DAY_IN_MS
      omega
    rw [this]; rfl

theorem shiftD_zero (d : JSDate) : shiftD d 0 = normD d := by
  rcases normD_cases d with h | ⟨n, h1, h2, h⟩
  · rw [← shiftD_normD, h]; rfl
  · rw [← shiftD_normD, h, shiftD_dateOfDay h1 h2, add_zero, clipDay_of_range h1 h2]

/-- One more unit step of the scan: shifting `j` times by `step` and once more is
shifting `j + 1` times, also across the end of the representable range. -/
theorem shiftD_step (d : JSDate) (j : Nat) {step : Int} (hstep : step = 1 ∨ step = -1) :
    shiftD (shiftD d ((j : Int) * step)) step = shiftD d (((j + 1 : Nat) : Int) * step) := by
  rcases normD_cases d with h | ⟨n, h1, h2, h⟩
  · rw [← shiftD_normD d, ← shiftD_normD d, h]; rfl
  · rw [← shiftD_normD d, ← shiftD_normD d, h, shiftD_dateOfDay h1 h2,
      shiftD_dateOfDay h1 h2]
    by_cases hr : -100000000 ≤ n + (j : Int) * step ∧ n + (j : Int) * step ≤ 100000000
    · rw [clipDay_of_range hr.1 hr.2, shiftD_dateOfDay hr.1 hr.2]
      congr 1
      push_cast; ring
    · have e1 : clipDay (n + (j : Int) * step) = ⟨none⟩ := by
        unfold clipDay; rw [if_neg hr]
      have e2 : clipDay (n + ((j + 1 : Nat) : Int) * step) = ⟨none⟩ := by
        unfold clipDay; rw [if_neg]
        rcases hstep with rfl | rfl <;> push_cast at hr ⊢ <;> omega
      rw [e1, e2]; rfl

/-! ### The scan of `findFocusableDate` -/

theorem scanStep_cases (direction : Int) : scanStep direction = 1 ∨ scanStep direction = -1 := by
  unfold scanStep; split_ifs <;> simp

theorem isDateDisabled_normD (cfg : Config) (d : JSDate) :
    isDateDisabled cfg (Value.date (normD d)) = isDateDisabled cfg (Value.date d) := by
  unfold isDateDisabled
  rw [normalizeDate_date, normalizeDate_date, normD_idem]

theorem scanFocusable_succ (cfg : Config) (step : Int) (left : Nat) (cursor : JSDate) :
    scanFocusable cfg step (left + 1) cursor =
      if isDateDisabled cfg (Value.date (shiftD cursor step)) = false
      then some (shiftD cursor step)
      else scanFocusable cfg step left (shiftD cursor step) := by
  rw [scanFocusable, shiftDate_date]
  cases h : isDateDisabled cfg (Value.date (shiftD cursor step)) <;> simp [h]

/-- What the loop returns after `j0` steps with `left` attempts to go: the first
enabled date among the next `left` ones, or nothing when they are all disabled. -/
theorem scanFocusable_spec (cfg : Config) (c : JSDate) {step : Int}
    (hstep : step = 1 ∨ step = -1) (left : Nat) : ∀ j0 : Nat,
    match scanFocusable cfg step left (shiftD c ((j0 : Int) * step)) with
    | some r => ∃ k : Nat, j0 < k ∧ k ≤ j0 + left ∧ r = shiftD c ((k : Int) * step) ∧
        isDateDisabled cfg (Value.date r) = false ∧
        ∀ j : Nat, j0 < j → j < k →
          isDateDisabled cfg (Value.date (shiftD c ((j : Int) * step))) = true
    | none => ∀ j : Nat, j0 < j → j ≤ j0 + left →
        isDateDisabled cfg (Value.date (shiftD c ((j : Int) * step))) = true := by
  induction left with
  | zero =>
    intro j0
    simp only [scanFocusable]
    intro j h1 h2
    omega
  | succ left ih =>
    intro j0
    rw [scanFocusable_succ, shiftD_step c j0 hstep]
    by_cases hd : isDateDisabled cfg
        (Value.date (shiftD c (((j0 + 1 : Nat) : Int) * step))) = false
    · rw [if_pos hd]
      exact ⟨j0 + 1, by omega, by omega, rfl, hd, fun j h1 h2 => by omega⟩
    · rw [if_neg hd]
      have hd2 : isDateDisabled cfg
          (Value.date (shiftD c (((j0 + 1 : Nat) : Int) * step))) = true := by
        simpa using hd
      have h := ih (j0 + 1)
      cases hres : scanFocusable cfg step left
          (shiftD c (((j0 + 1 : Nat) : Int) * step)) with
      | none =>
        rw [hres] at h
        intro j h1 h2
        by_cases hj : j = j0 + 1
        · rw [hj]; exact hd2
        · exact h j (by omega) (by omega)
      | some r =>
        rw [hres] at h
        obtain ⟨k, k1, k2, k3, k4, k5⟩ := h
        refine ⟨k, by omega, by omega, k3, k4, fun j h1 h2 => ?_⟩
        by_cases hj : j = j0 + 1
        · rw [hj]; exact hd2
        · exact k5 j (by omega) h2

/-- What `findFocusableDate` returns for a date: the first enabled date among the
candidate and the 120 days after it in the scan direction, or nothing when all 121 are
disabled. -/
theorem findFocusableDate_spec (cfg : Config) (c : JSDate) (direction : Int) :
    match findFocusableDate cfg (Value.date c) direction with
    | some r => ∃ k : Nat, k ≤ 120 ∧ r = shiftD c ((k : Int) * scanStep direction) ∧
        isDateDisabled cfg (Value.date r) = false ∧
        ∀ j : Nat, j < k →
          isDateDisabled cfg (Value.date (shiftD c ((j : Int) * scanStep direction))) = true
    | none => ∀ j : Nat, j ≤ 120 →
        isDateDisabled cfg (Value.date (shiftD c ((j : Int) * scanStep direction))) = true := by
  have h0 : shiftD c (((0 : Nat) : Int) * scanStep direction) = normD c := by
    rw [Nat.cast_zero, zero_mul, shiftD_zero]
  unfold findFocusableDate
  rw [normalizeDate_date]
  simp only
  by_cases hd : isDateDisabled cfg (Value.date (normD c)) = false
  · rw [hd]
    simp only [Bool.not_false, if_true]
    exact ⟨0, by omega, h0.symm, hd, fun j hj => by omega⟩
  · have hd2 : isDateDisabled cfg (Value.date (normD c)) = true := by simpa using hd
    rw [hd2]
    simp only [Bool.not_true, Bool.false_eq_true, if_false]
    have h := scanFocusable_spec cfg c (scanStep_cases direction) 120 0
    rw [h0] at h
    rw [show (if direction ≥ 0 then (1 : Int) else -1) = scanStep direction from rfl]
    cases hres : scanFocusable cfg (scanStep direction) 120 (normD c) with
    | none =>
      rw [hres] at h
      intro j hj
      by_cases hj0 : j = 0
      · rw [hj0, h0]; exact hd2
      · exact h j (by omega) (by omega)
    | some r =>
      rw [hres] at h
      obtain ⟨k, k1, k2, k3, k4, k5⟩ := h
      refine ⟨k, by omega, k3, k4, fun j hj => ?_⟩
      by_cases hj0 : j = 0
      · rw [hj0, h0]; exact hd2
      · exact k5 j (by omega) hj

theorem dateKey_normD (d : JSDate) :
    dateKey (Value.date (normD d)) = dateKey (Value.date d) := by
  unfold dateKey
  rw [normalizeDate_date, normalizeDate_date, normD_idem]

theorem isWithinRange_between {n m b : Int} (h1 : -100000000 ≤ n) (h2 : n ≤ m) (h3 : m ≤ b)
    (h4 : b ≤ 100000000) :
    isWithinRange (Value.date (dateOfDay m)) (some (dateOfDay n)) (some (dateOfDay b)) =
      true := by
  unfold isWithinRange
  rw [normalizeDate_date, normD_dateOfDay (by omega) (by omega)]
  have e1 : ¬ m * DAY_IN_MS < n * DAY_IN_MS := by unfold DAY_IN_MS; omega
  have e2 : ¬ b * DAY_IN_MS < m * DAY_IN_MS := by unfold DAY_IN_MS; omega
  simp [isBefore, isAfter, numLt, getTime_dateOfDay, e1, e2]

/-- Between the bounds, a day is disabled exactly when its key is in the set. -/
theorem isDateDisabled_between {n m b : Int} (disabled : List String)
    (h1 : -100000000 ≤ n) (h2 : n ≤ m) (h3 : m ≤ b) (h4 : b ≤ 100000000) :
    isDateDisabled ⟨some (dateOfDay n), some (dateOfDay b), disabled⟩
        (Value.date (dateOfDay m)) =
      decide (dateKey (Value.date (dateOfDay m)) ∈ disabled) := by
  unfold isDateDisabled
  rw [normalizeDate_date, normD_dateOfDay (by omega) (by omega)]
  simp [isWithinRange_between h1 h2 h3 h4]

/-- On a host whose local time is UTC, where a shift by one day is exact: whenever
`findFocusableDate(candidate, direction)` returns a date `r`, `r` is enabled, `r` is the candidate shifted by `k` days in the scan direction (forward when
`direction >= 0`, backward otherwise) for some `k` from 0 to 120, and every date at a
smaller offset is disabled; an enabled candidate is returned itself (normalized); and
with `minDate = today`, `maxDate = today + 5` and `today`, `today + 1`, `today + 2`
disabled but not `today + 3`, `findFocusableDate(today, 1)` returns `today + 3`. -/
theorem findFocusableDate_returns_first_enabled (cfg : Config) (candidate : JSDate)
    (direction : Int) :
    (∀ r, findFocusableDate cfg (Value.date candidate) direction = some r →
      isDateDisabled cfg (Value.date r) = false ∧
      ∃ k : Nat, k ≤ 120 ∧
        shiftDate (Value.date candidate)
          ((k : Int) * (if direction ≥ 0 then 1 else -1)) = some r ∧
        ∀ j : Nat, j < k → ∃ q,
          shiftDate (Value.date candidate)
            ((j : Int) * (if direction ≥ 0 then 1 else -1)) = some q ∧
          isDateDisabled cfg (Value.date q) = true) ∧
    (isDateDisabled cfg (Value.date candidate) = false →
      findFocusableDate cfg (Value.date candidate) direction =
        normalizeDate (Value.date candidate)) ∧
    (∀ (today maxDate : JSDate) (disabled : List String),
      shiftDate (Value.date today) 5 = some maxDate → maxDate.Valid →
      dateKey (Value.date today) ∈ disabled →
      dateKey (Value.ofOption (shiftDate (Value.date today) 1)) ∈ disabled →
      dateKey (Value.ofOption (shiftDate (Value.date today) 2)) ∈ disabled →
      dateKey (Value.ofOption (shiftDate (Value.date today) 3)) ∉ disabled →
      findFocusableDate ⟨normalizeDate (Value.date today), some maxDate, disabled⟩
        (Value.date today) 1 = shiftDate (Value.date today) 3) := by
  refine ⟨fun r hr => ?_, fun hen => ?_, ?_⟩
  · have h := findFocusableDate_spec cfg candidate direction
    rw [hr] at h
    obtain ⟨k, k1, k2, k3, k4⟩ := h
    refine ⟨k3, k, k1, ?_, fun j hj => ⟨_, shiftDate_date _ _, k4 j hj⟩⟩
    rw [shiftDate_date, k2]; rfl
  · unfold findFocusableDate
    rw [normalizeDate_date]
    simp only [isDateDisabled_normD, hen, Bool.not_false, if_true]
  · intro today maxDate disabled hmax hvalid h0 h1 h2 h3
    rw [shiftDate_date] at hmax h1 h2 h3 ⊢
    have hmax2 : shiftD today 5 = maxDate := Option.some.inj hmax
    simp only [Value.ofOption] at h1 h2 h3
    rcases normD_cases today with hn | ⟨n, n1, n2, hn⟩
    · rw [← shiftD_normD, hn, shiftD_none] at hmax2
      rw [← hmax2] at hvalid
      exact absurd hvalid (by decide)
    · have hs : ∀ s : Int, shiftD today s = clipDay (n + s) := fun s => by
        rw [← shiftD_normD, hn, shiftD_dateOfDay n1 n2]
      have hn5 : n + 5 ≤ 100000000 := by
        by_contra hc
        rw [hs 5] at hmax2
        unfold clipDay at hmax2
        rw [if_neg (by omega)] at hmax2
        rw [← hmax2] at hvalid
        exact absurd hvalid (by decide)
      have hsd : ∀ s : Int, 0 ≤ s → s ≤ 5 → shiftD today s = dateOfDay (n + s) :=
        fun s s0 s5 => by rw [hs, clipDay_of_range (by omega) (by omega)]
      rw [← dateKey_normD, hn] at h0
      rw [hsd 1 (by omega) (by omega)] at h1
      rw [hsd 2 (by omega) (by omega)] at h2
      rw [hsd 3 (by omega) (by omega)] at h3 ⊢
      rw [normalizeDate_date, hn, ← hmax2, hsd 5 (by omega) (by omega)]
      have hdis : ∀ s : Int, 0 ≤ s → s ≤ 5 →
          isDateDisabled ⟨some (dateOfDay n), some (dateOfDay (n + 5)), disabled⟩
            (Value.date (shiftD today s)) =
          decide (dateKey (Value.date (dateOfDay (n + s))) ∈ disabled) :=
        fun s s0 s5 => by
          rw [hsd s s0 s5]
          exact isDateDisabled_between disabled n1 (by omega) (by omega) hn5
      have h := findFocusableDate_spec
        ⟨some (dateOfDay n), some (dateOfDay (n + 5)), disabled⟩ today 1
      have hstep : scanStep 1 = 1 := by decide
      rw [hstep] at h
      cases hres : findFocusableDate
          ⟨some (dateOfDay n), some (dateOfDay (n + 5)), disabled⟩ (Value.date today) 1 with
      | none =>
        rw [hres] at h
        have h3' := h 3 (by omega)
        rw [show ((3 : Nat) : Int) * 1 = 3 by norm_num, hdis 3 (by omega) (by omega)] at h3'
        simp [h3] at h3'
      | some r =>
        rw [hres] at h
        obtain ⟨k, k1, k2, k3, k4⟩ := h
        have hk3 : k = 3 := by
          by_contra hne
          rcases Nat.lt_or_gt_of_ne hne with hlt | hgt
          · rw [k2, mul_one] at k3
            have hk : k = 0 ∨ k = 1 ∨ k = 2 := by omega
            rcases hk with rfl | rfl | rfl
            · rw [hdis _ (by norm_num) (by norm_num)] at k3
              simp at k3
              exact k3 h0
            · rw [hdis _ (by norm_num) (by norm_num)] at k3
              simp at k3
              exact k3 h1
            · rw [hdis _ (by norm_num) (by norm_num)] at k3
              simp at k3
              exact k3 h2
          · have h3' := k4 3 hgt
            rw [show ((3 : Nat) : Int) * 1 = 3 by norm_num,
              hdis 3 (by omega) (by omega)] at h3'
            simp [h3] at h3'
        rw [k2, hk3, show ((3 : Nat) : Int) * 1 = 3 by norm_num, hsd 3 (by omega) (by omega)]


/-- An instance on a host whose local time is UTC: today is 2024-03-10, the bounds are 2024-03-10 and 2024-03-15, and
every day of that range but 2024-03-13 is disabled; the scan from today returns
2024-03-13, which is enabled. -/
theorem findFocusableDate_returns_first_enabled_witness :
    findFocusableDate
        ⟨normalizeDate (Value.date (JSDate.ofYMD (some 2024) (some 2) (some 10))),
          some (JSDate.ofYMD (some 2024) (some 2) (some 15)),
          ["2024-03-10", "2024-03-11", "2024-03-12", "2024-03-14", "2024-03-15"]⟩
        (Value.date (JSDate.ofYMD (some 2024) (some 2) (some 10))) 1 =
      some (JSDate.ofYMD (some 2024) (some 2) (some 13)) ∧
    isDateDisabled
        ⟨normalizeDate (Value.date (JSDate.ofYMD (some 2024) (some 2) (some 10))),
          some (JSDate.ofYMD (some 2024) (some 2) (some 15)),
          ["2024-03-10", "2024-03-11", "2024-03-12", "2024-03-14", "2024-03-15"]⟩
        (Value.date (JSDate.ofYMD (some 2024) (some 2) (some 13))) = false :=
  have h := findFocusableDate_returns_first_enabled
    ⟨normalizeDate (Value.date (JSDate.ofYMD (some 2024) (some 2) (some 10))),
      some (JSDate.ofYMD (some 2024) (some 2) (some 15)),
      ["2024-03-10", "2024-03-11", "2024-03-12", "2024-03-14", "2024-03-15"]⟩
    (JSDate.ofYMD (some 2024) (some 2) (some 10)) 1
  have h3 := h.2.2 (JSDate.ofYMD (some 2024) (some 2) (some 10))
    (JSDate.ofYMD (some 2024) (some 2) (some 15))
    ["2024-03-10", "2024-03-11", "2024-03-12", "2024-03-14", "2024-03-15"]
    (by decide) (by decide) (by decide) (by decide) (by decide) (by decide)
  have hr := h3.trans (show shiftDate (Value.date (JSDate.ofYMD (some 2024) (some 2)
    (some 10))) 3 = some (JSDate.ofYMD (some 2024) (some 2) (some 13)) by decide)
  ⟨hr, (h.1 _ hr).1⟩

/-- On a host whose local time is UTC, where a shift by one day is exact:
`findFocusableDate(candidate, direction)` returns absent exactly when the candidate and each of the 120 following days in the scan direction are all disabled;
so it is absent when all those 121 dates are disabled, and it returns a date whenever
one of them is enabled. -/
theorem findFocusableDate_absent_iff (cfg : Config) (candidate : JSDate) (direction : Int) :
    (findFocusableDate cfg (Value.date candidate) direction = none ↔
      ∀ j : Nat, j ≤ 120 → ∃ q,
        shiftDate (Value.date candidate)
          ((j : Int) * (if direction ≥ 0 then 1 else -1)) = some q ∧
        isDateDisabled cfg (Value.date q) = true) ∧
    ((∃ j : Nat, j ≤ 120 ∧ ∃ q,
        shiftDate (Value.date candidate)
          ((j : Int) * (if direction ≥ 0 then 1 else -1)) = some q ∧
        isDateDisabled cfg (Value.date q) = false) →
      ∃ r, findFocusableDate cfg (Value.date candidate) direction = some r) := by
  have h := findFocusableDate_spec cfg candidate direction
  have key : findFocusableDate cfg (Value.date candidate) direction = none ↔
      ∀ j : Nat, j ≤ 120 →
        isDateDisabled cfg
          (Value.date (shiftD candidate ((j : Int) * scanStep direction))) = true := by
    cases hres : findFocusableDate cfg (Value.date candidate) direction with
    | none =>
      rw [hres] at h
      exact ⟨fun _ => h, fun _ => rfl⟩
    | some r =>
      rw [hres] at h
      obtain ⟨k, k1, k2, k3, _⟩ := h
      refine ⟨fun hc => absurd hc (by simp), fun hall => ?_⟩
      have := hall k k1
      rw [← k2, k3] at this
      exact absurd this (by simp)
  constructor
  · rw [key]
    constructor
    · intro hall j hj
      exact ⟨_, shiftDate_date _ _, hall j hj⟩
    · intro hall j hj
      obtain ⟨q, hq1, hq2⟩ := hall j hj
      rw [shiftDate_date] at hq1
      rw [show shiftD candidate ((j : Int) * scanStep direction) = q from
        Option.some.inj hq1]
      exact hq2
  · rintro ⟨j, hj, q, hq1, hq2⟩
    rw [shiftDate_date] at hq1
    have hq : shiftD candidate ((j : Int) * scanStep direction) = q := Option.some.inj hq1
    cases hres : findFocusableDate cfg (Value.date candidate) direction with
    | some r => exact ⟨r, rfl⟩
    | none =>
      have := key.mp hres j hj
      rw [hq, hq2] at this
      exact absurd this (by simp)


/-- An instance on a host whose local time is UTC: with `minDate` 2024-03-20 after `maxDate` 2024-03-01 every date is
disabled and the scan from 2024-03-10 is exhausted; with the bounds 2024-03-10 and
2024-03-15 and only 2024-03-13 enabled, a date is found. -/
theorem findFocusableDate_absent_iff_witness :
    (∀ j : Nat, j ≤ 120 → ∃ q,
      shiftDate (Value.date (JSDate.ofYMD (some 2024) (some 2) (some 10)))
        ((j : Int) * (if (1 : Int) ≥ 0 then 1 else -1)) = some q ∧
      isDateDisabled
        ⟨some (JSDate.ofYMD (some 2024) (some 2) (some 20)),
          some (JSDate.ofYMD (some 2024) (some 2) (some 1)), []⟩ (Value.date q) = true) ∧
    (∃ r, findFocusableDate
        ⟨some (JSDate.ofYMD (some 2024) (some 2) (some 10)),
          some (JSDate.ofYMD (some 2024) (some 2) (some 15)),
          ["2024-03-10", "2024-03-11", "2024-03-12", "2024-03-14", "2024-03-15"]⟩
        (Value.date (JSDate.ofYMD (some 2024) (some 2) (some 10))) 1 = some r) :=
  ⟨(findFocusableDate_absent_iff
      ⟨some (JSDate.ofYMD (some 2024) (some 2) (some 20)),
        some (JSDate.ofYMD (some 2024) (some 2) (some 1)), []⟩
      (JSDate.ofYMD (some 2024) (some 2) (some 10)) 1).1.mp (by decide),
   (findFocusableDate_absent_iff
      ⟨some (JSDate.ofYMD (some 2024) (some 2) (some 10)),
        some (JSDate.ofYMD (some 2024) (some 2) (some 15)),
        ["2024-03-10", "2024-03-11", "2024-03-12", "2024-03-14", "2024-03-15"]⟩
      (JSDate.ofYMD (some 2024) (some 2) (some 10)) 1).2
    ⟨3, by decide, JSDate.ofYMD (some 2024) (some 2) (some 13), by decide, by decide⟩⟩

/-! ### The focus invariant -/

theorem scanFocusable_enabled (cfg : Config) (step : Int) (left : Nat) :
    ∀ (cursor r : JSDate), scanFocusable cfg step left cursor = some r →
      isDateDisabled cfg (Value.date r) = false := by
  induction left with
  | zero => intro cursor r h; simp [scanFocusable] at h
  | succ left ih =>
    intro cursor r h
    rw [scanFocusable_succ] at h
    split_ifs at h with hd
    · rw [← Option.some.inj h]; exact hd
    · exact ih _ _ h

/-- Whatever `findFocusableDate` returns is enabled. -/
theorem findFocusableDate_enabled (cfg : Config) (candidate : Value) (direction : Int)
    (r : JSDate) (h : findFocusableDate cfg candidate direction = some r) :
    isDateDisabled cfg (Value.date r) = false := by
  unfold findFocusableDate at h
  cases hn : normalizeDate candidate with
  | none => rw [hn] at h; simp at h
  | some nc =>
    rw [hn] at h
    simp only at h
    by_cases hd : isDateDisabled cfg (Value.date nc) = false
    · rw [hd] at h
      simp only [Bool.not_false, if_true] at h
      rw [← Option.some.inj h]; exact hd
    · have hd2 : isDateDisabled cfg (Value.date nc) = true := by simpa using hd
      rw [hd2] at h
      simp only [Bool.not_true, Bool.false_eq_true, if_false] at h
      exact scanFocusable_enabled _ _ _ _ _ h

theorem keep_or_take_enabled (cfg : Config) (current : Option JSDate) (next : JSDate)
    (hc : FocusEnabled cfg current) (hn : isDateDisabled cfg (Value.date next) = false) :
    FocusEnabled cfg
      (if current.isSome && isSameDay current (some next) then current else some next) := by
  split_ifs
  · exact hc
  · exact ⟨next, rfl, hn⟩

theorem orElse_enabled (cfg : Config) (current fallback : Option JSDate)
    (hc : FocusEnabled cfg current) : FocusEnabled cfg (current <|> fallback) := by
  obtain ⟨d, rfl, hd⟩ := hc
  exact ⟨d, rfl, hd⟩

theorem reconcileSelection_enabled (cfg : Config) (sel current : Option JSDate)
    (hc : FocusEnabled cfg current) : FocusEnabled cfg (reconcileSelection cfg sel current) := by
  unfold reconcileSelection
  split
  · exact hc
  · split_ifs
    · exact hc
    · split
      · next next hnext =>
        exact keep_or_take_enabled cfg current next hc
          (findFocusableDate_enabled _ _ _ _ hnext)
      · exact orElse_enabled cfg _ _ hc

theorem reconcileMonth_enabled (cfg : Config) (sel anchor current : Option JSDate)
    (hc : FocusEnabled cfg current) :
    FocusEnabled cfg (reconcileMonth cfg sel anchor current) := by
  unfold reconcileMonth
  split
  · exact hc
  · split_ifs
    · exact hc
    · simp only
      split
      · next next hnext =>
        exact keep_or_take_enabled cfg current next hc
          (findFocusableDate_enabled _ _ _ _ hnext)
      · exact orElse_enabled cfg _ _ hc

theorem moveFocusToDate_enabled (cfg : Config) (opts : Options) (s : FocusState)
    (candidate : Value) (direction : Int) (hc : FocusEnabled cfg s.focusDate) :
    FocusEnabled cfg (moveFocusToDate cfg opts s candidate direction).focusDate := by
  unfold moveFocusToDate
  split
  · exact hc
  · next next hnext =>
    exact keep_or_take_enabled cfg s.focusDate next hc
      (findFocusableDate_enabled _ _ _ _ hnext)

theorem moveFocusByDays_enabled (cfg : Config) (opts : Options) (sel : Option JSDate)
    (s : FocusState) (offset : Option Int) (base : Option JSDate)
    (hc : FocusEnabled cfg s.focusDate) :
    FocusEnabled cfg (moveFocusByDays cfg opts sel s offset base).focusDate := by
  unfold moveFocusByDays
  cases offset with
  | none => exact hc
  | some o =>
    simp only
    by_cases h0 : o = 0
    · rw [if_pos h0]; exact hc
    · rw [if_neg h0]
      cases referenceDate sel s base with
      | none => exact hc
      | some reference => exact moveFocusToDate_enabled _ _ _ _ _ hc

theorem isWithinRange_normD (d : JSDate) (mn mx : Option JSDate) :
    isWithinRange (Value.date (normD d)) mn mx = isWithinRange (Value.date d) mn mx := by
  unfold isWithinRange
  rw [normalizeDate_date, normalizeDate_date, normD_idem]

theorem onFocusCell_enabled (cfg : Config) (date : JSDate) (current : Option JSDate)
    (hc : FocusEnabled cfg current) : FocusEnabled cfg (onFocusCell cfg date current) := by
  unfold onFocusCell
  split_ifs with h1 h2
  · exact hc
  · refine ⟨normD date, normalizeDate_date date, ?_⟩
    rw [isDateDisabled, normalizeDate_date, normD_idem]
    simp only
    rw [isWithinRange_normD, dateKey_normD]
    unfold cellIsDisabled at h1
    simp only [Bool.not_or, Bool.not_not, Bool.and_eq_true, Bool.not_eq_true',
      decide_eq_false_iff_not] at h1
    simp [h1.1, h1.2]
  · exact hc

/-- As long as the bounds and the disabled set do not change: when the initial call of
`findFocusableDate` (on the selection, else the active month) finds a date, the initial
focus is that date and is not disabled; and every update (selection reconciliation,
month-change reconciliation, `moveFocusToDate`, `moveFocusByDays`, `moveFocusByMonths`,
`focusWeekEdge`, `focusToday`, a cell's `onFocus` handler, month navigation) keeps a
focus that is not disabled on a date that is not disabled: in every state reachable
from such an initial state `isDateDisabled(focusDate)` is false. -/
theorem focus_stays_enabled (cfg : Config) :
    (∀ (sel anchor : Option JSDate) (now r : JSDate),
      findFocusableDate cfg (Value.ofOption (sel <|> anchor)) 1 = some r →
      initialFocus cfg sel anchor now = some r ∧
        isDateDisabled cfg (Value.date r) = false) ∧
    (∀ s0 s : FocusState, FocusEnabled cfg s0.focusDate → FocusReachable cfg s0 s →
      FocusEnabled cfg s.focusDate) := by
  constructor
  · intro sel anchor now r h
    refine ⟨?_, findFocusableDate_enabled _ _ _ _ h⟩
    unfold initialFocus
    rw [h]; rfl
  · intro s0 s h0 hreach
    induction hreach with
    | start => exact h0
    | step _ hstep ih =>
      cases hstep with
      | reconcileSelection sel s => exact reconcileSelection_enabled _ _ _ ih
      | reconcileMonth sel s => exact reconcileMonth_enabled _ _ _ _ ih
      | moveFocusToDate opts s candidate direction =>
        exact moveFocusToDate_enabled _ _ _ _ _ ih
      | moveFocusByDays opts sel s offset base =>
        exact moveFocusByDays_enabled _ _ _ _ _ _ ih
      | moveFocusByMonths opts sel s delta base =>
        unfold moveFocusByMonths
        split
        · exact ih
        · exact moveFocusToDate_enabled _ _ _ _ _ ih
      | focusWeekEdge opts sel s isStart base =>
        unfold focusWeekEdge
        split
        · exact ih
        · simp only
          split_ifs <;> first | exact ih | exact moveFocusByDays_enabled _ _ _ _ _ _ ih
      | focusToday opts s now =>
        unfold focusToday
        split
        · exact ih
        · exact moveFocusToDate_enabled _ _ _ _ _ ih
      | onFocus date s => exact onFocusCell_enabled _ _ _ ih
      | navigate anchor s => exact ih


/-- An instance with fixed bounds and disabled set: with the bounds 2024-03-10 and 2024-03-15 and only 2024-03-13
enabled, the initial scan from the anchor 2024-03-01 finds 2024-03-13, and the focus
is still on an enabled date after `moveFocusByDays(1)`. -/
theorem focus_stays_enabled_witness :
    (initialFocus
        ⟨some (JSDate.ofYMD (some 2024) (some 2) (some 10)),
          some (JSDate.ofYMD (some 2024) (some 2) (some 15)),
          ["2024-03-10", "2024-03-11", "2024-03-12", "2024-03-14", "2024-03-15"]⟩
        none (some (JSDate.ofYMD (some 2024) (some 2) (some 1)))
        (JSDate.ofYMD (some 2024) (some 2) (some 12)) =
      some (JSDate.ofYMD (some 2024) (some 2) (some 13)) ∧
      isDateDisabled
        ⟨some (JSDate.ofYMD (some 2024) (some 2) (some 10)),
          some (JSDate.ofYMD (some 2024) (some 2) (some 15)),
          ["2024-03-10", "2024-03-11", "2024-03-12", "2024-03-14", "2024-03-15"]⟩
        (Value.date (JSDate.ofYMD (some 2024) (some 2) (some 13))) = false) ∧
    FocusEnabled
      ⟨some (JSDate.ofYMD (some 2024) (some 2) (some 10)),
        some (JSDate.ofYMD (some 2024) (some 2) (some 15)),
        ["2024-03-10", "2024-03-11", "2024-03-12", "2024-03-14", "2024-03-15"]⟩
      (moveFocusByDays
        ⟨some (JSDate.ofYMD (some 2024) (some 2) (some 10)),
          some (JSDate.ofYMD (some 2024) (some 2) (some 15)),
          ["2024-03-10", "2024-03-11", "2024-03-12", "2024-03-14", "2024-03-15"]⟩
        ⟨true, true, 0⟩ none
        ⟨some (JSDate.ofYMD (some 2024) (some 2) (some 13)),
          some (JSDate.ofYMD (some 2024) (some 2) (some 1))⟩ (some 1) none).focusDate :=
  ⟨(focus_stays_enabled _).1 none (some (JSDate.ofYMD (some 2024) (some 2) (some 1)))
      (JSDate.ofYMD (some 2024) (some 2) (some 12))
      (JSDate.ofYMD (some 2024) (some 2) (some 13)) (by decide),
   (focus_stays_enabled _).2
      ⟨some (JSDate.ofYMD (some 2024) (some 2) (some 13)),
        some (JSDate.ofYMD (some 2024) (some 2) (some 1))⟩ _
      ⟨JSDate.ofYMD (some 2024) (some 2) (some 13), rfl, by decide⟩
      (FocusReachable.step FocusReachable.start
        (FocusStep.moveFocusByDays ⟨true, true, 0⟩ none _ (some 1) none))⟩

/-- The fallback of the initial focus: with `minDate = maxDate = 2024-03-01` and that
date disabled nothing is focusable, `findFocusableDate` returns absent, and the initial
focus falls back to the active month anchor 2024-03-01, which is disabled. -/
theorem initialFocus_on_disabled_date :
    initialFocus
        ⟨some (JSDate.ofYMD (some 2024) (some 2) (some 1)),
          some (JSDate.ofYMD (some 2024) (some 2) (some 1)), ["2024-03-01"]⟩
        none (some (JSDate.ofYMD (some 2024) (some 2) (some 1)))
        (JSDate.ofYMD (some 2024) (some 2) (some 15)) =
      some (JSDate.ofYMD (some 2024) (some 2) (some 1)) ∧
    isDateDisabled
        ⟨some (JSDate.ofYMD (some 2024) (some 2) (some 1)),
          some (JSDate.ofYMD (some 2024) (some 2) (some 1)), ["2024-03-01"]⟩
        (Value.date (JSDate.ofYMD (some 2024) (some 2) (some 1))) = true := by
  decide

/-! ### The active month anchor -/

theorem mk_timeClip_day (m : Int) : (⟨timeClip (m * DAY_IN_MS)⟩ : JSDate) = clipDay m := by
  unfold clipDay
  by_cases h : -100000000 ≤ m ∧ m ≤ 100000000
  · rw [if_pos h, timeClip_day h.1 h.2]; rfl
  · rw [if_neg h]
    have : timeClip (m * DAY_IN_MS) = none := by
      unfold timeClip
      rw [if_neg]
      unfold maxTime DAY_IN_MS
      omega
    rw [this]

theorem clipDay_valid {m : Int} (h : (clipDay m).Valid) :
    clipDay m = dateOfDay m ∧ -100000000 ≤ m ∧ m ≤ 100000000 := by
  unfold clipDay at h ⊢
  by_cases hr : -100000000 ≤ m ∧ m ≤ 100000000
  · rw [if_pos hr]; exact ⟨rfl, hr⟩
  · rw [if_neg hr] at h; exact absurd h (by decide)

/-- Whatever `normalizeDate` returns is the normalization of some `Date`. -/
theorem normalizeDate_eq_normD {v : Value} {x : JSDate} (h : normalizeDate v = some x) :
    ∃ o, x = normD ⟨o⟩ := by
  unfold normalizeDate at h
  cases v with
  | date d => exact ⟨d.tv, (Option.some.inj h).symm⟩
  | number n => exact ⟨n, (Option.some.inj h).symm⟩
  | string parsed =>
    simp only [toDate] at h
    split_ifs at h
    exact ⟨parsed, (Option.some.inj h).symm⟩
  | other => simp [toDate] at h

theorem setDate_clip (n k : Int) :
    (dateOfDay n).setDate (some k) = clipDay (n - dateFromDay n + k) := by
  rw [← mk_timeClip_day]
  simp [JSDate.setDate, dateOfDay, day_mul, timeWithinDay_mul, makeDay_of_day, makeDate]

/-- A valid result of `startOfMonth` is the midnight of the first day of a month. -/
theorem startOfMonth_valid {v : Value} {d : JSDate} (h : startOfMonth v = some d)
    (hv : d.Valid) :
    ∃ y m : Int, 0 ≤ m ∧ m ≤ 11 ∧ d = dateOfDay (makeDay y m 1) ∧
      -100000000 ≤ makeDay y m 1 ∧ makeDay y m 1 ≤ 100000000 := by
  unfold startOfMonth at h
  cases hn : normalizeDate v with
  | none => rw [hn] at h; simp at h
  | some x =>
    rw [hn] at h
    have hd : x.setDate (some 1) = d := Option.some.inj h
    obtain ⟨o, rfl⟩ := normalizeDate_eq_normD hn
    rcases normD_cases ⟨o⟩ with hx | ⟨n, _, _, hx⟩
    · rw [hx] at hd
      rw [← hd] at hv
      exact absurd hv (by decide)
    · rw [hx, setDate_clip] at hd
      rw [← hd] at hv
      obtain ⟨e, r1, r2⟩ := clipDay_valid hv
      have hm := monthFromDay_range n
      refine ⟨yearFromDay n, monthFromDay n, hm.1, hm.2, ?_, ?_, ?_⟩ <;>
        rw [makeDay_of_day]
      · rw [← hd, e]
      · exact r1
      · exact r2

theorem getDate_first_of_month (y m : Int) (hm0 : 0 ≤ m) (hm : m ≤ 11) :
    (dateOfDay (makeDay y m 1)).getDate = some 1 := by
  rw [getDate_dateOfDay, (civil_first_of_month y m hm0 hm).2.2]

/-- In `makeDay` the month is first reduced into 0..11, carrying into the year. -/
theorem makeDay_carry (y k dt : Int) : makeDay y k dt = makeDay (y + k / 12) (k % 12) dt := by
  have h1 : k % 12 / 12 = 0 := by omega
  have h2 : k % 12 % 12 = k % 12 := by omega
  unfold makeDay
  simp only [h1, h2, add_zero]

/-- A valid result of `addMonths` is the midnight of the first day of a month. -/
theorem addMonths_valid {v : Value} {count : Int} {d : JSDate}
    (h : addMonths v count = some d) (hv : d.Valid) :
    ∃ y m : Int, 0 ≤ m ∧ m ≤ 11 ∧ d = dateOfDay (makeDay y m 1) ∧
      -100000000 ≤ makeDay y m 1 ∧ makeDay y m 1 ≤ 100000000 := by
  unfold addMonths at h
  cases hb : startOfMonth v with
  | none => rw [hb] at h; simp at h
  | some base =>
    rw [hb] at h
    have hd : base.setMonth (numAdd base.getMonth (some count)) = d := Option.some.inj h
    have hbv : base.Valid := by
      cases hbt : base.tv with
      | none =>
        have hbn : base = ⟨none⟩ := by cases base; simp_all
        rw [hbn] at hd
        rw [← hd] at hv
        exact absurd hv (by simp [JSDate.Valid, JSDate.setMonth])
      | some t => simp [JSDate.Valid, hbt]
    obtain ⟨y, m, hm0, hm, rfl, _, _⟩ := startOfMonth_valid hb hbv
    obtain ⟨c1, c2, c3⟩ := civil_first_of_month y m hm0 hm
    have hset : (dateOfDay (makeDay y m 1)).setMonth
        (numAdd (dateOfDay (makeDay y m 1)).getMonth (some count)) =
        clipDay (makeDay y (m + count) 1) := by
      rw [← mk_timeClip_day, getMonth_dateOfDay]
      simp [JSDate.setMonth, numAdd, dateOfDay, day_mul, timeWithinDay_mul, makeDate, c1,
        c2, c3]
    rw [hset] at hd
    rw [← hd] at hv
    obtain ⟨e, r1, r2⟩ := clipDay_valid hv
    rw [makeDay_carry] at e r1 r2 hd
    exact ⟨y + (m + count) / 12, (m + count) % 12, by omega, by omega, by rw [← hd, e], r1, r2⟩

theorem valid_of_normD_valid {d : JSDate} (h : (normD d).Valid) : d.Valid := by
  cases hd : d.tv with
  | none =>
    have : d = ⟨none⟩ := by cases d; simp_all
    rw [this] at h
    exact absurd h (by decide)
  | some t => simp [JSDate.Valid, hd]

theorem normD_of_startOfMonth {v : Value} {s : JSDate} (h : startOfMonth v = some s)
    (hv : (normD s).Valid) : normD s = s ∧ s.getDate = some 1 := by
  obtain ⟨y, m, hm0, hm, rfl, r1, r2⟩ := startOfMonth_valid h (valid_of_normD_valid hv)
  exact ⟨normD_dateOfDay r1 r2, getDate_first_of_month y m hm0 hm⟩

/-- The anchor computed at construction is the clamped start of a month. -/
theorem startDate_eq_clamp (now : JSDate) (initialDate minDate maxDate : Value) :
    ∃ s, startOfMonth (Value.ofOption
        (normalizeDate initialDate <|> normalizeDate (Value.date now))) = some s ∧
      startDate now initialDate minDate maxDate =
        (if (normalizeDate minDate).isSome &&
            isBefore (some (normD s)) (normalizeDate minDate)
         then (normalizeDate minDate).map JSDate.copy
         else if (normalizeDate maxDate).isSome &&
            isAfter (some (normD s)) (normalizeDate maxDate)
         then (normalizeDate maxDate).map JSDate.copy
         else some (normD s)) := by
  have hni : ∃ x, (normalizeDate initialDate <|> normalizeDate (Value.date now)) = some x := by
    cases normalizeDate initialDate with
    | none => exact ⟨normD now, rfl⟩
    | some x => exact ⟨x, rfl⟩
  obtain ⟨x, hx⟩ := hni
  refine ⟨(normD x).setDate (some 1), ?_, ?_⟩
  · rw [hx]; rfl
  · unfold startDate
    simp only [hx]
    simp only [Value.ofOption, startOfMonth, normalizeDate_date, clampDateToRange]
    cases hmin : normalizeDate minDate <;> cases hmax : normalizeDate maxDate <;>
      simp <;> split_ifs <;> rfl


/-- C6 (amended): whenever the resulting anchor is a valid date, it has day-of-month 1
after `goToNextMonth`, `goToPreviousMonth`, `goToNextYear`, `goToPreviousYear`,
`goToMonth` and `goToToday`; `goToDate` either sets an anchor with day-of-month 1 or
leaves the anchor as it was; and the anchor computed at construction has day-of-month 1
unless clamping replaced the start of the month by `minDate` or `maxDate`, in which
case the anchor is a copy of that bound. -/
theorem anchor_day_of_month (d : JSDate) (hv : d.Valid) :
    (∀ current : Option JSDate,
      (goToNextMonth current = some d ∨ goToPreviousMonth current = some d ∨
        goToNextYear current = some d ∨ goToPreviousYear current = some d) →
      d.getDate = some 1) ∧
    (∀ year month : Option Int, goToMonth year month = some d → d.getDate = some 1) ∧
    (∀ now : JSDate, goToToday now = some d → d.getDate = some 1) ∧
    (∀ (value : Value) (current : Option JSDate), goToDate value current = some d →
      d.getDate = some 1 ∨ current = some d) ∧
    (∀ (now : JSDate) (initialDate minDate maxDate : Value),
      startDate now initialDate minDate maxDate = some d →
      d.getDate = some 1 ∨ (normalizeDate minDate).map JSDate.copy = some d ∨
        (normalizeDate maxDate).map JSDate.copy = some d) := by
  have hadd : ∀ (v : Value) (c : Int), addMonths v c = some d → d.getDate = some 1 := by
    intro v c h
    obtain ⟨y, m, hm0, hm, rfl, _, _⟩ := addMonths_valid h hv
    exact getDate_first_of_month y m hm0 hm
  have hsom : ∀ v : Value, startOfMonth v = some d → d.getDate = some 1 := by
    intro v h
    obtain ⟨y, m, hm0, hm, rfl, _, _⟩ := startOfMonth_valid h hv
    exact getDate_first_of_month y m hm0 hm
  refine ⟨?_, fun year month h => hsom _ h, fun now h => hsom _ h, ?_, ?_⟩
  · rintro current (h | h | h | h) <;> exact hadd _ _ h
  · intro value current h
    unfold goToDate at h
    split at h
    · next n hn =>
      left
      rw [Option.some.inj h] at hn
      exact hsom _ hn
    · right; exact h
  · intro now initialDate minDate maxDate h
    obtain ⟨s, hs, he⟩ := startDate_eq_clamp now initialDate minDate maxDate
    rw [he] at h
    split_ifs at h
    · right; left; exact h
    · right; right; exact h
    · left
      have hd : normD s = d := Option.some.inj h
      have hv2 : (normD s).Valid := by rw [hd]; exact hv
      obtain ⟨e1, e2⟩ := normD_of_startOfMonth hs hv2
      rw [← hd, e1]; exact e2

/-- Witness of C6: from the anchor 2024-12-01, `goToNextMonth` gives 2025-01-01. -/
theorem anchor_day_of_month_witness :
    (JSDate.ofYMD (some 2025) (some 0) (some 1)).getDate = some 1 :=
  (anchor_day_of_month (JSDate.ofYMD (some 2025) (some 0) (some 1)) (by decide)).1
    (some (JSDate.ofYMD (some 2024) (some 11) (some 1))) (Or.inl (by decide))

/-- Counterexample to C6 as stated: with `initialDate` 2024-03-15 and `minDate`
2024-03-10, the start of the month 2024-03-01 lies before `minDate`, so the anchor
computed at construction is 2024-03-10, whose day-of-month is 10. -/
theorem startDate_clamped_to_mid_month :
    startDate (JSDate.ofYMD (some 2024) (some 2) (some 15))
        (Value.date (JSDate.ofYMD (some 2024) (some 2) (some 15)))
        (Value.date (JSDate.ofYMD (some 2024) (some 2) (some 10))) Value.other =
      some (JSDate.ofYMD (some 2024) (some 2) (some 10)) ∧
    (JSDate.ofYMD (some 2024) (some 2) (some 10)).getDate = some 10 := by
  decide

/-- A normalized date that is valid is unchanged by a copy. -/
theorem copy_of_normalized {v : Value} {b : JSDate} {x : Int}
    (h : normalizeDate v = some b) (hx : b.tv = some x) : JSDate.copy b = b := by
  obtain ⟨o, rfl⟩ := normalizeDate_eq_normD h
  rcases normD_cases ⟨o⟩ with hn | ⟨n, n1, n2, hn⟩
  · rw [hn] at hx; simp at hx
  · rw [hn, copy_dateOfDay n1 n2]

theorem isBefore_eq_true {s : JSDate} {b : Option JSDate} {ts : Int} (hst : s.tv = some ts)
    (h : isBefore (some s) b = true) : ∃ mn x, b = some mn ∧ mn.tv = some x ∧ ts < x := by
  cases b with
  | none => simp [isBefore] at h
  | some mn =>
    cases hx : mn.tv with
    | none => simp [isBefore, numLt, JSDate.getTime, hx, hst] at h
    | some x =>
      refine ⟨mn, x, rfl, hx, ?_⟩
      simpa [isBefore, numLt, JSDate.getTime, hx, hst] using h

theorem isBefore_eq_false {s : JSDate} {b : Option JSDate} {ts : Int} (hst : s.tv = some ts)
    (h : isBefore (some s) b = false) : ∀ mn x, b = some mn → mn.tv = some x → x ≤ ts := by
  intro mn x hb hx
  rw [hb] at h
  simp [isBefore, numLt, JSDate.getTime, hx, hst] at h
  exact h

theorem isAfter_eq_true {s : JSDate} {b : Option JSDate} {ts : Int} (hst : s.tv = some ts)
    (h : isAfter (some s) b = true) : ∃ mx y, b = some mx ∧ mx.tv = some y ∧ y < ts := by
  cases b with
  | none => simp [isAfter] at h
  | some mx =>
    cases hy : mx.tv with
    | none => simp [isAfter, numLt, JSDate.getTime, hy, hst] at h
    | some y =>
      refine ⟨mx, y, rfl, hy, ?_⟩
      simpa [isAfter, numLt, JSDate.getTime, hy, hst] using h

theorem isAfter_eq_false {s : JSDate} {b : Option JSDate} {ts : Int} (hst : s.tv = some ts)
    (h : isAfter (some s) b = false) : ∀ mx y, b = some mx → mx.tv = some y → ts ≤ y := by
  intro mx y hb hy
  rw [hb] at h
  simp [isAfter, numLt, JSDate.getTime, hy, hst] at h
  exact h

/-- C7 (amended): at construction, when the start of the initial month (that of the
current date when `initialDate` is absent or an unparseable string) is a valid date and
`minDate <= maxDate`, the active month anchor is a valid date that is not before
`minDate` and not after `maxDate`; a bound that is absent or unparseable imposes no
constraint on its side, and the anchor is the start of the month itself when that lies
within the bounds. -/
theorem startDate_within_bounds (now : JSDate) (initialDate minDate maxDate : Value)
    (s : JSDate)
    (hs : startOfMonth (Value.ofOption
      (normalizeDate initialDate <|> normalizeDate (Value.date now))) = some s)
    (hsv : s.Valid)
    (hle : ∀ mn mx x y, normalizeDate minDate = some mn → normalizeDate maxDate = some mx →
      mn.tv = some x → mx.tv = some y → x ≤ y) :
    ∃ a t, startDate now initialDate minDate maxDate = some a ∧ a.tv = some t ∧
      (∀ mn x, normalizeDate minDate = some mn → mn.tv = some x → x ≤ t) ∧
      (∀ mx y, normalizeDate maxDate = some mx → mx.tv = some y → t ≤ y) ∧
      (isBefore (some s) (normalizeDate minDate) = false →
        isAfter (some s) (normalizeDate maxDate) = false → a = s) := by
  obtain ⟨s', hs', he⟩ := startDate_eq_clamp now initialDate minDate maxDate
  rw [hs] at hs'
  obtain rfl : s = s' := Option.some.inj hs'
  obtain ⟨y, m, hm0, hm, hsd, r1, r2⟩ := startOfMonth_valid hs hsv
  have hns : normD s = s := by rw [hsd]; exact normD_dateOfDay r1 r2
  have hst : s.tv = some (makeDay y m 1 * DAY_IN_MS) := by rw [hsd]; rfl
  rw [hns] at he
  generalize makeDay y m 1 * DAY_IN_MS = ts at hst
  rw [he]
  by_cases hB : isBefore (some s) (normalizeDate minDate) = true
  · obtain ⟨mn, x, hmn, hx, hlt⟩ := isBefore_eq_true hst hB
    have hc := copy_of_normalized hmn hx
    have hB' := hB
    rw [hmn] at hB'
    refine ⟨mn, x, by simp [hmn, hB', hc], hx, ?_, ?_, ?_⟩
    · intro b x' hb hx'
      rw [hmn] at hb
      rw [← Option.some.inj hb, hx] at hx'
      rw [Option.some.inj hx']
    · intro mx y' hb hy'
      exact hle mn mx x y' hmn hb hx hy'
    · intro h; rw [hB] at h; simp at h
  · have hB2 : isBefore (some s) (normalizeDate minDate) = false := by simpa using hB
    have hmin := isBefore_eq_false hst hB2
    by_cases hA : isAfter (some s) (normalizeDate maxDate) = true
    · obtain ⟨mx, y', hmx, hy', hlt⟩ := isAfter_eq_true hst hA
      have hc := copy_of_normalized hmx hy'
      have hA' := hA
      rw [hmx] at hA'
      refine ⟨mx, y', by simp [hmx, hB2, hA', hc], hy', ?_, ?_, ?_⟩
      · intro mn x hb hx
        exact hle mn mx x y' hb hmx hx hy'
      · intro b y2 hb hy2
        rw [hmx] at hb
        rw [← Option.some.inj hb, hy'] at hy2
        rw [Option.some.inj hy2]
      · intro _ h; rw [hA] at h; simp at h
    · have hA2 : isAfter (some s) (normalizeDate maxDate) = false := by simpa using hA
      have hmax := isAfter_eq_false hst hA2
      refine ⟨s, ts, by simp [hB2, hA2], hst, hmin, ?_, fun _ _ => rfl⟩
      intro mx y' hb hy'
      exact hmax mx y' hb hy'


/-- Witness of C7: `initialDate` is an unparseable string, today is 2024-03-15, and the
bounds are 2024-02-10 and 2024-04-20; the anchor is 2024-03-01, inside the bounds. -/
theorem startDate_within_bounds_witness :
    ∃ a t, startDate (JSDate.ofYMD (some 2024) (some 2) (some 15)) (Value.string none)
        (Value.date (JSDate.ofYMD (some 2024) (some 1) (some 10)))
        (Value.date (JSDate.ofYMD (some 2024) (some 3) (some 20))) = some a ∧
      a.tv = some t ∧
      (∀ mn x, normalizeDate (Value.date (JSDate.ofYMD (some 2024) (some 1) (some 10))) =
        some mn → mn.tv = some x → x ≤ t) ∧
      (∀ mx y, normalizeDate (Value.date (JSDate.ofYMD (some 2024) (some 3) (some 20))) =
        some mx → mx.tv = some y → t ≤ y) ∧
      (isBefore (some (JSDate.ofYMD (some 2024) (some 2) (some 1)))
          (normalizeDate (Value.date (JSDate.ofYMD (some 2024) (some 1) (some 10)))) = false →
        isAfter (some (JSDate.ofYMD (some 2024) (some 2) (some 1)))
          (normalizeDate (Value.date (JSDate.ofYMD (some 2024) (some 3) (some 20)))) = false →
        a = JSDate.ofYMD (some 2024) (some 2) (some 1)) :=
  startDate_within_bounds (JSDate.ofYMD (some 2024) (some 2) (some 15)) (Value.string none)
    (Value.date (JSDate.ofYMD (some 2024) (some 1) (some 10)))
    (Value.date (JSDate.ofYMD (some 2024) (some 3) (some 20)))
    (JSDate.ofYMD (some 2024) (some 2) (some 1)) (by decide) (by decide)
    (fun mn mx x y h1 h2 h3 h4 => by
      cases h1; cases h2; cases h3; cases h4; decide)

/-- Counterexample to C7 as stated: `initialDate` is the earliest `Date`
(time value -8.64e15, the 20th of its month), whose month start is not representable;
with `minDate` five days later and `maxDate` 2024-01-01 the anchor computed at
construction is an Invalid Date, which lies in no range. -/
theorem startDate_unrepresentable_month_start :
    startDate (JSDate.ofYMD (some 2024) (some 2) (some 15))
        (Value.date ⟨some (-8640000000000000)⟩)
        (Value.date ⟨some (-8640000000000000 + 5 * 86400000)⟩)
        (Value.date (JSDate.ofYMD (some 2024) (some 0) (some 1))) = some ⟨none⟩ ∧
    (⟨some (-8640000000000000)⟩ : JSDate).getDate = some 20 := by
  decide

/-- An `initialDate` that is an Invalid Date object is not replaced by the current
date: `toDate` checks for NaN only in its string branch, so the anchor computed at
construction is an Invalid Date whatever the bounds are. -/
theorem startDate_invalid_date_object (now : JSDate) (minDate maxDate : Value) :
    startDate now (Value.date ⟨none⟩) minDate maxDate = some ⟨none⟩ := by
  obtain ⟨s, hs, he⟩ := startDate_eq_clamp now (Value.date ⟨none⟩) minDate maxDate
  have hs2 : s = ⟨none⟩ := (Option.some.inj hs).symm
  rw [he, hs2]
  rw [normD_none]
  have e1 : ∀ b, isBefore (some (⟨none⟩ : JSDate)) b = false := by
    intro b; cases b <;> rfl
  have e2 : ∀ b, isAfter (some (⟨none⟩ : JSDate)) b = false := by
    intro b; cases b with
    | none => rfl
    | some mx => cases h : mx.tv <;> simp [isAfter, numLt, JSDate.getTime, h]
  simp [e1, e2]

/-! ### Date keys -/

theorem digitValue_digitChar (k : Nat) (h : k < 10) : digitValue (digitChar k) = some k := by
  interval_cases k <;> rfl

theorem digitValue_dash : digitValue '-' = none := by decide

theorem parseDigits_snoc (l : List Char) (c : Char) :
    parseDigits (l ++ [c]) =
      (parseDigits l).bind fun a => (digitValue c).map fun d => a * 10 + d := by
  unfold parseDigits
  rw [List.foldl_append]
  rfl

/-- Reading back the decimal digits of `n` gives `n`. -/
theorem parseDigits_natDigits (fuel : Nat) : ∀ n : Nat, n < fuel →
    parseDigits (natDigits fuel n) = some n := by
  induction fuel with
  | zero => intro n h; omega
  | succ fuel ih =>
    intro n h
    rw [natDigits]
    by_cases h10 : n < 10
    · rw [if_pos h10]
      simp [parseDigits, digitValue_digitChar n h10]
    · rw [if_neg h10, parseDigits_snoc, ih (n / 10) (by omega),
        digitValue_digitChar (n % 10) (by omega)]
      simp
      omega

theorem foldl_none (l : List Char) :
    l.foldl (fun (acc : Option Nat) c => acc.bind fun a =>
      (digitValue c).map fun d => a * 10 + d) none = none := by
  induction l with
  | nil => rfl
  | cons c l ih => simpa [List.foldl] using ih

theorem parseDigits_dash (l : List Char) : parseDigits ('-' :: l) = none := by
  unfold parseDigits
  simp only [List.foldl, Option.some_bind, digitValue_dash, Option.map_none']
  exact foldl_none l

theorem natToString_data (n : Nat) : (natToString n).data = natDigits (n + 1) n := rfl

theorem natToString_injective {a b : Nat} (h : natToString a = natToString b) : a = b := by
  have h2 := congrArg (fun s => parseDigits s.data) h
  simp only [natToString_data, parseDigits_natDigits _ _ (Nat.lt_succ_self _)] at h2
  exact Option.some.inj h2

theorem numberToString_neg_data (n : Nat) :
    (numberToString (some (Int.negSucc n))).data = '-' :: natDigits (n + 2) (n + 1) := rfl

theorem numberToString_ofNat_data (n : Nat) :
    (numberToString (some (Int.ofNat n))).data = natDigits (n + 1) n := rfl

/-- Integers are determined by their decimal representation. -/
theorem numberToString_injective {a b : Int}
    (h : (numberToString (some a)).data = (numberToString (some b)).data) : a = b := by
  cases a with
  | ofNat a =>
    cases b with
    | ofNat b =>
      rw [numberToString_ofNat_data, numberToString_ofNat_data] at h
      have h2 := congrArg parseDigits h
      rw [parseDigits_natDigits _ _ (Nat.lt_succ_self _),
        parseDigits_natDigits _ _ (Nat.lt_succ_self _)] at h2
      rw [Option.some.inj h2]
    | negSucc b =>
      rw [numberToString_ofNat_data, numberToString_neg_data] at h
      have h2 := congrArg parseDigits h
      rw [parseDigits_natDigits _ _ (Nat.lt_succ_self _), parseDigits_dash] at h2
      exact absurd h2 (by simp)
  | negSucc a =>
    cases b with
    | ofNat b =>
      rw [numberToString_ofNat_data, numberToString_neg_data] at h
      have h2 := congrArg parseDigits h
      rw [parseDigits_natDigits _ _ (Nat.lt_succ_self _), parseDigits_dash] at h2
      exact absurd h2 (by simp)
    | negSucc b =>
      rw [numberToString_neg_data, numberToString_neg_data] at h
      have h2 := congrArg parseDigits (List.cons.inj h).2
      rw [parseDigits_natDigits _ _ (Nat.lt_succ_self _),
        parseDigits_natDigits _ _ (Nat.lt_succ_self _)] at h2
      have := Option.some.inj h2
      congr 1
      omega

/-- Padded to two characters, a number below 100 shows its two decimal digits. -/
theorem padStart2_data (k : Nat) (h : k ≤ 31) :
    (padStart2 (numberToString (some (k : Int)))).data =
      [digitChar (k / 10), digitChar (k % 10)] := by
  interval_cases k <;> rfl

theorem digitChar_injective {a b : Nat} (ha : a < 10) (hb : b < 10)
    (h : digitChar a = digitChar b) : a = b := by
  have h2 := congrArg digitValue h
  rw [digitValue_digitChar a ha, digitValue_digitChar b hb] at h2
  exact Option.some.inj h2


theorem padStart2_int_data (k : Int) (h0 : 0 ≤ k) (h : k ≤ 31) :
    (padStart2 (numberToString (some k))).data =
      [digitChar (k.toNat / 10), digitChar (k.toNat % 10)] := by
  obtain ⟨k', rfl⟩ := Int.eq_ofNat_of_zero_le h0
  rw [Int.toNat_ofNat]
  exact padStart2_data k' (by omega)

/-- The characters of the key of a valid date: the year in decimal, then `-MM-DD`. -/
theorem dateKey_data (a : JSDate) (n : Int) (hn : normD a = dateOfDay n) :
    (dateKey (Value.date a)).data =
      (numberToString (some (yearFromDay n))).data ++
        ['-', digitChar ((monthFromDay n + 1).toNat / 10),
          digitChar ((monthFromDay n + 1).toNat % 10), '-',
          digitChar ((dateFromDay n).toNat / 10), digitChar ((dateFromDay n).toNat % 10)] := by
  have hm := monthFromDay_range n
  have hd := dateFromDay_range n
  unfold dateKey
  rw [normalizeDate_date, hn]
  simp only [getFullYear_dateOfDay, getMonth_dateOfDay, getDate_dateOfDay, numAdd,
    Option.some_bind, Option.map_some', String.data_append]
  rw [padStart2_int_data _ (by omega) (by omega), padStart2_int_data _ (by omega) (by omega)]
  simp only [List.append_assoc, List.singleton_append, List.cons_append, List.nil_append]

theorem isSameDay_dateOfDay (n m : Int) :
    isSameDay (some (dateOfDay n)) (some (dateOfDay m)) = true ↔
      yearFromDay n = yearFromDay m ∧ monthFromDay n = monthFromDay m ∧
        dateFromDay n = dateFromDay m := by
  simp [isSameDay, numEq, getFullYear_dateOfDay, getMonth_dateOfDay, getDate_dateOfDay,
    and_assoc]

theorem two_digits_injective {a b : Nat} (ha : a < 100) (hb : b < 100)
    (h1 : digitChar (a / 10) = digitChar (b / 10))
    (h2 : digitChar (a % 10) = digitChar (b % 10)) : a = b := by
  have e1 := digitChar_injective (by omega) (by omega) h1
  have e2 := digitChar_injective (by omega) (by omega) h2
  omega

/-- C9: for all valid dates `a` and `b`, `dateKey(a) = dateKey(b)` if and only if
`isSameDay(normalizeDate(a), normalizeDate(b))`, that is, exactly when year, month and
day all match; and the key of a valid date is not the empty string that `dateKey`
returns for an unparseable input. -/
theorem dateKey_collision_free (a b : JSDate) (ha : (normD a).Valid) (hb : (normD b).Valid) :
    (dateKey (Value.date a) = dateKey (Value.date b) ↔
      isSameDay (normalizeDate (Value.date a)) (normalizeDate (Value.date b)) = true) ∧
    (isSameDay (normalizeDate (Value.date a)) (normalizeDate (Value.date b)) = true ↔
      (normD a).getFullYear = (normD b).getFullYear ∧
        (normD a).getMonth = (normD b).getMonth ∧ (normD a).getDate = (normD b).getDate) ∧
    dateKey (Value.date a) ≠ "" ∧ dateKey Value.other = "" := by
  have hcase : ∀ d : JSDate, (normD d).Valid → ∃ n, normD d = dateOfDay n := by
    intro d hd
    rcases normD_cases d with h | ⟨n, _, _, h⟩
    · rw [h] at hd; exact absurd hd (by decide)
    · exact ⟨n, h⟩
  obtain ⟨n, hn⟩ := hcase a ha
  obtain ⟨m, hm⟩ := hcase b hb
  have ka := dateKey_data a n hn
  have kb := dateKey_data b m hm
  have rn := monthFromDay_range n
  have rm := monthFromDay_range m
  have dn := dateFromDay_range n
  have dm := dateFromDay_range m
  rw [normalizeDate_date, normalizeDate_date, hn, hm, isSameDay_dateOfDay]
  refine ⟨⟨fun h => ?_, fun h => ?_⟩, ?_, ?_, rfl⟩
  · have hdata := congrArg String.data h
    rw [ka, kb] at hdata
    obtain ⟨h1, h2⟩ := List.append_inj' hdata rfl
    have hy := numberToString_injective h1
    simp only [List.cons.injEq, and_true] at h2
    obtain ⟨_, m1, m2, _, d1, d2⟩ := h2
    have em := two_digits_injective (by omega) (by omega) m1 m2
    have ed := two_digits_injective (by omega) (by omega) d1 d2
    exact ⟨hy, by omega, by omega⟩
  · apply String.ext
    rw [ka, kb, h.1, h.2.1, h.2.2]
  · simp [getFullYear_dateOfDay, getMonth_dateOfDay, getDate_dateOfDay]
  · intro h
    have hdata := congrArg String.data h
    rw [ka] at hdata
    simp at hdata

/-- Witness of C9: two times of day on 2024-03-15 have the same key. -/
theorem dateKey_collision_free_witness :
    dateKey (Value.date ⟨some 1710460800000⟩) = dateKey (Value.date ⟨some 1710500000000⟩) ↔
      isSameDay (normalizeDate (Value.date ⟨some 1710460800000⟩))
        (normalizeDate (Value.date ⟨some 1710500000000⟩)) = true :=
  (dateKey_collision_free ⟨some 1710460800000⟩ ⟨some 1710500000000⟩ (by decide)
    (by decide)).1

/-- C8, at the failing inputs: the key of 5 March of the year 50 is `50-03-05`, which
`dateFromKey` reads back as 5 March 1950, not the same day; and the key of 5 March of
the year -5 is `-5-03-05`, which splits into four segments and is read back as
absent. -/
theorem dateFromKey_dateKey_small_year :
    (dateOfDay (makeDay 50 2 5)).getFullYear = some 50 ∧
    dateKey (Value.date (dateOfDay (makeDay 50 2 5))) = "50-03-05" ∧
    dateFromKey "50-03-05" = some (JSDate.ofYMD (some 1950) (some 2) (some 5)) ∧
    isSameDay (some (dateOfDay (makeDay 50 2 5)))
      (dateFromKey (dateKey (Value.date (dateOfDay (makeDay 50 2 5))))) = false ∧
    dateKey (Value.date (dateOfDay (makeDay (-5) 2 5))) = "-5-03-05" ∧
    dateFromKey "-5-03-05" = none := by
  decide

/-! ### Shifting by days -/

/-- Normalizing a valid date gives the midnight of its day. -/
theorem normD_of_time {d : JSDate} {t : Int} (ht : d.tv = some t) (h1 : -maxTime ≤ t)
    (h2 : t ≤ maxTime) : normD d = dateOfDay (day t) := by
  have hr := day_range_of_time h1 h2
  obtain ⟨tv⟩ := d
  simp only at ht
  subst ht
  simp [normD, JSDate.ofTime, JSDate.getTime, JSDate.setHours0, timeClip_of_range h1 h2,
    makeDate, dateOfDay, timeClip_day hr.1 hr.2]

/-- On a host whose local time is UTC, where every day has 24 hours: for every valid
date `d` and every integer `n` such that the day `n` days from `d` is representable, `shiftDate(d, n)` is the midnight of the day number
of `d` plus `n`, that is, exactly `n` calendar days after `d` (before it for negative
`n`); `shiftDate(shiftDate(d, n), -n)` is the midnight of `d`, a date `r` with
`isSameDay(r, d)`; and `shiftDate` of an absent or unparseable date is absent. -/
theorem shiftDate_round_trip (d : JSDate) (t : Int) (n : Int) (ht : d.tv = some t)
    (h1 : -maxTime ≤ t) (h2 : t ≤ maxTime) (hn1 : -100000000 ≤ day t + n)
    (hn2 : day t + n ≤ 100000000) :
    shiftDate (Value.date d) n = some (dateOfDay (day t + n)) ∧
    shiftDate (Value.ofOption (shiftDate (Value.date d) n)) (-n) = some (dateOfDay (day t)) ∧
    isSameDay (shiftDate (Value.ofOption (shiftDate (Value.date d) n)) (-n)) (some d) = true ∧
    shiftDate Value.other n = none ∧ shiftDate (Value.string none) n = none := by
  have hr := day_range_of_time h1 h2
  have hnorm := normD_of_time ht h1 h2
  have e1 : shiftDate (Value.date d) n = some (dateOfDay (day t + n)) := by
    rw [shiftDate_date, ← shiftD_normD, hnorm, shiftD_dateOfDay hr.1 hr.2,
      clipDay_of_range hn1 hn2]
  have e2 : shiftDate (Value.ofOption (shiftDate (Value.date d) n)) (-n) =
      some (dateOfDay (day t)) := by
    rw [e1]
    simp only [Value.ofOption]
    rw [shiftDate_date, shiftD_dateOfDay hn1 hn2,
      show day t + n + -n = day t by ring, clipDay_of_range hr.1 hr.2]
  refine ⟨e1, e2, ?_, rfl, rfl⟩
  rw [e2]
  obtain ⟨tv⟩ := d
  simp only at ht
  subst ht
  simp [isSameDay, numEq, JSDate.getFullYear, JSDate.getMonth, JSDate.getDate, dateOfDay,
    day_mul]

/-- An instance on a host whose local time is UTC: 45 days back from 15 March 2024, 10:53 in the morning, is
30 January 2024. -/
theorem shiftDate_round_trip_witness :
    shiftDate (Value.date ⟨some 1710500000000⟩) (-45) =
      some (JSDate.ofYMD (some 2024) (some 0) (some 30)) ∧
    isSameDay (shiftDate (Value.ofOption (shiftDate (Value.date ⟨some 1710500000000⟩) (-45)))
      (- -45)) (some ⟨some 1710500000000⟩) = true :=
  have h := shiftDate_round_trip ⟨some 1710500000000⟩ 1710500000000 (-45) rfl (by decide)
    (by decide) (by decide) (by decide)
  ⟨h.1.trans (by decide), h.2.2.1⟩

/-- Beyond the range of time values: a billion days from
15 March 2024 no date is representable; `shiftDate` returns an Invalid Date, shifting
back returns an Invalid Date again, and `isSameDay` with the original is false. -/
theorem shiftDate_out_of_range :
    shiftDate (Value.date (JSDate.ofYMD (some 2024) (some 2) (some 15))) 1000000000 =
      some ⟨none⟩ ∧
    isSameDay
      (shiftDate (Value.ofOption
        (shiftDate (Value.date (JSDate.ofYMD (some 2024) (some 2) (some 15))) 1000000000))
        (-1000000000))
      (some (JSDate.ofYMD (some 2024) (some 2) (some 15))) = false := by
  decide

/-! ### Reading keys back -/

theorem splitOnDash_no_dash (l : List Char) (h : '-' ∉ l) : splitOnDash l = [l] := by
  induction l with
  | nil => rfl
  | cons c l ih =>
    have hc : c ≠ '-' := fun e => h (by simp [e])
    have hl : '-' ∉ l := fun e => h (by simp [e])
    rw [splitOnDash, if_neg hc, ih hl]

theorem splitOnDash_append (l rest : List Char) (h : '-' ∉ l) :
    splitOnDash (l ++ '-' :: rest) = l :: splitOnDash rest := by
  induction l with
  | nil => simp [splitOnDash]
  | cons c l ih =>
    have hc : c ≠ '-' := fun e => h (by simp [e])
    have hl : '-' ∉ l := fun e => h (by simp [e])
    rw [List.cons_append, splitOnDash, if_neg hc, ih hl]

theorem no_dash_of_parseDigits {l : List Char} {k : Nat} (h : parseDigits l = some k) :
    '-' ∉ l := by
  intro hmem
  obtain ⟨a, b, rfl⟩ := List.append_of_mem hmem
  unfold parseDigits at h
  rw [List.foldl_append] at h
  generalize List.foldl (fun (acc : Option Nat) c => acc.bind fun a =>
    (digitValue c).map fun d => a * 10 + d) (some 0) a = acc at h
  have : (acc.bind fun a => (digitValue '-').map fun d => a * 10 + d) = none := by
    cases acc <;> simp [digitValue_dash]
  simp only [List.foldl] at h
  rw [this, foldl_none] at h
  exact absurd h (by simp)

theorem parseDigits_two (k : Nat) (h : k < 100) :
    parseDigits [digitChar (k / 10), digitChar (k % 10)] = some k := by
  simp only [parseDigits, List.foldl, Option.some_bind,
    digitValue_digitChar (k / 10) (by omega), digitValue_digitChar (k % 10) (by omega),
    Option.map_some']
  congr 1
  omega

/-- The round trip of C8 where it holds: for every valid date in a year from 100 on,
`dateFromKey(dateKey(d))` is the normalized date itself, the same day as `d`. -/
theorem dateFromKey_dateKey_of_year_ge_100 (d : JSDate) (n : Int)
    (hn : normD d = dateOfDay n) (h1 : -100000000 ≤ n) (h2 : n ≤ 100000000)
    (hy : 100 ≤ yearFromDay n) :
    dateFromKey (dateKey (Value.date d)) = some (dateOfDay n) ∧
      isSameDay (normalizeDate (Value.date d)) (dateFromKey (dateKey (Value.date d))) =
        true := by
  have hm := monthFromDay_range n
  have hd := dateFromDay_range n
  have hkey := dateKey_data d n hn
  obtain ⟨y, hyy⟩ := Int.eq_ofNat_of_zero_le (show 0 ≤ yearFromDay n by omega)
  rw [hyy] at hkey hy
  rw [show ((y : Int)) = Int.ofNat y from rfl, numberToString_ofNat_data] at hkey
  have hpy := parseDigits_natDigits (y + 1) y (Nat.lt_succ_self _)
  have hne : dateKey (Value.date d) ≠ "" := by
    intro h
    have := congrArg String.data h
    rw [hkey] at this
    simp at this
  have hM : ∀ k : Nat, k < 10 → digitChar k ≠ '-' := by
    intro k hk; interval_cases k <;> decide
  have hsplit : splitOnDash (dateKey (Value.date d)).data =
      [natDigits (y + 1) y,
        [digitChar ((monthFromDay n + 1).toNat / 10),
          digitChar ((monthFromDay n + 1).toNat % 10)],
        [digitChar ((dateFromDay n).toNat / 10), digitChar ((dateFromDay n).toNat % 10)]] := by
    rw [hkey, splitOnDash_append _ _ (no_dash_of_parseDigits hpy)]
    rw [show [digitChar ((monthFromDay n + 1).toNat / 10),
        digitChar ((monthFromDay n + 1).toNat % 10), '-',
        digitChar ((dateFromDay n).toNat / 10), digitChar ((dateFromDay n).toNat % 10)] =
      [digitChar ((monthFromDay n + 1).toNat / 10),
        digitChar ((monthFromDay n + 1).toNat % 10)] ++ '-' ::
        [digitChar ((dateFromDay n).toNat / 10), digitChar ((dateFromDay n).toNat % 10)]
      from rfl]
    rw [splitOnDash_append _ _ (no_dash_of_parseDigits (parseDigits_two _ (by omega))),
      splitOnDash_no_dash _ (no_dash_of_parseDigits (parseDigits_two _ (by omega)))]
  have hres : dateFromKey (dateKey (Value.date d)) = some (dateOfDay n) := by
    unfold dateFromKey
    rw [if_neg hne, hsplit]
    simp only [List.map, jsNumber, hpy, parseDigits_two _ (show (monthFromDay n + 1).toNat < 100
      by omega), parseDigits_two _ (show (dateFromDay n).toNat < 100 by omega),
      Option.map_some', Option.isNone_some, Bool.or_self, Bool.false_eq_true, if_false,
      numSub, Option.some_bind]
    have e1 : Int.ofNat (monthFromDay n + 1).toNat - 1 = monthFromDay n := by
      show ((monthFromDay n + 1).toNat : Int) - 1 = monthFromDay n
      omega
    have e2 : Int.ofNat (dateFromDay n).toNat = dateFromDay n := by
      show ((dateFromDay n).toNat : Int) = dateFromDay n
      omega
    have e3 : fullYear (Int.ofNat y) = yearFromDay n := by
      rw [hyy]; unfold fullYear; rw [if_neg]; rfl
      show ¬ (0 ≤ (y : Int) ∧ (y : Int) ≤ 99)
      omega
    have hmk : makeDay (fullYear (Int.ofNat y)) (monthFromDay n) (dateFromDay n) = n := by
      rw [e3, makeDay_of_day]; omega
    rw [e1, e2, ofYMD_eq (by rw [hmk]; exact h1) (by rw [hmk]; exact h2), hmk,
      setHours0_dateOfDay h1 h2]
  refine ⟨hres, ?_⟩
  rw [hres, normalizeDate_date, hn, isSameDay_dateOfDay]
  exact ⟨rfl, rfl, rfl⟩

/-- C11 (amended): for every `Date` `d` and all optional bounds, `isWithinRange(d, min,
max)` is true if and only if the normalized `d` is not before `min` and not after
`max`, an absent bound imposing no constraint on its side; for a normalized `d` that
is `not isBefore(d, min) and not isAfter(d, max)`.  The bounds are inclusive:
`isWithinRange(min, min, max)` and `isWithinRange(max, min, max)` are true whenever
`min <= max`. -/
theorem isWithinRange_iff (d : JSDate) (minDate maxDate : Option JSDate) :
    (isWithinRange (Value.date d) minDate maxDate = true ↔
      isBefore (normalizeDate (Value.date d)) minDate = false ∧
        isAfter (normalizeDate (Value.date d)) maxDate = false) ∧
    (normalizeDate (Value.date d) = some d →
      (isWithinRange (Value.date d) minDate maxDate = true ↔
        isBefore (some d) minDate = false ∧ isAfter (some d) maxDate = false)) ∧
    (isWithinRange (Value.date d) none none = true) ∧
    (∀ mn mx : JSDate, normalizeDate (Value.date mn) = some mn →
      normalizeDate (Value.date mx) = some mx → isAfter (some mn) (some mx) = false →
      isWithinRange (Value.date mn) (some mn) (some mx) = true ∧
        isWithinRange (Value.date mx) (some mn) (some mx) = true) := by
  have key : ∀ (x : JSDate) (a b : Option JSDate),
      (isWithinRange (Value.date x) a b = true ↔
        isBefore (normalizeDate (Value.date x)) a = false ∧
          isAfter (normalizeDate (Value.date x)) b = false) := by
    intro x a b
    unfold isWithinRange
    rw [normalizeDate_date]
    cases a <;> cases b <;> simp [isBefore, isAfter]
  refine ⟨key d minDate maxDate, fun hd => ?_, ?_, ?_⟩
  · rw [key, hd]
  · rw [key]; exact ⟨rfl, by cases normalizeDate (Value.date d) <;> rfl⟩
  · intro mn mx hmn hmx hle
    rw [key, key, hmn, hmx]
    refine ⟨⟨?_, hle⟩, ?_, ?_⟩
    · cases h : mn.tv <;> simp [isBefore, numLt, JSDate.getTime, h]
    · cases h1 : mn.tv <;> cases h2 : mx.tv <;>
        simp [isBefore, isAfter, numLt, JSDate.getTime, h1, h2] at hle ⊢
      omega
    · cases h : mx.tv <;> simp [isAfter, numLt, JSDate.getTime, h]

/-- Witness of C11: 2024-03-10 and 2024-03-20 are within the bounds they form. -/
theorem isWithinRange_iff_witness :
    isWithinRange (Value.date (JSDate.ofYMD (some 2024) (some 2) (some 10)))
        (some (JSDate.ofYMD (some 2024) (some 2) (some 10)))
        (some (JSDate.ofYMD (some 2024) (some 2) (some 20))) = true ∧
    isWithinRange (Value.date (JSDate.ofYMD (some 2024) (some 2) (some 20)))
        (some (JSDate.ofYMD (some 2024) (some 2) (some 10)))
        (some (JSDate.ofYMD (some 2024) (some 2) (some 20))) = true :=
  (isWithinRange_iff (JSDate.ofYMD (some 2024) (some 2) (some 10)) none none).2.2.2
    (JSDate.ofYMD (some 2024) (some 2) (some 10))
    (JSDate.ofYMD (some 2024) (some 2) (some 20)) (by decide) (by decide) (by decide)

/-- Counterexample to C11 as stated ("every date d"): for `d` = 15 March 2024 at
10 o'clock and `maxDate` = 15 March 2024, `isWithinRange(d, absent, max)` is true,
because `d` is normalized first, while `isAfter(d, max)` is true. -/
theorem isWithinRange_time_of_day :
    normalizeDate (Value.date ⟨some (1710460800000 + 36000000)⟩) =
        some (JSDate.ofYMD (some 2024) (some 2) (some 15)) ∧
    isWithinRange (Value.date ⟨some (1710460800000 + 36000000)⟩) none
        (some (JSDate.ofYMD (some 2024) (some 2) (some 15))) = true ∧
    isAfter (some ⟨some (1710460800000 + 36000000)⟩)
        (some (JSDate.ofYMD (some 2024) (some 2) (some 15))) = true := by
  decide

/-- C12: for every date `d` that is disabled (its key is listed in the disabled set, or
it lies outside `[minDate, maxDate]`), attempting to select `d` commits nothing.
`handleSelect` is called from two places only, the click handler and the Enter / Space
case of the key handler of the cell of `d`, and both return before that call when the
cell is disabled: the internal selection is unchanged, `onDateSelect` is not invoked,
and focus and active month stay as they are. -/
theorem disabled_cell_commits_nothing (cfg : Config) (opts : Options)
    (controlledSelected : Option JSDate) (hasOnDateSelect : Bool) (now : JSDate)
    (st : CalendarState) (d : JSDate) (shiftOrCtrl : Bool)
    (hd : isWithinRange (Value.date d) cfg.normalizedMinDate cfg.normalizedMaxDate = false ∨
      dateKey (Value.date d) ∈ cfg.disabledSet) :
    handleClick cfg opts controlledSelected hasOnDateSelect st d = st ∧
    handleKeyDown cfg opts controlledSelected hasOnDateSelect now st d Key.enter
      shiftOrCtrl = st ∧
    handleKeyDown cfg opts controlledSelected hasOnDateSelect now st d Key.space
      shiftOrCtrl = st ∧
    handleKeyDown cfg opts controlledSelected hasOnDateSelect now st d Key.spacebar
      shiftOrCtrl = st := by
  have hdis : cellIsDisabled cfg d = true := by
    unfold cellIsDisabled
    rcases hd with h | h
    · simp [h]
    · simp [h]
  refine ⟨?_, ?_, ?_, ?_⟩ <;> simp [handleClick, handleKeyDown, hdis]

/-- Witness of C12: with `disabledDates = ['2024-03-10']` and no bounds, a click or the
Enter key on the cell of 10 March 2024 leaves the selection and the callback log as
they were. -/
theorem disabled_cell_commits_nothing_witness :
    dateKey (Value.date (JSDate.ofYMD (some 2024) (some 2) (some 10))) ∈
        buildDateSet [Value.string (some 1710028800000)] ∧
    handleClick ⟨none, none, buildDateSet [Value.string (some 1710028800000)]⟩
        ⟨true, true, 0⟩ none true
        ⟨⟨none, some (JSDate.ofYMD (some 2024) (some 2) (some 1))⟩, ⟨none, []⟩⟩
        (JSDate.ofYMD (some 2024) (some 2) (some 10)) =
      ⟨⟨none, some (JSDate.ofYMD (some 2024) (some 2) (some 1))⟩, ⟨none, []⟩⟩ ∧
    handleKeyDown ⟨none, none, buildDateSet [Value.string (some 1710028800000)]⟩
        ⟨true, true, 0⟩ none true (JSDate.ofYMD (some 2024) (some 2) (some 12))
        ⟨⟨none, some (JSDate.ofYMD (some 2024) (some 2) (some 1))⟩, ⟨none, []⟩⟩
        (JSDate.ofYMD (some 2024) (some 2) (some 10)) Key.enter false =
      ⟨⟨none, some (JSDate.ofYMD (some 2024) (some 2) (some 1))⟩, ⟨none, []⟩⟩ :=
  have h := disabled_cell_commits_nothing
    ⟨none, none, buildDateSet [Value.string (some 1710028800000)]⟩ ⟨true, true, 0⟩ none true
    (JSDate.ofYMD (some 2024) (some 2) (some 12))
    ⟨⟨none, some (JSDate.ofYMD (some 2024) (some 2) (some 1))⟩, ⟨none, []⟩⟩
    (JSDate.ofYMD (some 2024) (some 2) (some 10)) false (Or.inr (by decide))
  ⟨by decide, h.1, h.2.1⟩

/-! ### Moving the focus -/

theorem normD_shiftD (d : JSDate) (s : Int) : normD (shiftD d s) = shiftD d s := by
  have h : shiftD d s = normD ⟨numAdd (normD d).getTime (some (s * DAY_IN_MS))⟩ := rfl
  rw [h, normD_idem]

theorem findFocusableDate_of_enabled (cfg : Config) (c : JSDate) (direction : Int)
    (h : isDateDisabled cfg (Value.date c) = false) :
    findFocusableDate cfg (Value.date c) direction = some (normD c) := by
  unfold findFocusableDate
  rw [normalizeDate_date]
  simp only [isDateDisabled_normD, h]
  rfl

theorem moveFocusToDate_of_found (cfg : Config) (opts : Options) (s : FocusState)
    (candidate : Value) (direction : Int) (next : JSDate)
    (h : findFocusableDate cfg candidate direction = some next) :
    moveFocusToDate cfg opts s candidate direction =
      ⟨if s.focusDate.isSome && isSameDay s.focusDate (some next) then s.focusDate
        else some next,
       if numNe next.getFullYear (s.activeMonthDate.bind JSDate.getFullYear) ||
          numNe next.getMonth (s.activeMonthDate.bind JSDate.getMonth) then
         if !opts.showAdjacentDays then goToDate (Value.date next) s.activeMonthDate
         else if opts.allowOutsideDaysNavigation then
           goToDate (Value.date next) s.activeMonthDate
         else s.activeMonthDate
       else s.activeMonthDate⟩ := by
  unfold moveFocusToDate
  rw [h]

theorem day_of_civil (n m : Int) (hy : yearFromDay n = yearFromDay m)
    (hm : monthFromDay n = monthFromDay m) (hd : dateFromDay n = dateFromDay m) : n = m := by
  have h1 := makeDay_of_day n (dateFromDay n)
  have h2 := makeDay_of_day m (dateFromDay m)
  rw [hy, hm, hd] at h1
  omega

theorem day_of_isSameDay (a : JSDate) (m : Int)
    (h : isSameDay (some a) (some (dateOfDay m)) = true) :
    ∃ t : Int, a.tv = some t ∧ day t = m := by
  cases ha : a.tv with
  | none => simp [isSameDay, numEq, JSDate.getFullYear, ha] at h
  | some t =>
    refine ⟨t, rfl, ?_⟩
    simp [isSameDay, numEq, JSDate.getFullYear, JSDate.getMonth, JSDate.getDate, ha,
      dateOfDay, day_mul] at h
    exact day_of_civil _ _ h.1.1 h.1.2 h.2

theorem keep_or_take_cases (current : Option JSDate) (next : JSDate) :
    (if current.isSome && isSameDay current (some next) then current else some next) =
        some next ∨
      ∃ c, current = some c ∧ isSameDay (some c) (some next) = true ∧
        (if current.isSome && isSameDay current (some next) then current else some next) =
          some c := by
  cases current with
  | none => left; simp
  | some c =>
    by_cases h : isSameDay (some c) (some next) = true
    · right; exact ⟨c, rfl, h, by simp [h]⟩
    · left; simp [h]

/-- When the date `offset` days from the reference is enabled, `moveFocusByDays` is
`moveFocusToDate` of that date, which `findFocusableDate` returns as it is. -/
theorem moveFocusByDays_of_enabled (cfg : Config) (opts : Options) (sel : Option JSDate)
    (s : FocusState) (offset : Int) (base : Option JSDate) (reference target : JSDate)
    (hoff : offset ≠ 0)
    (href : referenceDate sel s base = some reference)
    (htarget : shiftDate (Value.date reference) offset = some target)
    (hen : isDateDisabled cfg (Value.date target) = false) :
    findFocusableDate cfg (Value.date target) (if offset ≥ 0 then 1 else -1) = some target ∧
    moveFocusByDays cfg opts sel s (some offset) base =
      moveFocusToDate cfg opts s (Value.date target) (if offset ≥ 0 then 1 else -1) := by
  have htg : target = shiftD reference offset := by
    rw [shiftDate_date] at htarget; exact (Option.some.inj htarget).symm
  have hfound := findFocusableDate_of_enabled cfg target (if offset ≥ 0 then 1 else -1) hen
  have hnt : normD target = target := by rw [htg, normD_shiftD]
  rw [hnt] at hfound
  refine ⟨hfound, ?_⟩
  unfold moveFocusByDays
  simp only [if_neg hoff, href, htarget, Value.ofOption]

theorem moveFocusByDays_focus (cfg : Config) (opts : Options) (sel : Option JSDate)
    (s : FocusState) (offset : Int) (base : Option JSDate) (reference target : JSDate)
    (hoff : offset ≠ 0)
    (href : referenceDate sel s base = some reference)
    (htarget : shiftDate (Value.date reference) offset = some target)
    (hen : isDateDisabled cfg (Value.date target) = false) :
    (moveFocusByDays cfg opts sel s (some offset) base).focusDate = some target ∨
      ((moveFocusByDays cfg opts sel s (some offset) base).focusDate = s.focusDate ∧
        isSameDay s.focusDate (some target) = true) := by
  obtain ⟨hfound, hmove⟩ :=
    moveFocusByDays_of_enabled cfg opts sel s offset base reference target hoff href htarget hen
  rw [hmove, moveFocusToDate_of_found _ _ _ _ _ _ hfound]
  simp only
  rcases keep_or_take_cases s.focusDate target with h | ⟨c, hc, hs, h⟩
  · exact Or.inl h
  · right; rw [h, hc]; exact ⟨rfl, hs⟩

/-- A reference date is normalized: Invalid Date or the midnight of a representable
day. -/
theorem referenceDate_cases {sel : Option JSDate} {s : FocusState} {base : Option JSDate}
    {reference : JSDate} (href : referenceDate sel s base = some reference) :
    (reference = ⟨none⟩ ∨
      ∃ r : Int, -100000000 ≤ r ∧ r ≤ 100000000 ∧ reference = dateOfDay r) ∧
    normD reference = reference := by
  unfold referenceDate at href
  obtain ⟨o, ho⟩ := normalizeDate_eq_normD href
  rw [ho]
  exact ⟨normD_cases _, normD_idem _⟩

/-- On a host whose local time is UTC, where every day has 24 hours: for every
reference date, every non-zero integer offset and every configuration in which the date `offset` days away from the reference is enabled,
`moveFocusByDays(offset, reference)` sets the focus to the reference shifted by `offset`
days (keeping the focus object when it already is that day): the new focus has day
number exactly that of the reference plus `offset`.  In particular with `offset = -7`
the new focus has the weekday of the reference, so from a Wednesday it lands on the
Wednesday 7 days earlier. -/
theorem moveFocusByDays_exact (cfg : Config) (opts : Options) (sel : Option JSDate)
    (s : FocusState) (offset : Int) (base : Option JSDate) (reference target : JSDate)
    (hoff : offset ≠ 0)
    (href : referenceDate sel s base = some reference)
    (htarget : shiftDate (Value.date reference) offset = some target)
    (hen : isDateDisabled cfg (Value.date target) = false) :
    ((moveFocusByDays cfg opts sel s (some offset) base).focusDate = some target ∨
      ((moveFocusByDays cfg opts sel s (some offset) base).focusDate = s.focusDate ∧
        isSameDay s.focusDate (some target) = true)) ∧
    (reference.Valid → target.Valid →
      ∃ r : Int, reference = dateOfDay r ∧ target = dateOfDay (r + offset) ∧
        ∃ f t, (moveFocusByDays cfg opts sel s (some offset) base).focusDate = some f ∧
          f.tv = some t ∧ day t = r + offset ∧
          (offset = -7 → f.getDay = reference.getDay)) := by
  have hfocus :=
    moveFocusByDays_focus cfg opts sel s offset base reference target hoff href htarget hen
  refine ⟨hfocus, fun hv htv => ?_⟩
  have htg : target = shiftD reference offset := by
    rw [shiftDate_date] at htarget; exact (Option.some.inj htarget).symm
  rcases (referenceDate_cases href).1 with hnone | ⟨r, hr1, hr2, hr⟩
  · rw [hnone] at hv; exact absurd hv (by decide)
  · have hsh : target = clipDay (r + offset) := by
      rw [htg, hr, shiftD_dateOfDay hr1 hr2]
    rw [hsh] at htv
    obtain ⟨hcd, -, -⟩ := clipDay_valid htv
    rw [hcd] at hsh
    refine ⟨r, hr, hsh, ?_⟩
    have hwd : ∀ (f : JSDate) (t : Int), f.tv = some t → day t = r + offset →
        offset = -7 → f.getDay = reference.getDay := by
      intro f t hft hday h7
      rw [hr, getDay_dateOfDay]
      simp only [JSDate.getDay, hft, Option.map_some', hday, weekDay]
      congr 1
      omega
    rcases hfocus with h | ⟨h, hs⟩
    · refine ⟨target, (r + offset) * DAY_IN_MS, h, ?_, day_mul _, ?_⟩
      · rw [hsh]; rfl
      · exact hwd _ _ (by rw [hsh]; rfl) (day_mul _)
    · cases hc : s.focusDate with
      | none => rw [hc] at hs; simp [isSameDay] at hs
      | some c =>
        rw [hc, hsh] at hs
        obtain ⟨t, ht, hday⟩ := day_of_isSameDay c _ hs
        exact ⟨c, t, by rw [h, hc], ht, hday, hwd c t ht hday⟩

/-- An instance on a host whose local time is UTC: ArrowUp (`moveFocusByDays(-7, d)`) from Wednesday 13 March 2024 puts
the focus on Wednesday 6 March 2024. -/
theorem moveFocusByDays_exact_witness :
    (JSDate.ofYMD (some 2024) (some 2) (some 13)).getDay = some 3 ∧
    (((moveFocusByDays ⟨none, none, []⟩ ⟨true, true, 0⟩ none
          ⟨some (JSDate.ofYMD (some 2024) (some 2) (some 13)),
            some (JSDate.ofYMD (some 2024) (some 2) (some 1))⟩ (some (-7))
          (some (JSDate.ofYMD (some 2024) (some 2) (some 13)))).focusDate =
        some (JSDate.ofYMD (some 2024) (some 2) (some 6))) ∨
      ((moveFocusByDays ⟨none, none, []⟩ ⟨true, true, 0⟩ none
          ⟨some (JSDate.ofYMD (some 2024) (some 2) (some 13)),
            some (JSDate.ofYMD (some 2024) (some 2) (some 1))⟩ (some (-7))
          (some (JSDate.ofYMD (some 2024) (some 2) (some 13)))).focusDate =
        some (JSDate.ofYMD (some 2024) (some 2) (some 13)) ∧
       isSameDay (some (JSDate.ofYMD (some 2024) (some 2) (some 13)))
        (some (JSDate.ofYMD (some 2024) (some 2) (some 6))) = true)) :=
  ⟨by decide,
    (moveFocusByDays_exact ⟨none, none, []⟩ ⟨true, true, 0⟩ none
      ⟨some (JSDate.ofYMD (some 2024) (some 2) (some 13)),
        some (JSDate.ofYMD (some 2024) (some 2) (some 1))⟩ (-7)
      (some (JSDate.ofYMD (some 2024) (some 2) (some 13)))
      (JSDate.ofYMD (some 2024) (some 2) (some 13))
      (JSDate.ofYMD (some 2024) (some 2) (some 6)) (by decide) (by decide) (by decide)
      (by decide)).1⟩

/-- C14 fails on the code: PageDown (`moveFocusByMonths(1, d)`) from 31 January 2024,
with no bounds and no disabled dates, puts the focus on 2 March 2024.  `setMonth` keeps
the day-of-month 31, February 2024 has 29 days, and the date overflows into March: the
month index `year * 12 + month` of the new focus is that of the reference plus 2, not
plus 1. -/
theorem moveFocusByMonths_skips_short_month :
    isDateDisabled ⟨none, none, []⟩
        (Value.date ((JSDate.ofYMD (some 2024) (some 0) (some 31)).setMonth (some 1))) = false ∧
    (moveFocusByMonths ⟨none, none, []⟩ ⟨true, true, 0⟩ none
        ⟨some (JSDate.ofYMD (some 2024) (some 0) (some 31)),
          some (JSDate.ofYMD (some 2024) (some 0) (some 1))⟩ 1
        (some (JSDate.ofYMD (some 2024) (some 0) (some 31)))).focusDate =
      some (JSDate.ofYMD (some 2024) (some 2) (some 2)) ∧
    (JSDate.ofYMD (some 2024) (some 2) (some 2)).getFullYear = some 2024 ∧
    (JSDate.ofYMD (some 2024) (some 2) (some 2)).getMonth = some 2 ∧
    (JSDate.ofYMD (some 2024) (some 0) (some 31)).getFullYear = some 2024 ∧
    (JSDate.ofYMD (some 2024) (some 0) (some 31)).getMonth = some 0 := by
  decide

/-! ### Month arithmetic -/

theorem makeDay_index (y m y2 m2 dt : Int) (h : y * 12 + m = y2 * 12 + m2) :
    makeDay y m dt = makeDay y2 m2 dt := by
  rw [makeDay_carry y m, makeDay_carry y2 m2]
  have h1 : y + m / 12 = y2 + m2 / 12 := by omega
  have h2 : m % 12 = m2 % 12 := by omega
  rw [h1, h2]

/-- The first of a month comes at least 28 days before the first of the next month. -/
theorem makeDay_month_step (y m : Int) (hm0 : 0 ≤ m) (hm : m ≤ 11) :
    makeDay y m 1 + 28 ≤ makeDay y (m + 1) 1 := by
  have hl : (0 : Int) ≤ (if daysInYear y = 366 then (1 : Int) else 0) ∧
      (if daysInYear y = 366 then (1 : Int) else 0) ≤ 1 := by
    split_ifs <;> omega
  by_cases h11 : m = 11
  · subst h11
    have e1 : makeDay y (11 + 1) 1 = makeDay (y + 1) 0 1 := makeDay_index _ _ _ _ _ (by omega)
    rw [e1]
    have hs := dayFromYear_succ y
    have hdy : daysInYear y = 365 ∨ daysInYear y = 366 := by
      unfold daysInYear; split_ifs <;> simp
    unfold makeDay
    simp only [show (11 : Int) / 12 = 0 by decide, show (11 : Int) % 12 = 11 by decide,
      show (0 : Int) / 12 = 0 by decide, show (0 : Int) % 12 = 0 by decide, add_zero]
    rw [monthStart_formula _ 11 (by omega) (by omega),
      monthStart_formula _ 0 (by omega) (by omega)]
    rcases hdy with h | h <;> simp [h] <;> omega
  · have hml := monthLength_range _ m hl.1 hl.2 hm0 hm
    have a1 : m / 12 = 0 := by omega
    have a2 : m % 12 = m := by omega
    have a3 : (m + 1) / 12 = 0 := by omega
    have a4 : (m + 1) % 12 = m + 1 := by omega
    unfold makeDay
    simp only [a1, a2, a3, a4, add_zero]
    omega

theorem makeDay_index_mono (k : Int) (j : Nat) : makeDay 0 k 1 ≤ makeDay 0 (k + j) 1 := by
  induction j with
  | zero => simp
  | succ j ih =>
    have h1 : makeDay 0 (k + j) 1 = makeDay ((k + j) / 12) ((k + j) % 12) 1 := by
      rw [makeDay_carry]; simp
    have h2 : makeDay 0 (k + (j + 1 : Nat)) 1 = makeDay ((k + j) / 12) ((k + j) % 12 + 1) 1 :=
      makeDay_index _ _ _ _ _ (by push_cast; omega)
    have h3 := makeDay_month_step ((k + j) / 12) ((k + j) % 12) (by omega) (by omega)
    omega

theorem startOfMonth_first (y m : Int) (hm0 : 0 ≤ m) (hm : m ≤ 11)
    (h1 : -100000000 ≤ makeDay y m 1) (h2 : makeDay y m 1 ≤ 100000000) :
    startOfMonth (Value.date (dateOfDay (makeDay y m 1))) = some (dateOfDay (makeDay y m 1)) := by
  unfold startOfMonth
  rw [normalizeDate_date, normD_dateOfDay h1 h2]
  simp only
  rw [setDate_clip, (civil_first_of_month y m hm0 hm).2.2, clipDay_of_range (by omega) (by omega)]
  congr 2
  omega

theorem addMonths_of_base {v : Value} (count y m : Int) (hm0 : 0 ≤ m) (hm : m ≤ 11)
    (hb : startOfMonth v = some (dateOfDay (makeDay y m 1))) :
    addMonths v count = some (clipDay (makeDay 0 (y * 12 + m + count) 1)) := by
  obtain ⟨c1, c2, c3⟩ := civil_first_of_month y m hm0 hm
  unfold addMonths
  rw [hb]
  simp only
  rw [← mk_timeClip_day, getMonth_dateOfDay, makeDay_index 0 (y * 12 + m + count) y (m + count) 1
    (by omega)]
  simp [JSDate.setMonth, numAdd, dateOfDay, day_mul, timeWithinDay_mul, makeDate, c1, c2, c3]

/-- The cases of `startOfMonth` on a `Date`: Invalid Date, or the first of the month of
the date. -/
theorem startOfMonth_date_cases (d : JSDate) :
    startOfMonth (Value.date d) = some ⟨none⟩ ∨
      ∃ y m : Int, 0 ≤ m ∧ m ≤ 11 ∧ d.getFullYear = some y ∧ d.getMonth = some m ∧
        startOfMonth (Value.date d) = some (dateOfDay (makeDay y m 1)) ∧
        -100000000 ≤ makeDay y m 1 ∧ makeDay y m 1 ≤ 100000000 := by
  cases hs : startOfMonth (Value.date d) with
  | none => simp [startOfMonth, normalizeDate_date] at hs
  | some b =>
    by_cases hv : b.Valid
    · right
      unfold startOfMonth at hs
      rw [normalizeDate_date] at hs
      have hb : (normD d).setDate (some 1) = b := Option.some.inj hs
      rcases normD_cases d with hx | ⟨n, n1, n2, hx⟩
      · rw [hx] at hb; rw [← hb] at hv; exact absurd hv (by decide)
      · rw [hx, setDate_clip] at hb
        rw [← hb] at hv
        obtain ⟨e, r1, r2⟩ := clipDay_valid hv
        have hm := monthFromDay_range n
        have hdv : d.Valid := valid_of_normD_valid (by rw [hx]; simp [JSDate.Valid, dateOfDay])
        obtain ⟨t, ht⟩ : ∃ t, d.tv = some t := by
          cases h : d.tv with
          | none => simp [JSDate.Valid, h] at hdv
          | some t => exact ⟨t, rfl⟩
        have hn : day t = n := by
          have h3 : normD d = ⟨(timeClip t).bind fun u => timeClip (makeDate (day u) 0)⟩ := by
            simp [normD, JSDate.ofTime, JSDate.getTime, JSDate.setHours0, ht]
          cases hc : timeClip t with
          | none => rw [hc] at h3; rw [h3] at hx; simp [dateOfDay] at hx
          | some u =>
            have hu : u = t := by
              unfold timeClip at hc; split_ifs at hc; exact (Option.some.inj hc).symm
            subst hu
            have hr : -maxTime ≤ u ∧ u ≤ maxTime := by
              unfold timeClip at hc; split_ifs at hc with h; exact h
            have := normD_of_time ht hr.1 hr.2
            rw [hx] at this
            simp only [dateOfDay, JSDate.mk.injEq, Option.some.injEq] at this
            unfold DAY_IN_MS at this
            omega
        refine ⟨yearFromDay n, monthFromDay n, hm.1, hm.2, ?_, ?_, ?_, ?_, ?_⟩
        · simp [JSDate.getFullYear, ht, hn]
        · simp [JSDate.getMonth, ht, hn]
        · rw [makeDay_of_day, ← hb, e]
        · rw [makeDay_of_day]; exact r1
        · rw [makeDay_of_day]; exact r2
    · left
      have : b = ⟨none⟩ := by
        cases h : b.tv with
        | none => cases b; simp_all
        | some t => exact absurd (by simp [JSDate.Valid, h]) hv
      rw [this]

theorem addMonths_invalid_base {v : Value} (count : Int)
    (hb : startOfMonth v = some ⟨none⟩) : addMonths v count = some ⟨none⟩ := by
  unfold addMonths
  rw [hb]
  rfl

/-- The result of `addMonths` on a `Date`: when the first of the month of the date is
representable, the first of the month `count` months on, if representable. -/
theorem addMonths_date_cases (d : JSDate) :
    (∀ count, addMonths (Value.date d) count = some ⟨none⟩) ∨
      ∃ y m : Int, 0 ≤ m ∧ m ≤ 11 ∧ d.getFullYear = some y ∧ d.getMonth = some m ∧
        -100000000 ≤ makeDay 0 (y * 12 + m) 1 ∧ makeDay 0 (y * 12 + m) 1 ≤ 100000000 ∧
        ∀ count, addMonths (Value.date d) count =
          some (clipDay (makeDay 0 (y * 12 + m + count) 1)) := by
  rcases startOfMonth_date_cases d with h | ⟨y, m, hm0, hm, hy, hmm, hs, r1, r2⟩
  · left; intro count; exact addMonths_invalid_base count h
  · right
    have e : makeDay 0 (y * 12 + m) 1 = makeDay y m 1 := makeDay_index _ _ _ _ _ (by omega)
    exact ⟨y, m, hm0, hm, hy, hmm, by rw [e]; exact r1, by rw [e]; exact r2,
      fun count => addMonths_of_base count y m hm0 hm hs⟩

/-- The civil fields of the first of the month with index `k`. -/
theorem civil_of_index (k : Int) :
    (dateOfDay (makeDay 0 k 1)).getFullYear = some (k / 12) ∧
    (dateOfDay (makeDay 0 k 1)).getMonth = some (k % 12) ∧
    (dateOfDay (makeDay 0 k 1)).getDate = some 1 := by
  have e : makeDay 0 k 1 = makeDay (k / 12) (k % 12) 1 := by rw [makeDay_carry]; simp
  obtain ⟨c1, c2, c3⟩ := civil_first_of_month (k / 12) (k % 12) (by omega) (by omega)
  rw [getFullYear_dateOfDay, getMonth_dateOfDay, getDate_dateOfDay, e, c1, c2, c3]
  exact ⟨rfl, rfl, rfl⟩

theorem addMonths_first_of_index (k count : Int) (h1 : -100000000 ≤ makeDay 0 k 1)
    (h2 : makeDay 0 k 1 ≤ 100000000) :
    addMonths (Value.date (dateOfDay (makeDay 0 k 1))) count =
      some (clipDay (makeDay 0 (k + count) 1)) := by
  have e : makeDay 0 k 1 = makeDay (k / 12) (k % 12) 1 := by rw [makeDay_carry]; simp
  rw [e] at h1 h2 ⊢
  rw [addMonths_of_base count (k / 12) (k % 12) (by omega) (by omega)
    (startOfMonth_first _ _ (by omega) (by omega) h1 h2)]
  congr 3
  omega

theorem iterate_goToNextMonth (k : Int) (j : Nat) (h1 : -100000000 ≤ makeDay 0 k 1)
    (h2 : makeDay 0 (k + j) 1 ≤ 100000000) :
    Nat.iterate goToNextMonth j (some (dateOfDay (makeDay 0 k 1))) =
      some (dateOfDay (makeDay 0 (k + j) 1)) := by
  induction j generalizing k with
  | zero => simp
  | succ j ih =>
    have hm1 := makeDay_index_mono k 1
    have hmj := makeDay_index_mono (k + 1) j
    have e : k + ((j + 1 : Nat) : Int) = k + 1 + (j : Int) := by push_cast; omega
    rw [e] at h2 ⊢
    have hstep : goToNextMonth (some (dateOfDay (makeDay 0 k 1))) =
        some (dateOfDay (makeDay 0 (k + 1) 1)) := by
      unfold goToNextMonth
      simp only [Value.ofOption]
      rw [addMonths_first_of_index k 1 h1 (by push_cast at hm1; omega),
        clipDay_of_range (by push_cast at hm1; omega) (by omega)]
    rw [Function.iterate_succ_apply, hstep]
    exact ih (k + 1) (by push_cast at hm1; omega) h2

/-- C15 (amended): for every date `d` and every integer `count` (positive, zero or
negative) for which `addMonths(d, count)` is a valid date, that date is the midnight of
the first day of the month whose index `year * 12 + month` is that of `d` plus `count`,
so it rolls over year boundaries in both directions.  Consequently, as long as the
intermediate date is valid, `addMonths(addMonths(d, a), b) = addMonths(d, a + b)`,
`goToNextMonth` followed by `goToPreviousMonth` gives the first of the anchor's own
month, and `goToNextYear`, when its result is valid, equals twelve `goToNextMonth`
steps.  `addMonths` of an absent or unparseable date is absent. -/
theorem addMonths_month_index :
    (∀ (d r : JSDate) (count : Int), addMonths (Value.date d) count = some r → r.Valid →
      r.getDate = some 1 ∧ normalizeDate (Value.date r) = some r ∧
      ∃ y m y2 m2 : Int, d.getFullYear = some y ∧ d.getMonth = some m ∧
        r.getFullYear = some y2 ∧ r.getMonth = some m2 ∧ 0 ≤ m2 ∧ m2 ≤ 11 ∧
        y2 * 12 + m2 = y * 12 + m + count) ∧
    (∀ (d r : JSDate) (a b : Int), addMonths (Value.date d) a = some r → r.Valid →
      addMonths (Value.date r) b = addMonths (Value.date d) (a + b)) ∧
    (∀ d r : JSDate, goToNextMonth (some d) = some r → r.Valid →
      goToPreviousMonth (some r) = startOfMonth (Value.date d)) ∧
    (∀ d r : JSDate, goToNextYear (some d) = some r → r.Valid →
      Nat.iterate goToNextMonth 12 (some d) = some r) ∧
    (∀ count : Int, addMonths Value.other count = none ∧
      addMonths (Value.string none) count = none ∧
      goToNextMonth none = none) := by
  have main : ∀ (d r : JSDate) (count : Int), addMonths (Value.date d) count = some r →
      r.Valid → ∃ y m : Int, 0 ≤ m ∧ m ≤ 11 ∧ d.getFullYear = some y ∧ d.getMonth = some m ∧
        -100000000 ≤ makeDay 0 (y * 12 + m) 1 ∧ makeDay 0 (y * 12 + m) 1 ≤ 100000000 ∧
        (∀ c, addMonths (Value.date d) c = some (clipDay (makeDay 0 (y * 12 + m + c) 1))) ∧
        r = dateOfDay (makeDay 0 (y * 12 + m + count) 1) ∧
        -100000000 ≤ makeDay 0 (y * 12 + m + count) 1 ∧
        makeDay 0 (y * 12 + m + count) 1 ≤ 100000000 := by
    intro d r count h hv
    rcases addMonths_date_cases d with hn | ⟨y, m, hm0, hm, hy, hmm, r1, r2, hall⟩
    · rw [hn] at h
      rw [← Option.some.inj h] at hv
      exact absurd hv (by decide)
    · rw [hall] at h
      have hr : clipDay (makeDay 0 (y * 12 + m + count) 1) = r := Option.some.inj h
      rw [← hr] at hv
      obtain ⟨e, q1, q2⟩ := clipDay_valid hv
      exact ⟨y, m, hm0, hm, hy, hmm, r1, r2, hall, by rw [← hr, e], q1, q2⟩
  have hzero : ∀ d : JSDate, addMonths (Value.date d) 0 = startOfMonth (Value.date d) := by
    intro d
    rcases startOfMonth_date_cases d with h | ⟨y, m, hm0, hm, -, -, hs, r1, r2⟩
    · rw [addMonths_invalid_base 0 h, h]
    · rw [addMonths_of_base 0 y m hm0 hm hs, hs,
        makeDay_index 0 (y * 12 + m + 0) y m 1 (by omega), clipDay_of_range r1 r2]
  have hcomp : ∀ (d r : JSDate) (a b : Int), addMonths (Value.date d) a = some r → r.Valid →
      addMonths (Value.date r) b = addMonths (Value.date d) (a + b) := by
    intro d r a b h hv
    obtain ⟨y, m, -, -, -, -, -, -, hall, hr, q1, q2⟩ := main d r a h hv
    rw [hr, addMonths_first_of_index _ b q1 q2, hall]
    congr 3
    omega
  refine ⟨?_, hcomp, ?_, ?_, ?_⟩
  · intro d r count h hv
    obtain ⟨y, m, hm0, hm, hy, hmm, -, -, -, hr, q1, q2⟩ := main d r count h hv
    obtain ⟨c1, c2, c3⟩ := civil_of_index (y * 12 + m + count)
    refine ⟨by rw [hr, c3], ?_, y, m, (y * 12 + m + count) / 12, (y * 12 + m + count) % 12,
      hy, hmm, by rw [hr, c1], by rw [hr, c2], by omega, by omega, by omega⟩
    rw [normalizeDate_date, hr, normD_dateOfDay q1 q2]
  · intro d r h hv
    unfold goToNextMonth at h
    unfold goToPreviousMonth
    simp only [Value.ofOption] at h ⊢
    rw [hcomp d r 1 (-1) h hv]
    exact hzero d
  · intro d r h hv
    unfold goToNextYear at h
    simp only [Value.ofOption] at h
    obtain ⟨y, m, hm0, hm, hy, hmm, r1, r2, hall, hr, q1, q2⟩ := main d r 12 h hv
    have hfirst : goToNextMonth (some d) = some (dateOfDay (makeDay 0 (y * 12 + m + 1) 1)) := by
      unfold goToNextMonth
      simp only [Value.ofOption]
      have hm1 := makeDay_index_mono (y * 12 + m) 1
      have hm11 := makeDay_index_mono (y * 12 + m + 1) 11
      have e : y * 12 + m + 1 + ((11 : Nat) : Int) = y * 12 + m + 12 := by push_cast; omega
      rw [e] at hm11
      rw [hall, clipDay_of_range (by push_cast at hm1; omega) (by omega)]
    have hm1 := makeDay_index_mono (y * 12 + m) 1
    have hit := iterate_goToNextMonth (y * 12 + m + 1) 11 (by push_cast at hm1; omega)
      (by
        have e : y * 12 + m + 1 + ((11 : Nat) : Int) = y * 12 + m + 12 := by push_cast; omega
        rw [e]; exact q2)
    have e12 : Nat.iterate goToNextMonth 12 (some d) =
        Nat.iterate goToNextMonth 11 (goToNextMonth (some d)) := rfl
    rw [e12, hfirst, hit, hr]
    congr 3
    push_cast
    omega
  · intro count
    exact ⟨rfl, rfl, rfl⟩

/-- Witness of C15: `addMonths` of 15 December 2024 by 1 is 1 January 2025, and going
back one month from there gives 1 December 2024. -/
theorem addMonths_month_index_witness :
    (JSDate.ofYMD (some 2025) (some 0) (some 1)).getDate = some 1 ∧
    goToPreviousMonth (some (JSDate.ofYMD (some 2025) (some 0) (some 1))) =
      startOfMonth (Value.date (JSDate.ofYMD (some 2024) (some 11) (some 15))) :=
  ⟨(addMonths_month_index.1 (JSDate.ofYMD (some 2024) (some 11) (some 15))
      (JSDate.ofYMD (some 2025) (some 0) (some 1)) 1 (by decide) (by decide)).1,
    addMonths_month_index.2.2.1 (JSDate.ofYMD (some 2024) (some 11) (some 15))
      (JSDate.ofYMD (some 2025) (some 0) (some 1)) (by decide) (by decide)⟩

/-- Counterexample to C15 as stated ("every integer count"): `addMonths` of 15 January
2024 by 4000000 months is an Invalid Date, not the first day of a month, and adding
-4000000 months to it does not give `addMonths(d, 0)` = 1 January 2024. -/
theorem addMonths_unrepresentable :
    addMonths (Value.date (JSDate.ofYMD (some 2024) (some 0) (some 15))) 4000000 =
      some ⟨none⟩ ∧
    addMonths (Value.date ⟨none⟩) (-4000000) = some ⟨none⟩ ∧
    addMonths (Value.date (JSDate.ofYMD (some 2024) (some 0) (some 15))) (4000000 + -4000000) =
      some (JSDate.ofYMD (some 2024) (some 0) (some 1)) := by
  decide

theorem goToDate_date (d : JSDate) (current : Option JSDate) :
    goToDate (Value.date d) current = startOfMonth (Value.date d) := by
  unfold goToDate startOfMonth
  simp only [normalizeDate_date, Value.ofOption, normD_idem]

/-- C16 (amended): when `moveFocusToDate` resolves to a date outside the currently
active month/year, it changes the visible month (calls `goToDate` on the resolved date,
which makes the first of that date's month the anchor) if `showAdjacentDays` is false or
`allowOutsideDaysNavigation` is true; only when `showAdjacentDays` is true and
`allowOutsideDaysNavigation` is false is the active month anchor left unchanged.  In
every configuration the focus moves to the resolved date (the focus object is kept when
it already is that day). -/
theorem moveFocusToDate_outside_month (cfg : Config) (opts : Options) (s : FocusState)
    (candidate : Value) (direction : Int) (next : JSDate)
    (hfound : findFocusableDate cfg candidate direction = some next)
    (hout : (numNe next.getFullYear (s.activeMonthDate.bind JSDate.getFullYear) ||
      numNe next.getMonth (s.activeMonthDate.bind JSDate.getMonth)) = true) :
    ((moveFocusToDate cfg opts s candidate direction).focusDate = some next ∨
      ((moveFocusToDate cfg opts s candidate direction).focusDate = s.focusDate ∧
        isSameDay s.focusDate (some next) = true)) ∧
    ((opts.showAdjacentDays = false ∨ opts.allowOutsideDaysNavigation = true) →
      (moveFocusToDate cfg opts s candidate direction).activeMonthDate =
          goToDate (Value.date next) s.activeMonthDate ∧
        goToDate (Value.date next) s.activeMonthDate = startOfMonth (Value.date next)) ∧
    (opts.showAdjacentDays = true → opts.allowOutsideDaysNavigation = false →
      (moveFocusToDate cfg opts s candidate direction).activeMonthDate =
        s.activeMonthDate) := by
  rw [moveFocusToDate_of_found _ _ _ _ _ _ hfound]
  simp only [hout, if_true]
  refine ⟨?_, ?_, ?_⟩
  · rcases keep_or_take_cases s.focusDate next with h | ⟨c, hc, hs, h⟩
    · exact Or.inl h
    · right; rw [h, hc]; exact ⟨rfl, hs⟩
  · intro h
    refine ⟨?_, goToDate_date _ _⟩
    rcases h with h | h
    · simp [h]
    · simp [h]
  · intro h1 h2
    simp [h1, h2]

/-- Witness of C16: with the anchor on March 2024, moving the focus to 2 April 2024
changes the anchor to 1 April 2024 when `showAdjacentDays` is false, and leaves it when
`showAdjacentDays` is true and `allowOutsideDaysNavigation` is false. -/
theorem moveFocusToDate_outside_month_witness :
    (moveFocusToDate ⟨none, none, []⟩ ⟨false, false, 0⟩
        ⟨some (JSDate.ofYMD (some 2024) (some 2) (some 31)),
          some (JSDate.ofYMD (some 2024) (some 2) (some 1))⟩
        (Value.date (JSDate.ofYMD (some 2024) (some 3) (some 2))) 1).activeMonthDate =
      startOfMonth (Value.date (JSDate.ofYMD (some 2024) (some 3) (some 2))) ∧
    (moveFocusToDate ⟨none, none, []⟩ ⟨true, false, 0⟩
        ⟨some (JSDate.ofYMD (some 2024) (some 2) (some 31)),
          some (JSDate.ofYMD (some 2024) (some 2) (some 1))⟩
        (Value.date (JSDate.ofYMD (some 2024) (some 3) (some 2))) 1).activeMonthDate =
      some (JSDate.ofYMD (some 2024) (some 2) (some 1)) :=
  ⟨((moveFocusToDate_outside_month ⟨none, none, []⟩ ⟨false, false, 0⟩
      ⟨some (JSDate.ofYMD (some 2024) (some 2) (some 31)),
        some (JSDate.ofYMD (some 2024) (some 2) (some 1))⟩
      (Value.date (JSDate.ofYMD (some 2024) (some 3) (some 2))) 1
      (JSDate.ofYMD (some 2024) (some 3) (some 2)) (by decide) (by decide)).2.1
        (Or.inl rfl)).1.trans
      ((moveFocusToDate_outside_month ⟨none, none, []⟩ ⟨false, false, 0⟩
      ⟨some (JSDate.ofYMD (some 2024) (some 2) (some 31)),
        some (JSDate.ofYMD (some 2024) (some 2) (some 1))⟩
      (Value.date (JSDate.ofYMD (some 2024) (some 3) (some 2))) 1
      (JSDate.ofYMD (some 2024) (some 3) (some 2)) (by decide) (by decide)).2.1
        (Or.inl rfl)).2,
    (moveFocusToDate_outside_month ⟨none, none, []⟩ ⟨true, false, 0⟩
      ⟨some (JSDate.ofYMD (some 2024) (some 2) (some 31)),
        some (JSDate.ofYMD (some 2024) (some 2) (some 1))⟩
      (Value.date (JSDate.ofYMD (some 2024) (some 3) (some 2))) 1
      (JSDate.ofYMD (some 2024) (some 3) (some 2)) (by decide) (by decide)).2.2 rfl rfl⟩

/-- Counterexample to C16 as stated: with `showAdjacentDays` false (whatever
`allowOutsideDaysNavigation` is), the anchor on March 2024 and the focus on 31 March
2024, moving the focus to 2 April 2024 changes the active month anchor to 1 April
2024. -/
theorem moveFocusToDate_navigates_without_adjacent_days :
    (moveFocusToDate ⟨none, none, []⟩ ⟨false, false, 0⟩
        ⟨some (JSDate.ofYMD (some 2024) (some 2) (some 31)),
          some (JSDate.ofYMD (some 2024) (some 2) (some 1))⟩
        (Value.date (JSDate.ofYMD (some 2024) (some 3) (some 2))) 1).focusDate =
      some (JSDate.ofYMD (some 2024) (some 3) (some 2)) ∧
    (moveFocusToDate ⟨none, none, []⟩ ⟨false, false, 0⟩
        ⟨some (JSDate.ofYMD (some 2024) (some 2) (some 31)),
          some (JSDate.ofYMD (some 2024) (some 2) (some 1))⟩
        (Value.date (JSDate.ofYMD (some 2024) (some 3) (some 2))) 1).activeMonthDate =
      some (JSDate.ofYMD (some 2024) (some 3) (some 1)) ∧
    (moveFocusToDate ⟨none, none, []⟩ ⟨false, true, 0⟩
        ⟨some (JSDate.ofYMD (some 2024) (some 2) (some 31)),
          some (JSDate.ofYMD (some 2024) (some 2) (some 1))⟩
        (Value.date (JSDate.ofYMD (some 2024) (some 3) (some 2))) 1).activeMonthDate =
      some (JSDate.ofYMD (some 2024) (some 3) (some 1)) := by
  decide

/-! ### Week edges -/

theorem dateOfDay_injective {n m : Int} (h : dateOfDay n = dateOfDay m) : n = m := by
  simp only [dateOfDay, JSDate.mk.injEq, Option.some.injEq] at h
  unfold DAY_IN_MS at h
  omega

theorem referenceDate_override {x : JSDate} (hx : normD x = x) (sel : Option JSDate)
    (s : FocusState) : referenceDate sel s (some x) = some x := by
  unfold referenceDate
  simp only [Option.some_orElse, Option.orElse, HOrElse.hOrElse, OrElse.orElse, Value.ofOption]
  rw [normalizeDate_date, hx]

theorem row_of_grid (G : Int) (w : Nat) :
    ((List.range 7).map fun (i : Nat) => dateOfDay (G + ((w * 7 + i : Nat) : Int))) =
      [dateOfDay (G + ((w * 7 + 0 : Nat) : Int)), dateOfDay (G + ((w * 7 + 1 : Nat) : Int)),
        dateOfDay (G + ((w * 7 + 2 : Nat) : Int)), dateOfDay (G + ((w * 7 + 3 : Nat) : Int)),
        dateOfDay (G + ((w * 7 + 4 : Nat) : Int)), dateOfDay (G + ((w * 7 + 5 : Nat) : Int)),
        dateOfDay (G + ((w * 7 + 6 : Nat) : Int))] := rfl

/-- What `focusWeekEdge` does for a valid reference: nothing when the offset is 0, else
`moveFocusByDays` from the reference. -/
theorem focusWeekEdge_eq (cfg : Config) (opts : Options) (sel : Option JSDate)
    (s : FocusState) (isStart : Bool) (base : Option JSDate) (r : Int)
    (hw0 : 0 ≤ opts.weekStartsOn) (hw : opts.weekStartsOn ≤ 6)
    (href : referenceDate sel s base = some (dateOfDay r)) (offset : Int)
    (hoff : offset = if isStart then -((weekDay r - opts.weekStartsOn + 7) % 7)
      else 6 - (weekDay r - opts.weekStartsOn + 7) % 7) :
    focusWeekEdge cfg opts sel s isStart base =
      if offset = 0 then s
      else moveFocusByDays cfg opts sel s (some offset) (some (dateOfDay r)) := by
  have hwd := weekDay_range r
  have hmod : Int.tmod (weekDay r - opts.weekStartsOn + 7) 7 =
      (weekDay r - opts.weekStartsOn + 7) % 7 := Int.tmod_eq_emod (by omega) (by omega)
  unfold focusWeekEdge
  rw [href]
  simp only [getDay_dateOfDay, numSub, numAdd, numMod, Option.some_bind, Option.map_some',
    show (7 : Int) ≠ 0 by decide, if_false, hmod]
  cases isStart with
  | true =>
    simp only [if_true] at hoff ⊢
    simp only [numNe, numEq, Bool.not_eq_true', decide_eq_false_iff_not, zero_sub, ← hoff]
    by_cases h0 : offset = 0
    · simp [h0]
    · simp [h0]
  | false =>
    simp only [Bool.false_eq_true, if_false] at hoff ⊢
    simp only [numNe, numEq, Bool.not_eq_true', decide_eq_false_iff_not, ← hoff]
    by_cases h0 : offset = 0
    · simp [h0]
    · simp [h0]

/-- The focus after `focusWeekEdge` when the edge of the week is another day than the
reference, is representable and is enabled: that day, or the previous focus object when
it already is that day. -/
theorem focusWeekEdge_focus (cfg : Config) (opts : Options) (sel : Option JSDate)
    (s : FocusState) (isStart : Bool) (base : Option JSDate) (r offset : Int)
    (hw0 : 0 ≤ opts.weekStartsOn) (hw : opts.weekStartsOn ≤ 6)
    (href : referenceDate sel s base = some (dateOfDay r))
    (hoff : offset = if isStart then -((weekDay r - opts.weekStartsOn + 7) % 7)
      else 6 - (weekDay r - opts.weekStartsOn + 7) % 7)
    (h0 : offset ≠ 0) (h1 : -100000000 ≤ r + offset) (h2 : r + offset ≤ 100000000)
    (hen : isDateDisabled cfg (Value.date (dateOfDay (r + offset))) = false) :
    (focusWeekEdge cfg opts sel s isStart base).focusDate = some (dateOfDay (r + offset)) ∨
      ((focusWeekEdge cfg opts sel s isStart base).focusDate = s.focusDate ∧
        isSameDay s.focusDate (some (dateOfDay (r + offset))) = true) := by
  obtain ⟨hcases, hnorm⟩ := referenceDate_cases href
  rcases hcases with hnone | ⟨q, q1, q2, hq⟩
  · exact absurd (congrArg JSDate.tv hnone) (by simp [dateOfDay])
  · have hqr : r = q := dateOfDay_injective hq
    subst hqr
    rw [focusWeekEdge_eq cfg opts sel s isStart base r hw0 hw href offset hoff, if_neg h0]
    refine moveFocusByDays_focus cfg opts sel s offset (some (dateOfDay r)) (dateOfDay r)
      (dateOfDay (r + offset)) h0 (referenceDate_override hnorm sel s) ?_ hen
    rw [shiftDate_date, shiftD_dateOfDay q1 q2, clipDay_of_range h1 h2]

/-- On a host whose local time is UTC, where every day has 24 hours: for every valid
reference date, with day number `r`, and every
`weekStartsOn` in 0..6, with `position = (weekday(reference) - weekStartsOn + 7) mod 7`:
`focusWeekEdge('start')` targets the reference shifted by `-position` days and
`focusWeekEdge('end')` targets the reference shifted by `6 - position` days; whenever
the target is a representable day it has weekday `weekStartsOn`, respectively
`(weekStartsOn + 6) mod 7`, and when it is enabled it becomes the focus (the focus
object is kept when it already is that day); the focus state is unchanged when the
reference is already at that edge.  In every grid of `generateMonthMatrix` (years
-271820 to 275759) that has the reference in some row, the two targets are the first
and the last cell of that row. -/
theorem focusWeekEdge_targets (cfg : Config) (opts : Options) (sel : Option JSDate)
    (s : FocusState) (base : Option JSDate) (r : Int)
    (hw0 : 0 ≤ opts.weekStartsOn) (hw : opts.weekStartsOn ≤ 6)
    (href : referenceDate sel s base = some (dateOfDay r)) :
    (0 ≤ (weekDay r - opts.weekStartsOn + 7) % 7 ∧
      (weekDay r - opts.weekStartsOn + 7) % 7 ≤ 6) ∧
    (focusWeekEdge cfg opts sel s true base =
        (if (weekDay r - opts.weekStartsOn + 7) % 7 = 0 then s
         else moveFocusByDays cfg opts sel s
           (some (-((weekDay r - opts.weekStartsOn + 7) % 7))) (some (dateOfDay r))) ∧
      focusWeekEdge cfg opts sel s false base =
        (if (weekDay r - opts.weekStartsOn + 7) % 7 = 6 then s
         else moveFocusByDays cfg opts sel s
           (some (6 - (weekDay r - opts.weekStartsOn + 7) % 7)) (some (dateOfDay r)))) ∧
    (-100000000 ≤ r - (weekDay r - opts.weekStartsOn + 7) % 7 →
      shiftDate (Value.date (dateOfDay r)) (-((weekDay r - opts.weekStartsOn + 7) % 7)) =
        some (dateOfDay (r - (weekDay r - opts.weekStartsOn + 7) % 7)) ∧
      (dateOfDay (r - (weekDay r - opts.weekStartsOn + 7) % 7)).getDay =
        some opts.weekStartsOn ∧
      ((weekDay r - opts.weekStartsOn + 7) % 7 ≠ 0 →
        isDateDisabled cfg
          (Value.date (dateOfDay (r - (weekDay r - opts.weekStartsOn + 7) % 7))) = false →
        ((focusWeekEdge cfg opts sel s true base).focusDate =
            some (dateOfDay (r - (weekDay r - opts.weekStartsOn + 7) % 7)) ∨
          ((focusWeekEdge cfg opts sel s true base).focusDate = s.focusDate ∧
            isSameDay s.focusDate
              (some (dateOfDay (r - (weekDay r - opts.weekStartsOn + 7) % 7))) = true)))) ∧
    (r + (6 - (weekDay r - opts.weekStartsOn + 7) % 7) ≤ 100000000 →
      shiftDate (Value.date (dateOfDay r)) (6 - (weekDay r - opts.weekStartsOn + 7) % 7) =
        some (dateOfDay (r + (6 - (weekDay r - opts.weekStartsOn + 7) % 7))) ∧
      (dateOfDay (r + (6 - (weekDay r - opts.weekStartsOn + 7) % 7))).getDay =
        some ((opts.weekStartsOn + 6) % 7) ∧
      ((weekDay r - opts.weekStartsOn + 7) % 7 ≠ 6 →
        isDateDisabled cfg
          (Value.date (dateOfDay (r + (6 - (weekDay r - opts.weekStartsOn + 7) % 7)))) =
            false →
        ((focusWeekEdge cfg opts sel s false base).focusDate =
            some (dateOfDay (r + (6 - (weekDay r - opts.weekStartsOn + 7) % 7))) ∨
          ((focusWeekEdge cfg opts sel s false base).focusDate = s.focusDate ∧
            isSameDay s.focusDate
              (some (dateOfDay (r + (6 - (weekDay r - opts.weekStartsOn + 7) % 7)))) =
                true)))) ∧
    (∀ (year month : Int) (row : List JSDate), -271820 ≤ year → year ≤ 275759 →
      0 ≤ month → month ≤ 11 →
      row ∈ generateMonthMatrix (some year) (some month) opts.weekStartsOn →
      dateOfDay r ∈ row →
      row.head? = some (dateOfDay (r - (weekDay r - opts.weekStartsOn + 7) % 7)) ∧
      row.getLast? =
        some (dateOfDay (r + (6 - (weekDay r - opts.weekStartsOn + 7) % 7))) ∧
      dateOfDay (r - (weekDay r - opts.weekStartsOn + 7) % 7) ∈ row ∧
      dateOfDay (r + (6 - (weekDay r - opts.weekStartsOn + 7) % 7)) ∈ row) := by
  have hwd := weekDay_range r
  obtain ⟨hcases, hnorm⟩ := referenceDate_cases href
  obtain ⟨q1, q2⟩ : -100000000 ≤ r ∧ r ≤ 100000000 := by
    rcases hcases with hnone | ⟨q, q1, q2, hq⟩
    · exact absurd (congrArg JSDate.tv hnone) (by simp [dateOfDay])
    · rw [dateOfDay_injective hq]; exact ⟨q1, q2⟩
  have hstart := focusWeekEdge_eq cfg opts sel s true base r hw0 hw href _ rfl
  have hend := focusWeekEdge_eq cfg opts sel s false base r hw0 hw href _ rfl
  simp only [if_true] at hstart
  simp only [Bool.false_eq_true, if_false] at hend
  generalize hp : (weekDay r - opts.weekStartsOn + 7) % 7 = p at *
  have hp6 : 0 ≤ p ∧ p ≤ 6 := by omega
  refine ⟨hp6, ⟨?_, ?_⟩, ?_, ?_, ?_⟩
  · rw [hstart]
    by_cases h : p = 0
    · simp [h]
    · rw [if_neg h, if_neg (by omega)]
  · rw [hend]
    by_cases h : p = 6
    · simp [h]
    · rw [if_neg h, if_neg (by omega)]
  · intro hlo
    refine ⟨?_, ?_, fun hne hen => ?_⟩
    · rw [shiftDate_date, shiftD_dateOfDay q1 q2, clipDay_of_range (by omega) (by omega)]
      rfl
    · rw [getDay_dateOfDay]
      congr 1
      unfold weekDay at hp ⊢
      omega
    · have e : r - p = r + -p := by omega
      rw [e] at hen ⊢
      exact focusWeekEdge_focus cfg opts sel s true base r (-p) hw0 hw href
        (by simp [hp]) (by omega) (by omega) (by omega) hen
  · intro hhi
    refine ⟨?_, ?_, fun hne hen => ?_⟩
    · rw [shiftDate_date, shiftD_dateOfDay q1 q2, clipDay_of_range (by omega) (by omega)]
    · rw [getDay_dateOfDay]
      congr 1
      unfold weekDay at hp ⊢
      omega
    · exact focusWeekEdge_focus cfg opts sel s false base r (6 - p) hw0 hw href
        (by simp [hp]) (by omega) (by omega) (by omega) hen
  · intro year month row hy hy2 hm0 hm hrow hmem
    obtain ⟨g1, g2⟩ := makeDay_first_range year month hy hy2 hm0 hm
    rw [generateMonthMatrix_eq year month opts.weekStartsOn hw0 hw g1 g2, List.mem_map] at hrow
    obtain ⟨w, hw6, hrw⟩ := hrow
    have hG : weekDay (gridStartDay year month opts.weekStartsOn) = opts.weekStartsOn := by
      unfold gridStartDay weekDay; omega
    generalize gridStartDay year month opts.weekStartsOn = G at hG hrw
    rw [← hrw, List.mem_map] at hmem
    obtain ⟨i, hi, hri⟩ := hmem
    rw [List.mem_range] at hi
    have hr : r = G + ((w * 7 + i : Nat) : Int) := (dateOfDay_injective hri).symm
    have hpi : p = (i : Int) := by
      unfold weekDay at hp hG
      push_cast at hr
      omega
    rw [← hrw, row_of_grid]
    have e0 : G + ((w * 7 + 0 : Nat) : Int) = r - p := by push_cast at hr ⊢; omega
    have e6 : G + ((w * 7 + 6 : Nat) : Int) = r + (6 - p) := by push_cast at hr ⊢; omega
    rw [e0, e6]
    refine ⟨rfl, rfl, ?_, ?_⟩
    · exact List.mem_cons_self _ _
    · simp

/-- An instance on a host whose local time is UTC: from Wednesday 13 March 2024 with weeks starting on Monday, Home
targets Monday 11 March 2024. -/
theorem focusWeekEdge_targets_witness :
    shiftDate (Value.date (dateOfDay 19795)) (-((weekDay 19795 - 1 + 7) % 7)) =
        some (dateOfDay (19795 - (weekDay 19795 - 1 + 7) % 7)) ∧
      (dateOfDay (19795 - (weekDay 19795 - 1 + 7) % 7)).getDay = some 1 :=
  have h := (focusWeekEdge_targets ⟨none, none, []⟩ ⟨true, true, 1⟩ none
    ⟨some (dateOfDay 19795), some (JSDate.ofYMD (some 2024) (some 2) (some 1))⟩ none 19795
    (by decide) (by decide) (by decide)).2.2.1 (by decide)
  ⟨h.1, h.2.1⟩

/-- Beyond the range of time values: from the last date a
`Date` can hold, Saturday 13 September 275760, with weeks starting on Monday, the end
of the week would be the following day; `focusWeekEdge('end')` targets an Invalid Date,
which has no weekday, and, with no bounds and no disabled dates, makes it the focus. -/
theorem focusWeekEdge_beyond_last_day :
    (dateOfDay 100000000).getDay = some 6 ∧
    shiftDate (Value.date (dateOfDay 100000000)) 1 = some ⟨none⟩ ∧
    (⟨none⟩ : JSDate).getDay = none ∧
    (focusWeekEdge ⟨none, none, []⟩ ⟨true, true, 1⟩ none
      ⟨some (dateOfDay 100000000), some (dateOfDay 99999988)⟩ false none).focusDate =
      some ⟨none⟩ := by
  decide

/-! ### An exhausted scan -/

theorem moveFocusToDate_of_absent (cfg : Config) (opts : Options) (s : FocusState)
    (candidate : Value) (direction : Int)
    (h : findFocusableDate cfg candidate direction = none) :
    moveFocusToDate cfg opts s candidate direction = s := by
  unfold moveFocusToDate
  rw [h]

theorem moveFocusByDays_of_absent (cfg : Config) (opts : Options) (sel : Option JSDate)
    (s : FocusState) (offset : Int) (base : Option JSDate) (reference : JSDate)
    (href : referenceDate sel s base = some reference)
    (h : findFocusableDate cfg (Value.ofOption (shiftDate (Value.date reference) offset))
      (if offset ≥ 0 then 1 else -1) = none) :
    moveFocusByDays cfg opts sel s (some offset) base = s := by
  unfold moveFocusByDays
  simp only [href]
  by_cases h0 : offset = 0
  · rw [if_pos h0]
  · rw [if_neg h0]
    exact moveFocusToDate_of_absent _ _ _ _ _ h

/-- C18: whenever `findFocusableDate` returns absent for the candidate of a move, the
callers leave the prior focus untouched: `moveFocusToDate`, and hence `moveFocusByDays`,
`moveFocusByMonths`, `focusWeekEdge` and `focusToday`, change neither the focused date
nor the active month anchor; and the reconciliation steps that follow the selection and
the active month keep the previously focused date. -/
theorem focus_untouched_when_scan_exhausted (cfg : Config) (opts : Options)
    (sel : Option JSDate) (s : FocusState) :
    (∀ (candidate : Value) (direction : Int),
      findFocusableDate cfg candidate direction = none →
      moveFocusToDate cfg opts s candidate direction = s) ∧
    (∀ (offset : Int) (base : Option JSDate) (reference : JSDate),
      referenceDate sel s base = some reference →
      findFocusableDate cfg (Value.ofOption (shiftDate (Value.date reference) offset))
        (if offset ≥ 0 then 1 else -1) = none →
      moveFocusByDays cfg opts sel s (some offset) base = s) ∧
    (∀ (delta : Int) (base : Option JSDate) (reference : JSDate),
      referenceDate sel s base = some reference →
      findFocusableDate cfg
        (Value.date ((JSDate.ofTime reference.getTime).setMonth
          (numAdd (JSDate.ofTime reference.getTime).getMonth (some delta))))
        (if delta ≥ 0 then 1 else -1) = none →
      moveFocusByMonths cfg opts sel s delta base = s) ∧
    (∀ (isStart : Bool) (base : Option JSDate) (reference : JSDate),
      referenceDate sel s base = some reference →
      (∀ offset : Int,
        (if isStart then
            numSub (some 0) (numMod (numAdd (numSub reference.getDay
              (some opts.weekStartsOn)) (some 7)) (some 7))
          else
            numSub (some 6) (numMod (numAdd (numSub reference.getDay
              (some opts.weekStartsOn)) (some 7)) (some 7))) = some offset →
        findFocusableDate cfg (Value.ofOption (shiftDate (Value.date reference) offset))
          (if offset ≥ 0 then 1 else -1) = none) →
      focusWeekEdge cfg opts sel s isStart base = s) ∧
    (∀ now today : JSDate, normalizeDate (Value.date now) = some today →
      findFocusableDate cfg (Value.date today) 1 = none →
      focusToday cfg opts s now = s) ∧
    (∀ c selected : JSDate, effectiveSelectedStable sel = some selected →
      findFocusableDate cfg (Value.date selected) 1 = none →
      reconcileSelection cfg sel (some c) = some c) ∧
    (∀ c active : JSDate, activeMonthStable s.activeMonthDate = some active →
      findFocusableDate cfg
        (Value.date
          (match effectiveSelectedStable sel with
           | some selected => if sameMonth selected active then selected else active
           | none => active)) 1 = none →
      reconcileMonth cfg sel s.activeMonthDate (some c) = some c) := by
  refine ⟨fun candidate direction h => moveFocusToDate_of_absent _ _ _ _ _ h,
    fun offset base reference href h =>
      moveFocusByDays_of_absent cfg opts sel s offset base reference href h, ?_, ?_, ?_, ?_, ?_⟩
  · intro delta base reference href h
    unfold moveFocusByMonths
    simp only [href]
    exact moveFocusToDate_of_absent _ _ _ _ _ h
  · intro isStart base reference href h
    have hnorm := (referenceDate_cases href).2
    unfold focusWeekEdge
    simp only [href]
    generalize (if isStart then
        numSub (some 0) (numMod (numAdd (numSub reference.getDay
          (some opts.weekStartsOn)) (some 7)) (some 7))
      else
        numSub (some 6) (numMod (numAdd (numSub reference.getDay
          (some opts.weekStartsOn)) (some 7)) (some 7))) = off at h ⊢
    split_ifs
    · cases off with
      | none => rfl
      | some o =>
        exact moveFocusByDays_of_absent cfg opts sel s o (some reference) reference
          (referenceDate_override hnorm sel s) (h o rfl)
    · rfl
  · intro now today hnow h
    unfold focusToday
    simp only [hnow]
    exact moveFocusToDate_of_absent _ _ _ _ _ h
  · intro c selected hsel h
    unfold reconcileSelection
    simp only [hsel, h]
    split_ifs <;> rfl
  · intro c active hact h
    unfold reconcileMonth
    simp only [hact]
    split_ifs
    · rfl
    · cases hs : effectiveSelectedStable sel with
      | none =>
        simp only [hs] at h ⊢
        rw [h]
        rfl
      | some selected =>
        simp only [hs] at h ⊢
        rw [h]
        rfl

/-- Witness of C18: with `maxDate` 31 March 2024, no enabled date lies within 120 days
after 15 August 2024, and moving the focus there changes nothing. -/
theorem focus_untouched_when_scan_exhausted_witness :
    findFocusableDate ⟨none, some (JSDate.ofYMD (some 2024) (some 2) (some 31)), []⟩
        (Value.date (JSDate.ofYMD (some 2024) (some 7) (some 15))) 1 = none ∧
    moveFocusToDate ⟨none, some (JSDate.ofYMD (some 2024) (some 2) (some 31)), []⟩
        ⟨true, true, 0⟩
        ⟨some (JSDate.ofYMD (some 2024) (some 2) (some 10)),
          some (JSDate.ofYMD (some 2024) (some 2) (some 1))⟩
        (Value.date (JSDate.ofYMD (some 2024) (some 7) (some 15))) 1 =
      ⟨some (JSDate.ofYMD (some 2024) (some 2) (some 10)),
        some (JSDate.ofYMD (some 2024) (some 2) (some 1))⟩ :=
  ⟨by decide,
    (focus_untouched_when_scan_exhausted
      ⟨none, some (JSDate.ofYMD (some 2024) (some 2) (some 31)), []⟩ ⟨true, true, 0⟩ none
      ⟨some (JSDate.ofYMD (some 2024) (some 2) (some 10)),
        some (JSDate.ofYMD (some 2024) (some 2) (some 1))⟩).1
      (Value.date (JSDate.ofYMD (some 2024) (some 7) (some 15))) 1 (by decide)⟩

/-! ### Navigation and the bounds -/

/-- C19 (amended): `goToDate` applies no min/max clamping, just like `goToMonth`; only
the initial anchor is clamped.  For every `Date` value, `goToDate(value)` sets the
active month anchor to `startOfMonth(value)` whatever the bounds are: when that is a
valid date it is the first day of the value's own month.  For an unparseable value the
anchor is unchanged.  `goToMonth(year, month)` sets the anchor to the first day of that
month, when it is representable, regardless of the bounds. -/
theorem goToDate_applies_no_clamp :
    (∀ (d : JSDate) (current : Option JSDate),
      goToDate (Value.date d) current = startOfMonth (Value.date d)) ∧
    (∀ (d a : JSDate) (current : Option JSDate),
      goToDate (Value.date d) current = some a → a.Valid →
      a.getFullYear = d.getFullYear ∧ a.getMonth = d.getMonth ∧ a.getDate = some 1) ∧
    (∀ current : Option JSDate,
      goToDate Value.other current = current ∧
      goToDate (Value.string none) current = current ∧
      goToDate (Value.ofOption none) current = current) ∧
    (∀ year month : Int, -100000000 ≤ makeDay (fullYear year) month 1 →
      makeDay (fullYear year) month 1 ≤ 100000000 →
      goToMonth (some year) (some month) =
          some (dateOfDay (makeDay (fullYear year) month 1)) ∧
        (dateOfDay (makeDay (fullYear year) month 1)).getDate = some 1) := by
  refine ⟨goToDate_date, ?_, ?_, ?_⟩
  · intro d a current h hv
    rw [goToDate_date] at h
    rcases startOfMonth_date_cases d with hn | ⟨y, m, hm0, hm, hy, hmm, hs, -, -⟩
    · rw [hn] at h
      rw [← Option.some.inj h] at hv
      exact absurd hv (by decide)
    · rw [hs] at h
      rw [← Option.some.inj h, hy, hmm, getFullYear_dateOfDay, getMonth_dateOfDay,
        getDate_dateOfDay]
      obtain ⟨c1, c2, c3⟩ := civil_first_of_month y m hm0 hm
      rw [c1, c2, c3]
      exact ⟨rfl, rfl, rfl⟩
  · intro current
    exact ⟨rfl, rfl, rfl⟩
  · intro year month h1 h2
    have e := makeDay_carry (fullYear year) month 1
    unfold goToMonth
    rw [ofYMD_eq h1 h2]
    rw [e] at h1 h2 ⊢
    rw [startOfMonth_first _ _ (by omega) (by omega) h1 h2, getDate_first_of_month _ _
      (by omega) (by omega)]
    exact ⟨rfl, rfl⟩

/-- Witness of C19: `goToDate` of 15 June 2030 makes 1 June 2030 the anchor. -/
theorem goToDate_applies_no_clamp_witness :
    (JSDate.ofYMD (some 2030) (some 5) (some 1)).getDate = some 1 ∧
    goToMonth (some 2030) (some 5) = some (dateOfDay (makeDay (fullYear 2030) 5 1)) :=
  ⟨(goToDate_applies_no_clamp.2.1 (JSDate.ofYMD (some 2030) (some 5) (some 15))
      (JSDate.ofYMD (some 2030) (some 5) (some 1))
      (some (JSDate.ofYMD (some 2024) (some 5) (some 1))) (by decide) (by decide)).2.2,
    (goToDate_applies_no_clamp.2.2.2 2030 5 (by decide) (by decide)).1⟩

/-- Counterexample to C19 as stated: with `minDate` 1 January 2024 and `maxDate` 31
December 2024 (the initial anchor for an `initialDate` of 15 June 2024 is 1 June 2024,
within the bounds), `goToDate` of 15 June 2030 sets the anchor to 1 June 2030, which is
after `maxDate`. -/
theorem goToDate_leaves_bounds :
    startDate (JSDate.ofYMD (some 2024) (some 5) (some 15))
        (Value.date (JSDate.ofYMD (some 2024) (some 5) (some 15)))
        (Value.date (JSDate.ofYMD (some 2024) (some 0) (some 1)))
        (Value.date (JSDate.ofYMD (some 2024) (some 11) (some 31))) =
      some (JSDate.ofYMD (some 2024) (some 5) (some 1)) ∧
    goToDate (Value.date (JSDate.ofYMD (some 2030) (some 5) (some 15)))
        (some (JSDate.ofYMD (some 2024) (some 5) (some 1))) =
      some (JSDate.ofYMD (some 2030) (some 5) (some 1)) ∧
    isAfter (some (JSDate.ofYMD (some 2030) (some 5) (some 1)))
        (some (JSDate.ofYMD (some 2024) (some 11) (some 31))) = true ∧
    isWithinRange (Value.date (JSDate.ofYMD (some 2030) (some 5) (some 1)))
        (some (JSDate.ofYMD (some 2024) (some 0) (some 1)))
        (some (JSDate.ofYMD (some 2024) (some 11) (some 31))) = false := by
  decide

theorem setMonth_clip (n k : Int) :
    (dateOfDay n).setMonth (some k) =
      clipDay (makeDay (yearFromDay n) k (dateFromDay n)) := by
  rw [← mk_timeClip_day]
  simp [JSDate.setMonth, dateOfDay, day_mul, timeWithinDay_mul, makeDate]

/-- For a reference on one of the days 1 to 28 of its month, `moveFocusByMonths` does
what C14 says: when the candidate is a valid, enabled date, the new focus lies in the
month whose index `year * 12 + month` is that of the reference plus `delta`. -/
theorem moveFocusByMonths_month_index_of_day_le_28 (cfg : Config) (opts : Options)
    (sel : Option JSDate) (s : FocusState) (delta : Int) (base : Option JSDate) (r : Int)
    (candidate : JSDate)
    (href : referenceDate sel s base = some (dateOfDay r))
    (hday : dateFromDay r ≤ 28)
    (hcand : (JSDate.ofTime (dateOfDay r).getTime).setMonth
      (numAdd (JSDate.ofTime (dateOfDay r).getTime).getMonth (some delta)) = candidate)
    (hv : candidate.Valid)
    (hen : isDateDisabled cfg (Value.date candidate) = false) :
    ∃ (f : JSDate) (y m : Int),
      (moveFocusByMonths cfg opts sel s delta base).focusDate = some f ∧
      f.getFullYear = some y ∧ f.getMonth = some m ∧
      y * 12 + m = yearFromDay r * 12 + monthFromDay r + delta := by
  obtain ⟨hcases, -⟩ := referenceDate_cases href
  obtain ⟨q1, q2⟩ : -100000000 ≤ r ∧ r ≤ 100000000 := by
    rcases hcases with hnone | ⟨q, q1, q2, hq⟩
    · exact absurd (congrArg JSDate.tv hnone) (by simp [dateOfDay])
    · rw [dateOfDay_injective hq]; exact ⟨q1, q2⟩
  have hcopy : JSDate.ofTime (dateOfDay r).getTime = dateOfDay r := copy_dateOfDay q1 q2
  have hmove : moveFocusByMonths cfg opts sel s delta base =
      moveFocusToDate cfg opts s (Value.date candidate) (if delta ≥ 0 then 1 else -1) := by
    unfold moveFocusByMonths
    simp only [href, hcand]
  rw [hcopy, getMonth_dateOfDay] at hcand
  simp only [numAdd, Option.some_bind, Option.map_some'] at hcand
  rw [setMonth_clip] at hcand
  rw [← hcand] at hv
  obtain ⟨e, c1, c2⟩ := clipDay_valid hv
  rw [e] at hcand
  have hd := dateFromDay_range r
  set K := yearFromDay r * 12 + monthFromDay r + delta with hK
  have hidx : makeDay (yearFromDay r) (monthFromDay r + delta) (dateFromDay r) =
      makeDay (K / 12) (K % 12) (dateFromDay r) := makeDay_index _ _ _ _ _ (by omega)
  have hl : (0 : Int) ≤ (if daysInYear (K / 12) = 366 then (1 : Int) else 0) ∧
      (if daysInYear (K / 12) = 366 then (1 : Int) else 0) ≤ 1 := by
    split_ifs <;> omega
  have hlen := monthLength_range _ (K % 12) hl.1 hl.2 (by omega) (by omega)
  obtain ⟨v1, v2, -⟩ := civil_makeDay (K / 12) (K % 12) (dateFromDay r) (by omega) (by omega)
    hd.1 (by omega)
  rw [← hidx] at v1 v2
  have hnorm : normD candidate = candidate := by
    rw [← hcand, normD_dateOfDay c1 c2]
  have hfound := findFocusableDate_of_enabled cfg candidate (if delta ≥ 0 then 1 else -1) hen
  rw [hnorm] at hfound
  rw [hmove, moveFocusToDate_of_found _ _ _ _ _ _ hfound]
  simp only
  have hcy : candidate.getFullYear = some (K / 12) := by
    rw [← hcand, getFullYear_dateOfDay, v1]
  have hcm : candidate.getMonth = some (K % 12) := by
    rw [← hcand, getMonth_dateOfDay, v2]
  rcases keep_or_take_cases s.focusDate candidate with h | ⟨c, hc, hs, h⟩
  · exact ⟨candidate, K / 12, K % 12, h, hcy, hcm, by omega⟩
  · refine ⟨c, K / 12, K % 12, h, ?_, ?_, by omega⟩
    · simp only [isSameDay, hcy, hcm, Bool.and_eq_true] at hs
      cases hy : c.getFullYear with
      | none => rw [hy] at hs; simp [numEq] at hs
      | some y => rw [hy] at hs; simp [numEq] at hs; rw [hs.1.1]
    · simp only [isSameDay, hcy, hcm, Bool.and_eq_true] at hs
      cases hm : c.getMonth with
      | none => rw [hm] at hs; simp [numEq] at hs
      | some m => rw [hm] at hs; simp [numEq] at hs; rw [hs.1.2]

/-! ### The host without time-zone offset as a zone -/

theorem zoned_getFullYear_utc : Zoned.getFullYear Zone.utc = JSDate.getFullYear := by
  funext d
  simp [Zoned.getFullYear, JSDate.getFullYear, Zone.localTime, Zone.utc]

theorem zoned_getMonth_utc : Zoned.getMonth Zone.utc = JSDate.getMonth := by
  funext d
  simp [Zoned.getMonth, JSDate.getMonth, Zone.localTime, Zone.utc]

theorem zoned_getDate_utc : Zoned.getDate Zone.utc = JSDate.getDate := by
  funext d
  simp [Zoned.getDate, JSDate.getDate, Zone.localTime, Zone.utc]

theorem zoned_getDay_utc : Zoned.getDay Zone.utc = JSDate.getDay := by
  funext d
  simp [Zoned.getDay, JSDate.getDay, Zone.localTime, Zone.utc]

theorem zoned_setHours0_utc : Zoned.setHours0 Zone.utc = JSDate.setHours0 := by
  funext d
  simp [Zoned.setHours0, JSDate.setHours0, Zone.localTime, Zone.toUTC, Zone.utc]

theorem zoned_setDate_utc : Zoned.setDate Zone.utc = JSDate.setDate := by
  funext d dt
  simp [Zoned.setDate, JSDate.setDate, Zone.localTime, Zone.toUTC, Zone.utc]

theorem zoned_ofYMD_utc : Zoned.ofYMD Zone.utc = JSDate.ofYMD := by
  funext y m d
  simp [Zoned.ofYMD, JSDate.ofYMD, Zone.toUTC, Zone.utc]

theorem zoned_normalizeDate_utc : Zoned.normalizeDate Zone.utc = normalizeDate := by
  funext v
  simp only [Zoned.normalizeDate, normalizeDate, zoned_setHours0_utc]

theorem zoned_startOfMonth_utc : Zoned.startOfMonth Zone.utc = startOfMonth := by
  funext v
  simp only [Zoned.startOfMonth, startOfMonth, zoned_normalizeDate_utc, zoned_setDate_utc]

theorem zoned_dateKey_utc : Zoned.dateKey Zone.utc = dateKey := by
  funext v
  simp only [Zoned.dateKey, dateKey, zoned_normalizeDate_utc, zoned_getFullYear_utc,
    zoned_getMonth_utc, zoned_getDate_utc]

theorem zoned_isSameDay_utc : Zoned.isSameDay Zone.utc = isSameDay := by
  funext a b
  simp only [Zoned.isSameDay, isSameDay, zoned_getFullYear_utc, zoned_getMonth_utc,
    zoned_getDate_utc]

theorem zoned_isWithinRange_utc : Zoned.isWithinRange Zone.utc = isWithinRange := by
  funext v mn mx
  simp only [Zoned.isWithinRange, isWithinRange, zoned_normalizeDate_utc]

theorem zoned_shiftDate_utc : Zoned.shiftDate Zone.utc = shiftDate := by
  funext v n
  simp only [Zoned.shiftDate, shiftDate, zoned_normalizeDate_utc, zoned_setHours0_utc]

theorem zoned_isDateDisabled_utc : Zoned.isDateDisabled Zone.utc = isDateDisabled := by
  funext cfg v
  simp only [Zoned.isDateDisabled, isDateDisabled, zoned_normalizeDate_utc,
    zoned_isWithinRange_utc, zoned_dateKey_utc]

theorem zoned_scanFocusable_utc : Zoned.scanFocusable Zone.utc = scanFocusable := by
  funext cfg step left
  induction left with
  | zero => funext cursor; rfl
  | succ left ih =>
    funext cursor
    simp only [Zoned.scanFocusable, scanFocusable, zoned_shiftDate_utc,
      zoned_isDateDisabled_utc, ih]

theorem zoned_findFocusableDate_utc : Zoned.findFocusableDate Zone.utc = findFocusableDate := by
  funext cfg v direction
  simp only [Zoned.findFocusableDate, findFocusableDate, zoned_normalizeDate_utc,
    zoned_isDateDisabled_utc, zoned_scanFocusable_utc]

theorem zoned_goToDate_utc : Zoned.goToDate Zone.utc = goToDate := by
  funext v current
  simp only [Zoned.goToDate, goToDate, zoned_normalizeDate_utc, zoned_startOfMonth_utc]

theorem zoned_moveFocusToDate_utc : Zoned.moveFocusToDate Zone.utc = moveFocusToDate := by
  funext cfg opts s v direction
  simp only [Zoned.moveFocusToDate, moveFocusToDate, zoned_findFocusableDate_utc,
    zoned_isSameDay_utc, zoned_getFullYear_utc, zoned_getMonth_utc, zoned_goToDate_utc]

theorem zoned_referenceDate_utc : Zoned.referenceDate Zone.utc = referenceDate := by
  funext sel s base
  simp only [Zoned.referenceDate, referenceDate, zoned_normalizeDate_utc]

theorem zoned_moveFocusByDays_utc : Zoned.moveFocusByDays Zone.utc = moveFocusByDays := by
  funext cfg opts sel s offset base
  simp only [Zoned.moveFocusByDays, moveFocusByDays, zoned_referenceDate_utc,
    zoned_shiftDate_utc, zoned_moveFocusToDate_utc]

theorem zoned_focusWeekEdge_utc : Zoned.focusWeekEdge Zone.utc = focusWeekEdge := by
  funext cfg opts sel s isStart base
  simp only [Zoned.focusWeekEdge, focusWeekEdge, zoned_referenceDate_utc, zoned_getDay_utc,
    zoned_moveFocusByDays_utc]

/-! ### Day shifts across a change of the time-zone offset -/

/-- C10 fails on the code, on a host in the zone America/New_York: for `d` = 3 November
2024 (local midnight, a normalized valid date) `shiftDate(d, 1)` is `d` itself, not
4 November: 24 hours after the midnight of the 25-hour day is 23:00 of the same day,
which `setHours(0, 0, 0, 0)` takes back to `d`.  Shifting the result by -1 gives
2 November, and `isSameDay(shiftDate(shiftDate(d, 1), -1), d)` is false. -/
theorem shiftDate_repeats_day_at_fall_back :
    Zoned.normalizeDate Zone.newYork2024
        (Value.date (Zoned.ofYMD Zone.newYork2024 (some 2024) (some 10) (some 3))) =
      some (Zoned.ofYMD Zone.newYork2024 (some 2024) (some 10) (some 3)) ∧
    Zoned.shiftDate Zone.newYork2024
        (Value.date (Zoned.ofYMD Zone.newYork2024 (some 2024) (some 10) (some 3))) 1 =
      some (Zoned.ofYMD Zone.newYork2024 (some 2024) (some 10) (some 3)) ∧
    Zoned.getDate Zone.newYork2024
        (Zoned.ofYMD Zone.newYork2024 (some 2024) (some 10) (some 3)) = some 3 ∧
    Zoned.shiftDate Zone.newYork2024
        (Value.date (Zoned.ofYMD Zone.newYork2024 (some 2024) (some 10) (some 3))) (-1) =
      some (Zoned.ofYMD Zone.newYork2024 (some 2024) (some 10) (some 2)) ∧
    Zoned.isSameDay Zone.newYork2024
        (some (Zoned.ofYMD Zone.newYork2024 (some 2024) (some 10) (some 2)))
        (some (Zoned.ofYMD Zone.newYork2024 (some 2024) (some 10) (some 3))) = false := by
  decide

/-- C3 fails on the code, on a host in the zone America/New_York: with only 11 March
2024 disabled, `findFocusableDate(11 March 2024, -1)` returns 9 March 2024 although
10 March 2024, the date one day before the candidate, is enabled.  24 hours before the
midnight of 11 March is 23:00 of 9 March, as 10 March has 23 hours, so the scan steps
over 10 March. -/
theorem findFocusableDate_steps_over_enabled_day :
    Zoned.isDateDisabled Zone.newYork2024 ⟨none, none, ["2024-03-11"]⟩
        (Value.date (Zoned.ofYMD Zone.newYork2024 (some 2024) (some 2) (some 11))) = true ∧
    Zoned.isDateDisabled Zone.newYork2024 ⟨none, none, ["2024-03-11"]⟩
        (Value.date (Zoned.ofYMD Zone.newYork2024 (some 2024) (some 2) (some 10))) = false ∧
    Zoned.findFocusableDate Zone.newYork2024 ⟨none, none, ["2024-03-11"]⟩
        (Value.date (Zoned.ofYMD Zone.newYork2024 (some 2024) (some 2) (some 11))) (-1) =
      some (Zoned.ofYMD Zone.newYork2024 (some 2024) (some 2) (some 9)) ∧
    Zoned.getDate Zone.newYork2024
        (Zoned.ofYMD Zone.newYork2024 (some 2024) (some 2) (some 9)) = some 9 := by
  decide

/-- C4 fails on the code, on a host in the zone America/New_York: with 1, 2 and 3
November 2024 disabled, `findFocusableDate(1 November 2024, 1)` returns absent although
4 November 2024, three days after the candidate, is enabled.  The scan reaches
3 November and stays there, as shifting 3 November by one day gives 3 November again,
until its 120 attempts are used up. -/
theorem findFocusableDate_absent_with_enabled_day_near :
    Zoned.isDateDisabled Zone.newYork2024
        ⟨none, none, ["2024-11-01", "2024-11-02", "2024-11-03"]⟩
        (Value.date (Zoned.ofYMD Zone.newYork2024 (some 2024) (some 10) (some 4))) = false ∧
    Zoned.shiftDate Zone.newYork2024
        (Value.date (Zoned.ofYMD Zone.newYork2024 (some 2024) (some 10) (some 3))) 1 =
      some (Zoned.ofYMD Zone.newYork2024 (some 2024) (some 10) (some 3)) ∧
    Zoned.findFocusableDate Zone.newYork2024
        ⟨none, none, ["2024-11-01", "2024-11-02", "2024-11-03"]⟩
        (Value.date (Zoned.ofYMD Zone.newYork2024 (some 2024) (some 10) (some 1))) 1 =
      none := by
  decide

/-- C13 fails on the code, on a host in the zone America/New_York: with no bounds and
no disabled dates, `moveFocusByDays(-7, d)` from Wednesday 13 March 2024 puts the focus
on Tuesday 5 March 2024, not on Wednesday 6 March: 7 times 24 hours before the midnight
of 13 March is 23:00 of 5 March, because 10 March has 23 hours. -/
theorem moveFocusByDays_lands_a_day_early :
    Zoned.getDay Zone.newYork2024
        (Zoned.ofYMD Zone.newYork2024 (some 2024) (some 2) (some 13)) = some 3 ∧
    Zoned.isDateDisabled Zone.newYork2024 ⟨none, none, []⟩
        (Value.date (Zoned.ofYMD Zone.newYork2024 (some 2024) (some 2) (some 6))) = false ∧
    (Zoned.moveFocusByDays Zone.newYork2024 ⟨none, none, []⟩ ⟨true, true, 0⟩ none
        ⟨some (Zoned.ofYMD Zone.newYork2024 (some 2024) (some 2) (some 13)),
          some (Zoned.ofYMD Zone.newYork2024 (some 2024) (some 2) (some 1))⟩ (some (-7))
        (some (Zoned.ofYMD Zone.newYork2024 (some 2024) (some 2) (some 13)))).focusDate =
      some (Zoned.ofYMD Zone.newYork2024 (some 2024) (some 2) (some 5)) ∧
    Zoned.getDay Zone.newYork2024
        (Zoned.ofYMD Zone.newYork2024 (some 2024) (some 2) (some 5)) = some 2 := by
  decide

/-- C17 fails on the code, on a host in the zone America/New_York: with weeks starting
on Sunday, no bounds and no disabled dates, `focusWeekEdge('end')` from Sunday
3 November 2024 puts the focus on Friday 8 November 2024, whose weekday is 5 and not
`(weekStartsOn + 6) mod 7 = 6`; the last cell of the reference's row is Saturday
9 November.  The reference has position 0, so the offset is 6, and 6 times 24 hours
after the midnight of the 25-hour day 3 November is 23:00 of 8 November. -/
theorem focusWeekEdge_end_lands_on_friday :
    Zoned.getDay Zone.newYork2024
        (Zoned.ofYMD Zone.newYork2024 (some 2024) (some 10) (some 3)) = some 0 ∧
    (Zoned.focusWeekEdge Zone.newYork2024 ⟨none, none, []⟩ ⟨true, true, 0⟩ none
        ⟨some (Zoned.ofYMD Zone.newYork2024 (some 2024) (some 10) (some 3)),
          some (Zoned.ofYMD Zone.newYork2024 (some 2024) (some 10) (some 1))⟩ false
        none).focusDate =
      some (Zoned.ofYMD Zone.newYork2024 (some 2024) (some 10) (some 8)) ∧
    Zoned.getDay Zone.newYork2024
        (Zoned.ofYMD Zone.newYork2024 (some 2024) (some 10) (some 8)) = some 5 ∧
    Zoned.isDateDisabled Zone.newYork2024 ⟨none, none, []⟩
        (Value.date (Zoned.ofYMD Zone.newYork2024 (some 2024) (some 10) (some 9))) = false := by
  decide

/-! ### A focused date that becomes disabled -/

/-- C5 fails on the code when the disabled set changes.  With `defaultSelectedDate` and
focus on 10 March 2024, the anchor on March 2024, no bounds and at first no disabled
dates, the focus is enabled.  When `disabledDates` becomes `['2024-03-10']`, both
reconciliation effects run again and both return the current focus without testing it,
the first because the focus is the selected day, the second because the focus lies in
the active month: the focus stays on 10 March 2024, which is now disabled, although
11 March is enabled.  The same happens without any selection. -/
theorem focus_kept_on_newly_disabled_date :
    initialFocus ⟨none, none, []⟩ (some (JSDate.ofYMD (some 2024) (some 2) (some 10)))
        (some (JSDate.ofYMD (some 2024) (some 2) (some 1)))
        (JSDate.ofYMD (some 2024) (some 2) (some 20)) =
      some (JSDate.ofYMD (some 2024) (some 2) (some 10)) ∧
    isDateDisabled ⟨none, none, []⟩
        (Value.date (JSDate.ofYMD (some 2024) (some 2) (some 10))) = false ∧
    buildDateSet [Value.string (some 1710028800000)] = ["2024-03-10"] ∧
    isDateDisabled ⟨none, none, ["2024-03-10"]⟩
        (Value.date (JSDate.ofYMD (some 2024) (some 2) (some 10))) = true ∧
    isDateDisabled ⟨none, none, ["2024-03-10"]⟩
        (Value.date (JSDate.ofYMD (some 2024) (some 2) (some 11))) = false ∧
    reconcileSelection ⟨none, none, ["2024-03-10"]⟩
        (some (JSDate.ofYMD (some 2024) (some 2) (some 10)))
        (some (JSDate.ofYMD (some 2024) (some 2) (some 10))) =
      some (JSDate.ofYMD (some 2024) (some 2) (some 10)) ∧
    reconcileMonth ⟨none, none, ["2024-03-10"]⟩
        (some (JSDate.ofYMD (some 2024) (some 2) (some 10)))
        (some (JSDate.ofYMD (some 2024) (some 2) (some 1)))
        (some (JSDate.ofYMD (some 2024) (some 2) (some 10))) =
      some (JSDate.ofYMD (some 2024) (some 2) (some 10)) ∧
    reconcileSelection ⟨none, none, ["2024-03-10"]⟩ none
        (some (JSDate.ofYMD (some 2024) (some 2) (some 10))) =
      some (JSDate.ofYMD (some 2024) (some 2) (some 10)) ∧
    reconcileMonth ⟨none, none, ["2024-03-10"]⟩ none
        (some (JSDate.ofYMD (some 2024) (some 2) (some 1)))
        (some (JSDate.ofYMD (some 2024) (some 2) (some 10))) =
      some (JSDate.ofYMD (some 2024) (some 2) (some 10)) := by
  decide

end FlexiCalendar
